import Mathlib

/-!
# ThingSpeak communication library for Particle: a shallow embedding

The definitions below embed `src/src/ThingSpeak.h` (class `ThingSpeakClass`).

* An Arduino/Particle `String` is a list of bytes, each byte a natural number
  (`char` is unsigned on the ARM targets the header accepts, so a byte is a
  value in `0 .. 255`).
* `int`/`long` results (status codes, entry ids) are integers.
* The `Client` the library talks to is a scripted transport: its answers are
  data, and every call the library makes on it is recorded in a trace.
-/

set_option linter.unusedVariables false

namespace ThingSpeak

/-! ## Bytes and text -/

/-- An Arduino `String` / C string: its bytes in order. -/
abbrev Bytes := List Nat

/-- The bytes of an ASCII literal of the source. -/
def bytes (s : String) : Bytes := s.toList.map Char.toNat

/-! ## Constants of the header -/

def FIELDNUM_MIN : Nat := 1
def FIELDNUM_MAX : Nat := 8
def FIELDLENGTH_MAX : Nat := 255
def TIMEOUT_MS_SERVERRESPONSE : Nat := 5000
def THINGSPEAK_PORT_NUMBER : Nat := 80

def TS_OK_SUCCESS : Int := 200
def TS_ERR_BADAPIKEY : Int := 400
def TS_ERR_BADURL : Int := 404
def TS_ERR_OUT_OF_RANGE : Int := -101
def TS_ERR_INVALID_FIELD_NUM : Int := -201
def TS_ERR_SETFIELD_NOT_CALLED : Int := -210
def TS_ERR_CONNECT_FAILED : Int := -301
def TS_ERR_UNEXPECTED_FAIL : Int := -302
def TS_ERR_BAD_RESPONSE : Int := -303
def TS_ERR_TIMEOUT : Int := -304
def TS_ERR_NOT_INSERTED : Int := -401

/-! ## escapeUrl -/

/-- One uppercase hexadecimal digit, as `%X` prints it. -/
def hexDigitUpper (d : Nat) : Nat := if d < 10 then 48 + d else 55 + d

/-- The text `sprintf(temp, "%%%02X", t)` leaves in `temp` for a byte `t`:
a percent sign and two uppercase hexadecimal digits. -/
def sprintfPercentHex (t : Nat) : Bytes :=
  [37, hexDigitUpper (t / 16 % 16), hexDigitUpper (t % 16)]

/-- The test `t == 0x22 || t == 0x25 || t == 0x26 || t == 0x2B || t == 0x3B`. -/
def isSpecial (t : Nat) : Bool :=
  t == 0x22 || t == 0x25 || t == 0x26 || t == 0x2B || t == 0x3B

/-- The test `(t >= 0x00 && t <= 0x1F) || t >= 0x80`. -/
def isDropped (t : Nat) : Bool :=
  (decide (0x00 ≤ t) && decide (t ≤ 0x1F)) || decide (0x80 ≤ t)

/-- First loop of `escapeUrl`: the size `n` of the buffer to allocate, an
`unsigned int` (32 bits), starting from `message.length() + 1`. -/
def escapeUrlSize (message : Bytes) : Nat :=
  message.foldl
    (fun n t =>
      if isDropped t then (n + (2 ^ 32 - 1)) % 2 ^ 32
      else if isSpecial t then (n + 2) % 2 ^ 32
      else n)
    ((message.length + 1) % 2 ^ 32)

/-- Second loop of `escapeUrl`: the C string built in `encoded` by the
successive `strcat` calls, starting from the empty string. -/
def escapeUrlBuild (message : Bytes) : Bytes :=
  message.foldl
    (fun encoded t =>
      if isDropped t then encoded
      else if isSpecial t then encoded ++ sprintfPercentHex t
      else encoded ++ [t])
    []

/-- Source: `String escapeUrl(String message)`; the allocation of `encoded` is taken
to succeed, and the result is `String(encoded)`. -/
def escapeUrl (message : Bytes) : Bytes := escapeUrlBuild message

/-- What the specification says one byte of the input contributes to the
escaped text: nothing for a control or non-ASCII byte, a `%XX` triple for the
five reserved bytes, the byte itself otherwise. -/
def escapeByteSpec (b : Nat) : Bytes :=
  if b ≤ 0x1F ∨ 0x80 ≤ b then []
  else if b = 0x22 then bytes "%22"
  else if b = 0x25 then bytes "%25"
  else if b = 0x26 then bytes "%26"
  else if b = 0x2B then bytes "%2B"
  else if b = 0x3B then bytes "%3B"
  else [b]

/-! ## Number formatting and parsing of the C library -/

/-- Decimal digits of an unsigned number, as `String(unsigned)`, `print(unsigned)`
and `ltoa(.., 10)` produce them: no leading zeros, `0` for zero. -/
def decimal (n : Nat) : Bytes := (Nat.toDigits 10 n).map Char.toNat

/-- The C string `ltoa(value, valueString, 10)` writes: base-10 digits, with a
minus sign for a negative value. -/
def ltoa (value : Int) : Bytes :=
  if value < 0 then 45 :: decimal value.natAbs else decimal value.natAbs

/-- The test `isspace(c)` of the C locale. -/
def isspace (c : Nat) : Bool := c == 32 || (decide (9 ≤ c) && decide (c ≤ 13))

/-- The test `'0' <= c && c <= '9'`. -/
def isdigit (c : Nat) : Bool := decide (48 ≤ c) && decide (c ≤ 57)

/-- Value of the leading decimal digits of a C string, continuing from `acc`. -/
def atolDigits : Nat → Bytes → Nat
  | acc, [] => acc
  | acc, c :: rest => if isdigit c then atolDigits (acc * 10 + (c - 48)) rest else acc

def LONG_MAX : Int := 2147483647
def LONG_MIN : Int := -2147483648

/-- The saturation `strtol` applies to a value outside the range of `long`. -/
def clampLong (v : Int) : Int :=
  if v > LONG_MAX then LONG_MAX else if v < LONG_MIN then LONG_MIN else v

/-- The C library's `atol` (`strtol(s, NULL, 10)`): leading white space is
skipped, an optional sign is read, then the leading decimal digits; no digits
give 0. -/
def atol (s : Bytes) : Int :=
  let t := s.dropWhile isspace
  if t.head? = some 45 then clampLong (-(atolDigits 0 t.tail : Int))
  else if t.head? = some 43 then clampLong (atolDigits 0 t.tail : Int)
  else clampLong (atolDigits 0 t : Int)

/-- Source: `String::toInt()`, which is `atol` on the text. -/
def toInt (s : Bytes) : Int := atol s

/-- A value brought back into the range of a 32-bit `long` (two's complement). -/
def wrapLong (v : Int) : Int := (v + 2 ^ 31) % 2 ^ 32 - 2 ^ 31

/-! ## Floating point -/

/-- An IEEE-754 single precision value (`float`), by its three bit fields. -/
structure Float32 where
  sign : Bool
  exponent : Fin 256
  mantissa : Fin 8388608
  deriving DecidableEq

/-- Source: `isnan(x)`. -/
def Float32.isnan (x : Float32) : Bool := x.exponent.val == 255 && x.mantissa.val != 0

/-- Source: `isinf(x) != 0`. -/
def Float32.isinf (x : Float32) : Bool := x.exponent.val == 255 && x.mantissa.val == 0

/-- The constant `NAN` (the quiet NaN `0x7FC00000`). -/
def NAN : Float32 := ⟨false, 255, 4194304⟩

/-- Position of a non-NaN value in the order of the reals (both zeros at 0):
sign and magnitude, the magnitude being exponent and mantissa read as one number. -/
def Float32.key (x : Float32) : Int :=
  if x.sign then -((x.exponent.val * 8388608 + x.mantissa.val : Nat) : Int)
  else ((x.exponent.val * 8388608 + x.mantissa.val : Nat) : Int)

/-- The comparison `a < b` on `float`; false when either side is NaN. -/
def Float32.lt (a b : Float32) : Bool := !a.isnan && !b.isnan && decide (a.key < b.key)

/-- The integer constant `999999000000` converted to `float` for a comparison
with a `float`: the nearest single precision value, 999999012864
(15258774 * 2^16). -/
def rangeLimit : Float32 := ⟨false, 166, 6870166⟩

/-- The constant `-999999000000` converted to `float`. -/
def negRangeLimit : Float32 := ⟨true, 166, 6870166⟩

/-- What the header takes from the platform it is compiled for. -/
structure Platform where
  /-- The value of `PLATFORM_ID`. -/
  platformId : Nat
  /-- The text of `String(float)`. -/
  floatToString : Float32 → Bytes
  /-- The text `sprintf(valueString, "%.5f", value)` writes. -/
  sprintf5f : Float32 → Bytes
  /-- The value of `String::toFloat()`, which is `atof` on the text. -/
  toFloat : Bytes → Float32

def TS_VER : Bytes := bytes "1.6.0"

/-- The macro `TS_USER_AGENT`, chosen by `PLATFORM_ID`. -/
def TS_USER_AGENT (P : Platform) : Bytes :=
  bytes "tslib-arduino/" ++ TS_VER ++
    (if P.platformId = 0 then bytes " (particle core)"
     else if P.platformId = 6 then bytes " (particle photon)"
     else if P.platformId = 10 then bytes " (particle electron)"
     else if P.platformId = 8 then bytes " (particle p1)"
     else if P.platformId = 12 then bytes " (particle argon)"
     else if P.platformId = 13 then bytes " (particle boron)"
     else bytes " (particle unknown)")

/-- Source: `int convertFloatToChar(float value, char *valueString)`: the status and
the content of `valueString` afterwards. -/
def convertFloatToChar (P : Platform) (value : Float32) (valueString : Bytes) : Int × Bytes :=
  if !value.isinf && (rangeLimit.lt value || value.lt negRangeLimit) then
    (TS_ERR_OUT_OF_RANGE, valueString)
  else
    (TS_OK_SUCCESS, P.sprintf5f value)

/-! ## The transport and the clock -/

/-- A call the library makes on the platform: on the `Client` object, or the
`delay` of the response wait. Each carries its arguments and its answer. -/
inductive Op where
  | connect (host : Bytes) (port : Nat) (ok : Bool)
  | print (s : Bytes) (written : Nat)
  | available (count : Nat)
  | find (target : Bytes) (found : Bool)
  | parseInt (value : Int)
  | readString (text : Bytes)
  | stop
  | delay (ms : Nat)
  deriving DecidableEq

/-- The `Client` object behind the `client` pointer, as a scripted transport,
together with the device clock read by the response wait.

* `connectOk`: what `connect` answers.
* `writeOk`: whether the successive writes are accepted (one entry per call,
  accepted once the list is used up).
* `rx`: the bytes of the response not yet consumed; they become visible to
  `available` once `rxDelay` milliseconds of waiting have passed.
* `clock`: the millisecond counter behind `millis()`.
* `overshoot`: by how much the successive `delay` calls oversleep.
* `trace`: every call made so far, oldest first.

The stream functions of the platform (`find`, `parseInt`, `readString`) work
on the whole of `rx`: once the first byte of a response is visible, the rest
of it arrives within the stream's own timeout. -/
structure Client where
  connectOk : Bool
  writeOk : List Bool
  rx : Bytes
  rxDelay : Nat
  clock : Nat
  overshoot : List Nat
  trace : List Op
  deriving DecidableEq

/-- Source: `client->connect(host, port)`. -/
def Client.connect (host : Bytes) (port : Nat) (c : Client) : Bool × Client :=
  (c.connectOk, { c with trace := c.trace ++ [Op.connect host port c.connectOk] })

/-- Source: `client->print(s)`: the number of bytes written, which is the length of `s`
when the transport accepts the write and 0 when it refuses it. -/
def Client.print (s : Bytes) (c : Client) : Nat × Client :=
  ((if c.writeOk.headD true then s.length else 0),
   { c with
     writeOk := c.writeOk.tail
     trace := c.trace ++ [Op.print s (if c.writeOk.headD true then s.length else 0)] })

/-- Source: `client->available()`. -/
def Client.available (c : Client) : Nat × Client :=
  ((if c.rxDelay = 0 then c.rx.length else 0),
   { c with trace := c.trace ++ [Op.available (if c.rxDelay = 0 then c.rx.length else 0)] })

/-- Source: `client->stop()`. -/
def Client.stop (c : Client) : Client :=
  { c with trace := c.trace ++ [Op.stop] }

/-- Source: `millis()`: the 32-bit millisecond counter. -/
def Client.millis (c : Client) : Nat := c.clock % 2 ^ 32

/-- The longest a `delay` is taken to oversleep, in milliseconds. -/
def maxOvershoot : Nat := 2 ^ 31

/-- Source: `delay(ms)`: at least `ms` milliseconds pass, and at most `maxOvershoot` more. -/
def Client.delay (ms : Nat) (c : Client) : Client :=
  { c with
    clock := (c.clock + (ms + min (c.overshoot.headD 0) maxOvershoot)) % 2 ^ 32
    rxDelay := c.rxDelay - (ms + min (c.overshoot.headD 0) maxOvershoot)
    overshoot := c.overshoot.tail
    trace := c.trace ++ [Op.delay ms] }

/-- What is left of a stream after the first occurrence of `target`, if there
is one. -/
def findAfter (target : Bytes) : Bytes → Option Bytes
  | [] => if target = [] then some [] else none
  | b :: rest =>
    if target.isPrefixOf (b :: rest) then some ((b :: rest).drop target.length)
    else findAfter target rest

/-- Source: `client->find(target)` (`Stream::find`): reads the stream up to and
including the first occurrence of `target`; when there is none the stream is
read to its end and the answer is false. -/
def Client.find (target : Bytes) (c : Client) : Bool × Client :=
  match findAfter target c.rx with
  | some rest => (true, { c with rx := rest, trace := c.trace ++ [Op.find target true] })
  | none => (false, { c with rx := [], trace := c.trace ++ [Op.find target false] })

/-- Source: `Stream::peekNextDigit`: bytes are discarded until a minus sign or a digit
is next. -/
def peekNextDigit : Bytes → Bytes
  | [] => []
  | c :: rest => if c = 45 || isdigit c then c :: rest else peekNextDigit rest

/-- The rest of the `do .. while` loop of `Stream::parseInt`: digits are
accumulated in a `long`, the skip character (1) is ignored, and the first
other byte ends the number and stays in the stream. -/
def parseIntDigits : Int → Bytes → Int × Bytes
  | value, [] => (value, [])
  | value, c :: rest =>
    if isdigit c then parseIntDigits (wrapLong (value * 10 + (c : Int) - 48)) rest
    else if c = 1 then parseIntDigits value rest
    else (value, c :: rest)

/-- Source: `Stream::parseInt()` on the bytes of a stream: the value and what is left. -/
def streamParseInt (s : Bytes) : Int × Bytes :=
  match peekNextDigit s with
  | [] => (0, [])
  | c :: rest =>
    ((if c = 45 then wrapLong (-(parseIntDigits (if isdigit c then (c : Int) - 48 else 0) rest).1)
      else (parseIntDigits (if isdigit c then (c : Int) - 48 else 0) rest).1),
     (parseIntDigits (if isdigit c then (c : Int) - 48 else 0) rest).2)

/-- Source: `client->parseInt()`. -/
def Client.parseInt (c : Client) : Int × Client :=
  ((streamParseInt c.rx).1,
   { c with rx := (streamParseInt c.rx).2, trace := c.trace ++ [Op.parseInt (streamParseInt c.rx).1] })

/-- Source: `client->readString()`: everything left in the stream. -/
def Client.readString (c : Client) : Bytes × Client :=
  (c.rx, { c with rx := [], trace := c.trace ++ [Op.readString c.rx] })

/-- The bytes the transport accepted, in order, among the calls of a trace. -/
def sentBytes : List Op → Bytes
  | [] => []
  | Op.print s n :: rest => if n = 0 then sentBytes rest else s ++ sentBytes rest
  | _ :: rest => sentBytes rest

/-- A call that is not a failed write: any call but a `print` that reported 0 bytes. -/
def Op.wrote : Op → Bool
  | Op.print _ n => n != 0
  | _ => true

/-- Every write of a trace succeeded: each `print` reported at least one byte. -/
def allWritesSucceeded (t : List Op) : Prop :=
  ∀ op ∈ t, op.wrote = true

instance (t : List Op) : Decidable (allWritesSucceeded t) :=
  inferInstanceAs (Decidable (∀ op ∈ t, op.wrote = true))

/-! ## The object -/

/-- The struct `feed`: the values of the last multi-field read. -/
structure Feed where
  nextReadField : Fin 8 → Bytes
  nextReadStatus : Bytes
  nextReadLatitude : Bytes
  nextReadLongitude : Bytes
  nextReadElevation : Bytes
  nextReadCreatedAt : Bytes

/-- The data members of `ThingSpeakClass`; `client` is the object the pointer
of that name refers to. -/
structure ThingSpeakClass where
  client : Client
  port : Nat
  nextWriteField : Fin 8 → Bytes
  nextWriteLatitude : Float32
  nextWriteLongitude : Float32
  nextWriteElevation : Float32
  lastReadStatus : Int
  nextWriteStatus : Bytes
  nextWriteCreatedAt : Bytes
  lastFeed : Feed

/-- Source: `void resetWriteFields()`. -/
def resetWriteFields (ts : ThingSpeakClass) : ThingSpeakClass :=
  { ts with
    nextWriteField := fun _ => []
    nextWriteLatitude := NAN
    nextWriteLongitude := NAN
    nextWriteElevation := NAN
    nextWriteStatus := []
    nextWriteCreatedAt := [] }

/-- The constructor `ThingSpeakClass()`. The `client` pointer is null until
`begin`; `c` stands for the object it will refer to. The strings of `lastFeed`
are default-constructed, hence empty. -/
def ThingSpeakClass.construct (c : Client) : ThingSpeakClass :=
  { resetWriteFields
      { client := c
        port := THINGSPEAK_PORT_NUMBER
        nextWriteField := fun _ => []
        nextWriteLatitude := NAN
        nextWriteLongitude := NAN
        nextWriteElevation := NAN
        lastReadStatus := 0
        nextWriteStatus := []
        nextWriteCreatedAt := []
        lastFeed := ⟨fun _ => [], [], [], [], [], []⟩ } with
    lastReadStatus := TS_OK_SUCCESS }

/-- Source: `bool begin(Client & client)`. -/
def begin (client : Client) (ts : ThingSpeakClass) : Bool × ThingSpeakClass :=
  (true,
   { resetWriteFields { ts with client := client, port := THINGSPEAK_PORT_NUMBER } with
     lastReadStatus := TS_OK_SUCCESS })

/-! ## The HTTP exchange -/

/-- Source: `bool connectThingSpeak()`. -/
def connectThingSpeak (port : Nat) (c : Client) : Bool × Client :=
  c.connect (bytes "api.thingspeak.com") port

/-- Source: `bool writeHTTPHeader(const char * APIKey)`; a null `APIKey` is `none`. -/
def writeHTTPHeader (P : Platform) (APIKey : Option Bytes) (c : Client) : Bool × Client :=
  let p1 := c.print (bytes "Host: api.thingspeak.com\r\n")
  if p1.1 = 0 then (false, p1.2) else
  let p2 := p1.2.print (bytes "Connection: close\r\n")
  if p2.1 = 0 then (false, p2.2) else
  let p3 := p2.2.print (bytes "User-Agent: ")
  if p3.1 = 0 then (false, p3.2) else
  let p4 := p3.2.print (TS_USER_AGENT P)
  if p4.1 = 0 then (false, p4.2) else
  let p5 := p4.2.print (bytes "\r\n")
  if p5.1 = 0 then (false, p5.2) else
  match APIKey with
  | none => (true, p5.2)
  | some key =>
    let p6 := p5.2.print (bytes "X-THINGSPEAKAPIKEY: ")
    if p6.1 = 0 then (false, p6.2) else
    let p7 := p6.2.print key
    if p7.1 = 0 then (false, p7.2) else
    let p8 := p7.2.print (bytes "\r\n")
    if p8.1 = 0 then (false, p8.2) else
    (true, p8.2)

/-- The loop `while(client->available() == 0 && millis() - start < TIMEOUT) delay(100);`
of `getHTTPResponse`, run for at most `fuel` evaluations of its condition.
The subtraction is that of `unsigned long`, modulo 2^32. -/
def waitForResponse : Nat → Nat → Client → Client
  | 0, _, c => c
  | fuel + 1, startWaitForResponseAt, c =>
    if c.available.1 = 0 ∧
        (c.available.2.millis + 2 ^ 32 - startWaitForResponseAt) % 2 ^ 32
          < TIMEOUT_MS_SERVERRESPONSE then
      waitForResponse fuel startWaitForResponseAt (c.available.2.delay 100)
    else c.available.2

/-- Evaluations of the loop condition after which the wait has ended: each
`delay(100)` adds at least 100 ms, and 50 of them reach the timeout
(`waitForResponse_fuel`). -/
def waitFuel : Nat := 51

/-- Source: `int getHTTPResponse(String & response)`: the status, the value of
`response` afterwards, and the transport. -/
def getHTTPResponse (response : Bytes) (c : Client) : Int × Bytes × Client :=
  let startWaitForResponseAt := c.millis
  let w := waitForResponse waitFuel startWaitForResponseAt c
  let a := w.available
  if a.1 = 0 then (TS_ERR_TIMEOUT, response, a.2) else
  let f1 := a.2.find (bytes "HTTP/1.1")
  if f1.1 = false then (TS_ERR_BAD_RESPONSE, response, f1.2) else
  let st := f1.2.parseInt
  if st.1 ≠ TS_OK_SUCCESS then (st.1, response, st.2) else
  let f2 := st.2.find (bytes "\r\n")
  if f2.1 = false then (TS_ERR_BAD_RESPONSE, response, f2.2) else
  let f3 := f2.2.find (bytes "\n\r\n")
  if f3.1 = false then (TS_ERR_BAD_RESPONSE, response, f3.2) else
  let tempString := f3.2.readString
  (st.1, tempString.1, tempString.2)

/-- Source: `int abortWriteRaw()`. -/
def abortWriteRaw (c : Client) : Int × Client := (TS_ERR_UNEXPECTED_FAIL, c.stop)

/-- The body of `writeRaw`, which works on the transport only: the status
returned and the transport afterwards. -/
def writeRawExchange (P : Platform) (port : Nat) (postMessage : Bytes)
    (writeAPIKey : Option Bytes) (c : Client) : Int × Client :=
  let conn := connectThingSpeak port c
  if conn.1 = false then (TS_ERR_CONNECT_FAILED, conn.2) else
  let postMessage := postMessage ++ bytes "&headers=false"
  let p1 := conn.2.print (bytes "POST /update HTTP/1.1\r\n")
  if p1.1 = 0 then abortWriteRaw p1.2 else
  let h := writeHTTPHeader P writeAPIKey p1.2
  if h.1 = false then abortWriteRaw h.2 else
  let p2 := h.2.print (bytes "Content-Type: application/x-www-form-urlencoded\r\n")
  if p2.1 = 0 then abortWriteRaw p2.2 else
  let p3 := p2.2.print (bytes "Content-Length: ")
  if p3.1 = 0 then abortWriteRaw p3.2 else
  let p4 := p3.2.print (decimal postMessage.length)
  if p4.1 = 0 then abortWriteRaw p4.2 else
  let p5 := p4.2.print (bytes "\r\n\r\n")
  if p5.1 = 0 then abortWriteRaw p5.2 else
  let p6 := p5.2.print postMessage
  if p6.1 = 0 then abortWriteRaw p6.2 else
  let resp := getHTTPResponse [] p6.2
  if resp.1 ≠ TS_OK_SUCCESS then (resp.1, resp.2.2.stop) else
  let entryID := toInt resp.2.1
  if entryID = 0 then (TS_ERR_NOT_INSERTED, resp.2.2.stop) else (resp.1, resp.2.2.stop)

/-- Source: `int writeRaw(unsigned long channelNumber, String postMessage, const char * writeAPIKey)`. -/
def writeRaw (P : Platform) (channelNumber : Nat) (postMessage : Bytes)
    (writeAPIKey : Option Bytes) (ts : ThingSpeakClass) : Int × ThingSpeakClass :=
  ((writeRawExchange P ts.port postMessage writeAPIKey ts.client).1,
   { ts with client := (writeRawExchange P ts.port postMessage writeAPIKey ts.client).2 })

/-! ## Single-field writes and the pending update -/

/-- Source: `int writeField(unsigned long, unsigned int field, String value, const char *)`. -/
def writeField (P : Platform) (channelNumber : Nat) (field : Nat) (value : Bytes)
    (writeAPIKey : Option Bytes) (ts : ThingSpeakClass) : Int × ThingSpeakClass :=
  if field < FIELDNUM_MIN ∨ field > FIELDNUM_MAX then (TS_ERR_INVALID_FIELD_NUM, ts)
  else if value.length > FIELDLENGTH_MAX then (TS_ERR_OUT_OF_RANGE, ts)
  else
    writeRaw P channelNumber (bytes "field" ++ decimal field ++ bytes "=" ++ escapeUrl value)
      writeAPIKey ts

/-- Source: `int writeField(unsigned long, unsigned int field, long value, const char *)`,
to which the `int` overload maps. -/
def writeFieldLong (P : Platform) (channelNumber : Nat) (field : Nat) (value : Int)
    (writeAPIKey : Option Bytes) (ts : ThingSpeakClass) : Int × ThingSpeakClass :=
  writeField P channelNumber field (ltoa value) writeAPIKey ts

/-- Source: `int writeField(unsigned long, unsigned int field, float value, const char *)`. -/
def writeFieldFloat (P : Platform) (channelNumber : Nat) (field : Nat) (value : Float32)
    (writeAPIKey : Option Bytes) (ts : ThingSpeakClass) : Int × ThingSpeakClass :=
  if (convertFloatToChar P value []).1 ≠ TS_OK_SUCCESS then
    ((convertFloatToChar P value []).1, ts)
  else writeField P channelNumber field (convertFloatToChar P value []).2 writeAPIKey ts

/-- Source: `int setField(unsigned int field, String value)`. -/
def setField (field : Nat) (value : Bytes) (ts : ThingSpeakClass) : Int × ThingSpeakClass :=
  if h : field < FIELDNUM_MIN ∨ field > FIELDNUM_MAX then (TS_ERR_INVALID_FIELD_NUM, ts)
  else if value.length > FIELDLENGTH_MAX then (TS_ERR_OUT_OF_RANGE, ts)
  else
    (TS_OK_SUCCESS,
     { ts with
       nextWriteField := fun i =>
         if i = (⟨field - 1, by
            simp only [FIELDNUM_MIN, FIELDNUM_MAX] at h
            omega⟩ : Fin 8) then value
         else ts.nextWriteField i })

/-- Source: `int setField(unsigned int field, long value)`, to which the `int`
overload maps. -/
def setFieldLong (field : Nat) (value : Int) (ts : ThingSpeakClass) : Int × ThingSpeakClass :=
  setField field (ltoa value) ts

/-- Source: `int setField(unsigned int field, float value)`. -/
def setFieldFloat (P : Platform) (field : Nat) (value : Float32) (ts : ThingSpeakClass) :
    Int × ThingSpeakClass :=
  if (convertFloatToChar P value []).1 ≠ TS_OK_SUCCESS then
    ((convertFloatToChar P value []).1, ts)
  else setField field (convertFloatToChar P value []).2 ts

/-- Source: `int setLatitude(float latitude)`. -/
def setLatitude (latitude : Float32) (ts : ThingSpeakClass) : Int × ThingSpeakClass :=
  (TS_OK_SUCCESS, { ts with nextWriteLatitude := latitude })

/-- Source: `int setLongitude(float longitude)`. -/
def setLongitude (longitude : Float32) (ts : ThingSpeakClass) : Int × ThingSpeakClass :=
  (TS_OK_SUCCESS, { ts with nextWriteLongitude := longitude })

/-- Source: `int setElevation(float elevation)`. -/
def setElevation (elevation : Float32) (ts : ThingSpeakClass) : Int × ThingSpeakClass :=
  (TS_OK_SUCCESS, { ts with nextWriteElevation := elevation })

/-- Source: `int setStatus(String status)`. -/
def setStatus (status : Bytes) (ts : ThingSpeakClass) : Int × ThingSpeakClass :=
  if status.length > FIELDLENGTH_MAX then (TS_ERR_OUT_OF_RANGE, ts)
  else (TS_OK_SUCCESS, { ts with nextWriteStatus := status })

/-- Source: `int setCreatedAt(String createdAt)`. -/
def setCreatedAt (createdAt : Bytes) (ts : ThingSpeakClass) : Int × ThingSpeakClass :=
  if createdAt.length > FIELDLENGTH_MAX then (TS_ERR_OUT_OF_RANGE, ts)
  else (TS_OK_SUCCESS, { ts with nextWriteCreatedAt := createdAt })

/-- The local variables of `writeFields` together with the object. -/
structure WriteFieldsVars where
  postMessage : Bytes
  fFirstItem : Bool
  ts : ThingSpeakClass

/-- The values `iField` takes in `for(size_t iField = 0; iField < 8; iField++)`. -/
def fieldIndexes : List (Fin 8) := [0, 1, 2, 3, 4, 5, 6, 7]

/-- The body of the `for` loop of `writeFields`. -/
def writeFieldsLoopBody (v : WriteFieldsVars) (iField : Fin 8) : WriteFieldsVars :=
  if (v.ts.nextWriteField iField).length > 0 then
    { postMessage :=
        (if !v.fFirstItem then v.postMessage ++ bytes "&" else v.postMessage)
          ++ bytes "field" ++ decimal (iField.val + 1) ++ bytes "="
          ++ escapeUrl (v.ts.nextWriteField iField)
      fFirstItem := false
      ts := { v.ts with
        nextWriteField := fun i => if i = iField then [] else v.ts.nextWriteField i } }
  else v

/-- The block `if(!isnan(nextWriteLatitude)) { .. }` of `writeFields`. -/
def writeFieldsLatitude (P : Platform) (v : WriteFieldsVars) : WriteFieldsVars :=
  if !v.ts.nextWriteLatitude.isnan then
    { postMessage :=
        (if !v.fFirstItem then v.postMessage ++ bytes "&" else v.postMessage)
          ++ bytes "lat=" ++ P.floatToString v.ts.nextWriteLatitude
      fFirstItem := false
      ts := { v.ts with nextWriteLatitude := NAN } }
  else v

/-- The block `if(!isnan(this->nextWriteLongitude)) { .. }` of `writeFields`. -/
def writeFieldsLongitude (P : Platform) (v : WriteFieldsVars) : WriteFieldsVars :=
  if !v.ts.nextWriteLongitude.isnan then
    { postMessage :=
        (if !v.fFirstItem then v.postMessage ++ bytes "&" else v.postMessage)
          ++ bytes "long=" ++ P.floatToString v.ts.nextWriteLongitude
      fFirstItem := false
      ts := { v.ts with nextWriteLongitude := NAN } }
  else v

/-- The block `if(!isnan(this->nextWriteElevation)) { .. }` of `writeFields`. -/
def writeFieldsElevation (P : Platform) (v : WriteFieldsVars) : WriteFieldsVars :=
  if !v.ts.nextWriteElevation.isnan then
    { postMessage :=
        (if !v.fFirstItem then v.postMessage ++ bytes "&" else v.postMessage)
          ++ bytes "elevation=" ++ P.floatToString v.ts.nextWriteElevation
      fFirstItem := false
      ts := { v.ts with nextWriteElevation := NAN } }
  else v

/-- The block `if(this->nextWriteStatus.length() > 0) { .. }` of `writeFields`. -/
def writeFieldsStatus (v : WriteFieldsVars) : WriteFieldsVars :=
  if v.ts.nextWriteStatus.length > 0 then
    { postMessage :=
        (if !v.fFirstItem then v.postMessage ++ bytes "&" else v.postMessage)
          ++ bytes "status=" ++ escapeUrl v.ts.nextWriteStatus
      fFirstItem := false
      ts := { v.ts with nextWriteStatus := [] } }
  else v

/-- The block `if(this->nextWriteCreatedAt.length() > 0) { .. }` of `writeFields`. -/
def writeFieldsCreatedAt (v : WriteFieldsVars) : WriteFieldsVars :=
  if v.ts.nextWriteCreatedAt.length > 0 then
    { postMessage :=
        (if !v.fFirstItem then v.postMessage ++ bytes "&" else v.postMessage)
          ++ bytes "created_at=" ++ v.ts.nextWriteCreatedAt
      fFirstItem := false
      ts := { v.ts with nextWriteCreatedAt := [] } }
  else v

/-- The part of `writeFields` before its last two statements: the `for` loop
and the five blocks after it, in the order of the source, starting from an
empty `postMessage` and `fFirstItem = true`. -/
def writeFieldsBuild (P : Platform) (ts : ThingSpeakClass) : WriteFieldsVars :=
  writeFieldsCreatedAt (writeFieldsStatus (writeFieldsElevation P (writeFieldsLongitude P
    (writeFieldsLatitude P (fieldIndexes.foldl writeFieldsLoopBody ⟨[], true, ts⟩)))))

/-- Source: `int writeFields(unsigned long channelNumber, const char * writeAPIKey)`. -/
def writeFields (P : Platform) (channelNumber : Nat) (writeAPIKey : Option Bytes)
    (ts : ThingSpeakClass) : Int × ThingSpeakClass :=
  if (writeFieldsBuild P ts).fFirstItem then
    (TS_ERR_SETFIELD_NOT_CALLED, (writeFieldsBuild P ts).ts)
  else
    writeRaw P channelNumber (writeFieldsBuild P ts).postMessage writeAPIKey
      (writeFieldsBuild P ts).ts

/-! ## Text functions of the platform's `String` -/

/-- Position of the first occurrence of `needle` in a C string, as `strstr`
finds it. -/
def strstrPos (needle : Bytes) : Bytes → Option Nat
  | [] => if needle = [] then some 0 else none
  | b :: rest =>
    if needle.isPrefixOf (b :: rest) then some 0
    else (strstrPos needle rest).map (fun i => i + 1)

/-- Source: `String::indexOf(const String &s2, unsigned int fromIndex)`: -1 when
`fromIndex` is not below the length or `strstr` finds nothing from there. -/
def indexOf (s s2 : Bytes) (fromIndex : Nat) : Int :=
  if fromIndex ≥ s.length then -1
  else
    match strstrPos s2 (s.drop fromIndex) with
    | none => -1
    | some i => ((fromIndex + i : Nat) : Int)

/-- Source: `String::substring(unsigned int left, unsigned int right)`: the
bounds are put in order, a start beyond the end gives the empty text, and the
end is cut to the length. -/
def substring (s : Bytes) (left right : Nat) : Bytes :=
  if min left right > s.length then []
  else (s.take (min (max left right) s.length)).drop (min left right)

/-- Source: `String::remove(unsigned int index)`: the text is cut at `index`
when `index` is below the length, and is left as it is otherwise. -/
def remove (s : Bytes) (index : Nat) : Bytes :=
  if index ≥ s.length then s else s.take index

/-- Source: `String::substring(unsigned int left)`, which is `substring(left, len)`. -/
def substringFrom (s : Bytes) (left : Nat) : Bytes := substring s left s.length

/-! ## Reading -/

/-- Source: `int getLastReadStatus()`. -/
def getLastReadStatus (ts : ThingSpeakClass) : Int := ts.lastReadStatus

/-- Source: `String abortReadRaw()`. -/
def abortReadRaw (ts : ThingSpeakClass) : Bytes × ThingSpeakClass :=
  ([], { ts with client := ts.client.stop, lastReadStatus := TS_ERR_UNEXPECTED_FAIL })

/-- Source: `String readRaw(unsigned long channelNumber, String URLSuffix, const char * readAPIKey)`. -/
def readRaw (P : Platform) (channelNumber : Nat) (URLSuffix : Bytes)
    (readAPIKey : Option Bytes) (ts : ThingSpeakClass) : Bytes × ThingSpeakClass :=
  let conn := connectThingSpeak ts.port ts.client
  if conn.1 = false then
    ([], { ts with client := conn.2, lastReadStatus := TS_ERR_CONNECT_FAILED })
  else
  let URL := bytes "/channels/" ++ decimal channelNumber ++ URLSuffix
  let p1 := conn.2.print (bytes "GET ")
  if p1.1 = 0 then abortReadRaw { ts with client := p1.2 } else
  let p2 := p1.2.print URL
  if p2.1 = 0 then abortReadRaw { ts with client := p2.2 } else
  let p3 := p2.2.print (bytes " HTTP/1.1\r\n")
  if p3.1 = 0 then abortReadRaw { ts with client := p3.2 } else
  let h := writeHTTPHeader P readAPIKey p3.2
  if h.1 = false then abortReadRaw { ts with client := h.2 } else
  let p4 := h.2.print (bytes "\r\n")
  if p4.1 = 0 then abortReadRaw { ts with client := p4.2 } else
  let resp := getHTTPResponse [] p4.2
  if resp.1 ≠ TS_OK_SUCCESS then
    ([], { ts with client := resp.2.2.stop, lastReadStatus := resp.1 })
  else
    ([] ++ resp.2.1, { ts with client := resp.2.2.stop, lastReadStatus := resp.1 })

/-- Source: `String parseValues(String & multiContent, String key)`. -/
def parseValues (multiContent key : Bytes) : Bytes :=
  if multiContent.length = 0 then []
  else
    let searchPhrase := bytes "\"" ++ key ++ bytes "\":\""
    let fromPosition := indexOf multiContent searchPhrase 0
    if fromPosition = -1 then []
    else
      let fromPosition := fromPosition + searchPhrase.length
      let toPosition := indexOf multiContent (bytes "\"") fromPosition.toNat
      if toPosition = -1 then []
      else substring multiContent fromPosition.toNat toPosition.toNat

/-- The assignment `a[k] = v` on an array of 8 strings. -/
def setAt (a : Fin 8 → Bytes) (k : Fin 8) (v : Bytes) : Fin 8 → Bytes :=
  fun i => if i = k then v else a i

/-- Source: `int readMultipleFields(unsigned long channelNumber, const char * readAPIKey)`. -/
def readMultipleFields (P : Platform) (channelNumber : Nat) (readAPIKey : Option Bytes)
    (ts : ThingSpeakClass) : Int × ThingSpeakClass :=
  let r := readRaw P channelNumber (bytes "/feeds/last.txt?status=true&location=true")
    readAPIKey ts
  if getLastReadStatus r.2 ≠ TS_OK_SUCCESS then (getLastReadStatus r.2, r.2)
  else
    (TS_OK_SUCCESS,
     { r.2 with
       lastFeed :=
        { nextReadField :=
            setAt (setAt (setAt (setAt (setAt (setAt (setAt (setAt r.2.lastFeed.nextReadField
              0 (parseValues r.1 (bytes "field1")))
              1 (parseValues r.1 (bytes "field2")))
              2 (parseValues r.1 (bytes "field3")))
              3 (parseValues r.1 (bytes "field4")))
              4 (parseValues r.1 (bytes "field5")))
              5 (parseValues r.1 (bytes "field6")))
              6 (parseValues r.1 (bytes "field7")))
              7 (parseValues r.1 (bytes "field8"))
          nextReadCreatedAt := parseValues r.1 (bytes "created_at")
          nextReadLatitude := parseValues r.1 (bytes "latitude")
          nextReadLongitude := parseValues r.1 (bytes "longitude")
          nextReadElevation := parseValues r.1 (bytes "elevation")
          nextReadStatus := parseValues r.1 (bytes "status") } })

/-- Source: `float convertStringToFloat(String value)`: the text is converted by
`String::toFloat()`; an infinite result for a text that starts with `-` is
replaced by minus infinity. -/
def convertStringToFloat (P : Platform) (value : Bytes) : Float32 :=
  if (P.toFloat value).isinf && value.head? == some 45 then ⟨true, 255, 0⟩
  else P.toFloat value

/-- Source: `String getJSONValueByKey(String textToSearch, String key)`. -/
def getJSONValueByKey (textToSearch key : Bytes) : Bytes :=
  if textToSearch.length = 0 then []
  else
    let searchPhrase := bytes "\"" ++ key ++ bytes "\":\""
    let fromPosition := indexOf textToSearch searchPhrase 0
    if fromPosition = -1 then []
    else
      let fromPosition := fromPosition + searchPhrase.length
      let toPosition := indexOf textToSearch (bytes "\"") fromPosition.toNat
      if toPosition = -1 then []
      else substringFrom (remove textToSearch toPosition.toNat) fromPosition.toNat

/-- Source: `bool begin(Client & client)`. -/
def ThingSpeakClass.begin (c : Client) (ts : ThingSpeakClass) : Bool × ThingSpeakClass :=
  (true,
   { resetWriteFields { ts with client := c, port := THINGSPEAK_PORT_NUMBER } with
     lastReadStatus := TS_OK_SUCCESS })

/-- Source: `String readStringField(unsigned long channelNumber, unsigned int field, const char * readAPIKey)`. -/
def readStringField (P : Platform) (channelNumber field : Nat) (readAPIKey : Option Bytes)
    (ts : ThingSpeakClass) : Bytes × ThingSpeakClass :=
  if field < FIELDNUM_MIN ∨ field > FIELDNUM_MAX then
    ([], { ts with lastReadStatus := TS_ERR_INVALID_FIELD_NUM })
  else
    readRaw P channelNumber (bytes "/fields/" ++ decimal field ++ bytes "/last") readAPIKey ts

/-- Source: `float readFloatField(unsigned long channelNumber, unsigned int field, const char * readAPIKey)`. -/
def readFloatField (P : Platform) (channelNumber field : Nat) (readAPIKey : Option Bytes)
    (ts : ThingSpeakClass) : Float32 × ThingSpeakClass :=
  (convertStringToFloat P (readStringField P channelNumber field readAPIKey ts).1,
   (readStringField P channelNumber field readAPIKey ts).2)

/-- Source: `long readLongField(unsigned long channelNumber, unsigned int field, const char * readAPIKey)`. -/
def readLongField (P : Platform) (channelNumber field : Nat) (readAPIKey : Option Bytes)
    (ts : ThingSpeakClass) : Int × ThingSpeakClass :=
  (toInt (readStringField P channelNumber field readAPIKey ts).1,
   (readStringField P channelNumber field readAPIKey ts).2)

/-- Source: `int readIntField(unsigned long channelNumber, unsigned int field, const char * readAPIKey)`;
`int` and `long` are the same type on the platform. -/
def readIntField (P : Platform) (channelNumber field : Nat) (readAPIKey : Option Bytes)
    (ts : ThingSpeakClass) : Int × ThingSpeakClass :=
  readLongField P channelNumber field readAPIKey ts

/-- Source: `String readStatus(unsigned long channelNumber, const char * readAPIKey)`. -/
def readStatus (P : Platform) (channelNumber : Nat) (readAPIKey : Option Bytes)
    (ts : ThingSpeakClass) : Bytes × ThingSpeakClass :=
  let r := readRaw P channelNumber (bytes "/feeds/last.txt?status=true") readAPIKey ts
  if getLastReadStatus r.2 ≠ TS_OK_SUCCESS then ([], r.2)
  else (getJSONValueByKey r.1 (bytes "status"), r.2)

/-- Source: `String readCreatedAt(unsigned long channelNumber, const char * readAPIKey)`. -/
def readCreatedAt (P : Platform) (channelNumber : Nat) (readAPIKey : Option Bytes)
    (ts : ThingSpeakClass) : Bytes × ThingSpeakClass :=
  let r := readRaw P channelNumber (bytes "/feeds/last.txt") readAPIKey ts
  if getLastReadStatus r.2 ≠ TS_OK_SUCCESS then ([], r.2)
  else (getJSONValueByKey r.1 (bytes "created_at"), r.2)

/-- Source: `String getFieldAsString(unsigned int field)`. -/
def getFieldAsString (field : Nat) (ts : ThingSpeakClass) : Bytes × ThingSpeakClass :=
  if h : field < FIELDNUM_MIN ∨ field > FIELDNUM_MAX then
    ([], { ts with lastReadStatus := TS_ERR_INVALID_FIELD_NUM })
  else
    (ts.lastFeed.nextReadField (⟨field - 1, by
        simp only [FIELDNUM_MIN, FIELDNUM_MAX] at h
        omega⟩ : Fin 8),
     { ts with lastReadStatus := TS_OK_SUCCESS })

/-- Source: `float getFieldAsFloat(unsigned int field)`. -/
def getFieldAsFloat (P : Platform) (field : Nat) (ts : ThingSpeakClass) :
    Float32 × ThingSpeakClass :=
  (convertStringToFloat P (getFieldAsString field ts).1, (getFieldAsString field ts).2)

/-- Source: `long getFieldAsLong(unsigned int field)`. -/
def getFieldAsLong (field : Nat) (ts : ThingSpeakClass) : Int × ThingSpeakClass :=
  (toInt (getFieldAsString field ts).1, (getFieldAsString field ts).2)

/-- Source: `int getFieldAsInt(unsigned int field)`. -/
def getFieldAsInt (field : Nat) (ts : ThingSpeakClass) : Int × ThingSpeakClass :=
  getFieldAsLong field ts

/-- Source: `String getStatus()`; the body reads one member and assigns nothing. -/
def getStatus (ts : ThingSpeakClass) : Bytes := ts.lastFeed.nextReadStatus

/-- Source: `String getLatitude()`. -/
def getLatitude (ts : ThingSpeakClass) : Bytes := ts.lastFeed.nextReadLatitude

/-- Source: `String getLongitude()`. -/
def getLongitude (ts : ThingSpeakClass) : Bytes := ts.lastFeed.nextReadLongitude

/-- Source: `String getElevation()`. -/
def getElevation (ts : ThingSpeakClass) : Bytes := ts.lastFeed.nextReadElevation

/-- Source: `String getCreatedAt()`. -/
def getCreatedAt (ts : ThingSpeakClass) : Bytes := ts.lastFeed.nextReadCreatedAt

/-! ## The public interface -/

/-- A call of a public member function, with its arguments. The overloads that
take no key pass `NULL`, here `none`; the `int` overloads are the `long` ones.
`transport` is not a call of the library: it stands for what happens to the
transport between two calls (a new response is on its way, the clock has
moved). -/
inductive Call where
  | begin (c : Client)
  | writeField (channelNumber field : Nat) (value : Bytes) (writeAPIKey : Option Bytes)
  | writeFieldLong (channelNumber field : Nat) (value : Int) (writeAPIKey : Option Bytes)
  | writeFieldFloat (channelNumber field : Nat) (value : Float32) (writeAPIKey : Option Bytes)
  | setField (field : Nat) (value : Bytes)
  | setFieldLong (field : Nat) (value : Int)
  | setFieldFloat (field : Nat) (value : Float32)
  | setLatitude (latitude : Float32)
  | setLongitude (longitude : Float32)
  | setElevation (elevation : Float32)
  | setStatus (status : Bytes)
  | setCreatedAt (createdAt : Bytes)
  | writeFields (channelNumber : Nat) (writeAPIKey : Option Bytes)
  | writeRaw (channelNumber : Nat) (postMessage : Bytes) (writeAPIKey : Option Bytes)
  | readStringField (channelNumber field : Nat) (readAPIKey : Option Bytes)
  | readFloatField (channelNumber field : Nat) (readAPIKey : Option Bytes)
  | readLongField (channelNumber field : Nat) (readAPIKey : Option Bytes)
  | readIntField (channelNumber field : Nat) (readAPIKey : Option Bytes)
  | readStatus (channelNumber : Nat) (readAPIKey : Option Bytes)
  | readCreatedAt (channelNumber : Nat) (readAPIKey : Option Bytes)
  | readRaw (channelNumber : Nat) (URLSuffix : Bytes) (readAPIKey : Option Bytes)
  | readMultipleFields (channelNumber : Nat) (readAPIKey : Option Bytes)
  | getFieldAsString (field : Nat)
  | getFieldAsFloat (field : Nat)
  | getFieldAsLong (field : Nat)
  | getFieldAsInt (field : Nat)
  | getStatus
  | getLatitude
  | getLongitude
  | getElevation
  | getCreatedAt
  | getLastReadStatus
  | transport (c : Client)

/-- The object after a call. -/
def Call.run (P : Platform) : Call → ThingSpeakClass → ThingSpeakClass
  | Call.begin c, ts => (ts.begin c).2
  | Call.writeField ch f v k, ts => (ThingSpeak.writeField P ch f v k ts).2
  | Call.writeFieldLong ch f v k, ts => (ThingSpeak.writeFieldLong P ch f v k ts).2
  | Call.writeFieldFloat ch f v k, ts => (ThingSpeak.writeFieldFloat P ch f v k ts).2
  | Call.setField f v, ts => (ThingSpeak.setField f v ts).2
  | Call.setFieldLong f v, ts => (ThingSpeak.setFieldLong f v ts).2
  | Call.setFieldFloat f v, ts => (ThingSpeak.setFieldFloat P f v ts).2
  | Call.setLatitude v, ts => (ThingSpeak.setLatitude v ts).2
  | Call.setLongitude v, ts => (ThingSpeak.setLongitude v ts).2
  | Call.setElevation v, ts => (ThingSpeak.setElevation v ts).2
  | Call.setStatus v, ts => (ThingSpeak.setStatus v ts).2
  | Call.setCreatedAt v, ts => (ThingSpeak.setCreatedAt v ts).2
  | Call.writeFields ch k, ts => (ThingSpeak.writeFields P ch k ts).2
  | Call.writeRaw ch m k, ts => (ThingSpeak.writeRaw P ch m k ts).2
  | Call.readStringField ch f k, ts => (ThingSpeak.readStringField P ch f k ts).2
  | Call.readFloatField ch f k, ts => (ThingSpeak.readFloatField P ch f k ts).2
  | Call.readLongField ch f k, ts => (ThingSpeak.readLongField P ch f k ts).2
  | Call.readIntField ch f k, ts => (ThingSpeak.readIntField P ch f k ts).2
  | Call.readStatus ch k, ts => (ThingSpeak.readStatus P ch k ts).2
  | Call.readCreatedAt ch k, ts => (ThingSpeak.readCreatedAt P ch k ts).2
  | Call.readRaw ch s k, ts => (ThingSpeak.readRaw P ch s k ts).2
  | Call.readMultipleFields ch k, ts => (ThingSpeak.readMultipleFields P ch k ts).2
  | Call.getFieldAsString f, ts => (ThingSpeak.getFieldAsString f ts).2
  | Call.getFieldAsFloat f, ts => (ThingSpeak.getFieldAsFloat P f ts).2
  | Call.getFieldAsLong f, ts => (ThingSpeak.getFieldAsLong f ts).2
  | Call.getFieldAsInt f, ts => (ThingSpeak.getFieldAsInt f ts).2
  | Call.getStatus, ts => ts
  | Call.getLatitude, ts => ts
  | Call.getLongitude, ts => ts
  | Call.getElevation, ts => ts
  | Call.getCreatedAt, ts => ts
  | Call.getLastReadStatus, ts => ts
  | Call.transport c, ts => { ts with client := c }

/-- The object after a sequence of calls, made in order. -/
def runCalls (P : Platform) (calls : List Call) (ts : ThingSpeakClass) : ThingSpeakClass :=
  calls.foldl (fun s c => c.run P s) ts

/-! ## Vocabulary of the specification -/

/-- The pending update is empty: the 8 fields, the status and the created-at
text are empty, and latitude, longitude and elevation are unset (NaN). -/
def pendingEmpty (ts : ThingSpeakClass) : Prop :=
  (∀ i, ts.nextWriteField i = []) ∧ ts.nextWriteStatus = [] ∧ ts.nextWriteCreatedAt = [] ∧
  ts.nextWriteLatitude.isnan = true ∧ ts.nextWriteLongitude.isnan = true ∧
  ts.nextWriteElevation.isnan = true

/-- The `name=value` texts of the set components of the pending update, in the
order of the specification: fields 1 to 8, latitude, longitude, elevation,
status, created-at. -/
def pendingComponents (P : Platform) (ts : ThingSpeakClass) : List Bytes :=
  (fieldIndexes.filter (fun i => ts.nextWriteField i ≠ [])).map
      (fun i => bytes "field" ++ decimal (i.val + 1) ++ bytes "=" ++ escapeUrl (ts.nextWriteField i))
    ++ (if ts.nextWriteLatitude.isnan then []
        else [bytes "lat=" ++ P.floatToString ts.nextWriteLatitude])
    ++ (if ts.nextWriteLongitude.isnan then []
        else [bytes "long=" ++ P.floatToString ts.nextWriteLongitude])
    ++ (if ts.nextWriteElevation.isnan then []
        else [bytes "elevation=" ++ P.floatToString ts.nextWriteElevation])
    ++ (if ts.nextWriteStatus = [] then []
        else [bytes "status=" ++ escapeUrl ts.nextWriteStatus])
    ++ (if ts.nextWriteCreatedAt = [] then []
        else [bytes "created_at=" ++ ts.nextWriteCreatedAt])

/-- The object once `writeFields` has consumed the pending update: every
component that was set is cleared, nothing else changes. -/
def consumed (ts : ThingSpeakClass) : ThingSpeakClass :=
  { ts with
    nextWriteField := fun _ => []
    nextWriteLatitude := if ts.nextWriteLatitude.isnan then ts.nextWriteLatitude else NAN
    nextWriteLongitude := if ts.nextWriteLongitude.isnan then ts.nextWriteLongitude else NAN
    nextWriteElevation := if ts.nextWriteElevation.isnan then ts.nextWriteElevation else NAN
    nextWriteStatus := []
    nextWriteCreatedAt := [] }

/-- A sequence of `print` calls that stops at the first call writing nothing:
whether all were written, and the transport afterwards. -/
def printAll : List Bytes → Client → Bool × Client
  | [], c => (true, c)
  | s :: rest, c =>
    if (c.print s).1 = 0 then (false, (c.print s).2) else printAll rest (c.print s).2

/-- The texts `writeHTTPHeader` prints, in order. -/
def headerLines (P : Platform) (APIKey : Option Bytes) : List Bytes :=
  [bytes "Host: api.thingspeak.com\r\n", bytes "Connection: close\r\n", bytes "User-Agent: ",
    TS_USER_AGENT P, bytes "\r\n"] ++
  (match APIKey with
   | none => []
   | some key => [bytes "X-THINGSPEAKAPIKEY: ", key, bytes "\r\n"])

/-- The texts `writeRaw` prints, in order, for the query string `postMessage`. -/
def postRequest (P : Platform) (postMessage : Bytes) (writeAPIKey : Option Bytes) : List Bytes :=
  bytes "POST /update HTTP/1.1\r\n" :: headerLines P writeAPIKey ++
  [bytes "Content-Type: application/x-www-form-urlencoded\r\n", bytes "Content-Length: ",
    decimal (postMessage ++ bytes "&headers=false").length, bytes "\r\n\r\n",
    postMessage ++ bytes "&headers=false"]

/-- The credential header line, present when a key is supplied. -/
def credentialLine (APIKey : Option Bytes) : Bytes :=
  match APIKey with
  | none => []
  | some key => bytes "X-THINGSPEAKAPIKEY: " ++ key ++ bytes "\r\n"

/-- A call that is a `print`. -/
def Op.isPrint : Op → Bool
  | Op.print _ _ => true
  | _ => false

/-- The texts `readRaw` prints, in order, for a channel and a path suffix. -/
def getRequest (P : Platform) (channelNumber : Nat) (URLSuffix : Bytes)
    (readAPIKey : Option Bytes) : List Bytes :=
  [bytes "GET ", bytes "/channels/" ++ decimal channelNumber ++ URLSuffix,
    bytes " HTTP/1.1\r\n"] ++ headerLines P readAPIKey ++ [bytes "\r\n"]

/-- The transport once the connection was asked for and a request printed. -/
def afterRequest (port : Nat) (request : List Bytes) (c : Client) : Client :=
  (printAll request (c.connect (bytes "api.thingspeak.com") port).2).2

/-- What `getHTTPResponse` makes of a response whose bytes are visible: the
status, the value of `response` afterwards, and the calls made on the stream
after `available`. -/
def readResponse (response rx : Bytes) : Int × Bytes × List Op :=
  match findAfter (bytes "HTTP/1.1") rx with
  | none => (TS_ERR_BAD_RESPONSE, response, [Op.find (bytes "HTTP/1.1") false])
  | some r1 =>
    if (streamParseInt r1).1 ≠ TS_OK_SUCCESS then
      ((streamParseInt r1).1, response,
        [Op.find (bytes "HTTP/1.1") true, Op.parseInt (streamParseInt r1).1])
    else
      match findAfter (bytes "\r\n") (streamParseInt r1).2 with
      | none =>
        (TS_ERR_BAD_RESPONSE, response,
          [Op.find (bytes "HTTP/1.1") true, Op.parseInt (streamParseInt r1).1,
            Op.find (bytes "\r\n") false])
      | some r3 =>
        match findAfter (bytes "\n\r\n") r3 with
        | none =>
          (TS_ERR_BAD_RESPONSE, response,
            [Op.find (bytes "HTTP/1.1") true, Op.parseInt (streamParseInt r1).1,
              Op.find (bytes "\r\n") true, Op.find (bytes "\n\r\n") false])
        | some body =>
          ((streamParseInt r1).1, body,
            [Op.find (bytes "HTTP/1.1") true, Op.parseInt (streamParseInt r1).1,
              Op.find (bytes "\r\n") true, Op.find (bytes "\n\r\n") true, Op.readString body])

/-- A call of the response wait: `available` or `delay`. -/
def Op.isPoll : Op → Bool
  | Op.available _ => true
  | Op.delay _ => true
  | _ => false

/-- A call that is not an `available` reporting bytes. -/
def Op.quiet : Op → Bool
  | Op.available n => n == 0
  | _ => true

/-- Every `available` call of a trace reported no byte. -/
def noByteReported (t : List Op) : Prop :=
  ∀ op ∈ t, op.quiet = true

instance (t : List Op) : Decidable (noByteReported t) :=
  inferInstanceAs (Decidable (∀ op ∈ t, op.quiet = true))

/-- A transport for examples: it accepts the connection and every write, and
the response `rx` becomes visible after `rxDelay` milliseconds; the clock
stands at `clock` and no `delay` oversleeps. -/
def delayed (rx : Bytes) (rxDelay clock : Nat) : Client :=
  { connectOk := true, writeOk := [], rx := rx, rxDelay := rxDelay, clock := clock,
    overshoot := [], trace := [] }

/-- The extractor as the specification words it: nothing when the phrase
`"<key>":"` does not occur in the body; otherwise, of what follows the first
occurrence, nothing when no `"` is left, and else the text before the next `"`. -/
def extractSpec (body key : Bytes) : Bytes :=
  match findAfter (bytes "\"" ++ key ++ bytes "\":\"") body with
  | none => []
  | some rest => if 34 ∈ rest then rest.takeWhile (fun b => b != 34) else []

/-- A valid decimal string: an optional minus sign, then one digit or more. -/
def validDecimal : Bytes → Bool
  | 45 :: ds => !ds.isEmpty && ds.all isdigit
  | ds => !ds.isEmpty && ds.all isdigit

/-- The integer a sequence of decimal digits denotes. -/
def digitsValue (ds : Bytes) : Nat := ds.foldl (fun acc c => acc * 10 + (c - 48)) 0

/-- The integer a valid decimal string denotes. -/
def denotes : Bytes → Int
  | 45 :: ds => -(digitsValue ds : Int)
  | ds => (digitsValue ds : Int)

/-- Leading zeros removed, the last digit being kept. -/
def stripZeros : Bytes → Bytes
  | [] => []
  | [c] => [c]
  | c :: d :: rest => if c = 48 then stripZeros (d :: rest) else c :: d :: rest

/-- The canonical form of a valid decimal string: no leading zeros, and no
minus sign before zero. -/
def canonicalized : Bytes → Bytes
  | 45 :: ds => if stripZeros ds = [48] then [48] else 45 :: stripZeros ds
  | ds => stripZeros ds

/-- The texts of the pending update are within the limit: each of the 8 pending
fields, the pending status and the pending created-at text is at most 255
bytes long. -/
def pendingWithinLimit (ts : ThingSpeakClass) : Prop :=
  (∀ i, (ts.nextWriteField i).length ≤ FIELDLENGTH_MAX) ∧
  ts.nextWriteStatus.length ≤ FIELDLENGTH_MAX ∧
  ts.nextWriteCreatedAt.length ≤ FIELDLENGTH_MAX

/-- Value of a hexadecimal digit: `0`-`9`, and the letters from `A` on. -/
def hexValue (c : Nat) : Nat := if c ≤ 57 then c - 48 else c - 55

/-- Percent-decoding: a `%` is read together with the two hexadecimal digits
after it as one byte, any other byte is kept. -/
def percentDecode : Bytes → Bytes
  | [] => []
  | 37 :: h :: l :: rest => (hexValue h * 16 + hexValue l) :: percentDecode rest
  | b :: rest => b :: percentDecode rest

/-- The 13 keys of the feed cache, as `readMultipleFields` names them. -/
def cacheKeys : List Bytes :=
  [bytes "field1", bytes "field2", bytes "field3", bytes "field4", bytes "field5",
    bytes "field6", bytes "field7", bytes "field8", bytes "status", bytes "created_at",
    bytes "latitude", bytes "longitude", bytes "elevation"]

/-- The entry of the feed cache that `readMultipleFields` fills for a key. -/
def cacheEntry (f : Feed) (k : Bytes) : Bytes :=
  if k = bytes "field1" then f.nextReadField 0
  else if k = bytes "field2" then f.nextReadField 1
  else if k = bytes "field3" then f.nextReadField 2
  else if k = bytes "field4" then f.nextReadField 3
  else if k = bytes "field5" then f.nextReadField 4
  else if k = bytes "field6" then f.nextReadField 5
  else if k = bytes "field7" then f.nextReadField 6
  else if k = bytes "field8" then f.nextReadField 7
  else if k = bytes "status" then f.nextReadStatus
  else if k = bytes "created_at" then f.nextReadCreatedAt
  else if k = bytes "latitude" then f.nextReadLatitude
  else if k = bytes "longitude" then f.nextReadLongitude
  else if k = bytes "elevation" then f.nextReadElevation
  else []

/-- One pair of a flat object: the key and the value, each between quotes, with
a colon between them. -/
def flatPair (p : Bytes × Bytes) : Bytes :=
  bytes "\"" ++ p.1 ++ bytes "\":\"" ++ p.2 ++ bytes "\""

/-- The flat object of a list of pairs: the pairs in order, separated by
commas, between braces. -/
def flatObject (pairs : List (Bytes × Bytes)) : Bytes :=
  bytes "\x7b" ++ (bytes ",").intercalate (pairs.map flatPair) ++ bytes "\x7d"

/-- The value of the first pair with the key `k`, and the empty text when no
pair has that key. -/
def valueOf (pairs : List (Bytes × Bytes)) (k : Bytes) : Bytes :=
  match pairs.find? (fun p => p.1 == k) with
  | some p => p.2
  | none => []

/-- The magnitude of a finite value in units of 2^-149, the least positive
`float`: a whole number. The magnitude itself is this number divided by 2^149. -/
def Float32.scaled (x : Float32) : Nat :=
  if x.exponent.val = 0 then x.mantissa.val
  else (8388608 + x.mantissa.val) * 2 ^ (x.exponent.val - 1)

/-- A text with exactly 5 digits after its decimal point. -/
def fiveDecimals (t : Bytes) : Bool :=
  match t.reverse with
  | d5 :: d4 :: d3 :: d2 :: d1 :: 46 :: front =>
    isdigit d1 && isdigit d2 && isdigit d3 && isdigit d4 && isdigit d5 && !front.contains 46
  | _ => false

/-- A transport for examples: it refuses the connection, and nothing was
called on it yet. -/
def offline : Client :=
  { connectOk := false, writeOk := [], rx := [], rxDelay := 0, clock := 0, overshoot := [],
    trace := [] }

/-- A transport for examples: it accepts the connection and every write, and
the response `rx` is available at once. -/
def answering (rx : Bytes) : Client :=
  { connectOk := true, writeOk := [], rx := rx, rxDelay := 0, clock := 0, overshoot := [],
    trace := [] }

/-- A transport for examples: it accepts the connection and the first two
writes, and refuses the third. -/
def refusingThird : Client :=
  { connectOk := true, writeOk := [true, true, false], rx := [], rxDelay := 0, clock := 0,
    overshoot := [], trace := [] }

/-- A platform for examples: a Photon; the two float formatters, which the
header takes from the firmware, print a fixed text, and the float parser
answers 0. -/
def photon : Platform :=
  { platformId := 6, floatToString := fun _ => bytes "1.500000",
    sprintf5f := fun _ => bytes "1.50000", toFloat := fun _ => ⟨false, 0, 0⟩ }

/-- An object for examples: its feed cache holds `old` in every entry. -/
def staleCache (c : Client) : ThingSpeakClass :=
  { ThingSpeakClass.construct c with
    lastFeed := ⟨fun _ => bytes "old", bytes "old", bytes "old", bytes "old", bytes "old",
      bytes "old"⟩ }

/-- An object for examples: every field of its feed cache holds `v`. -/
def cachedField (v : Bytes) : ThingSpeakClass :=
  { ThingSpeakClass.construct offline with lastFeed := ⟨fun _ => v, [], [], [], [], []⟩ }

/-! ## Theorems -/

/-- A left fold that only appends is a `flatMap`. -/
theorem foldl_append_eq_flatMap {α : Type} (f : α → List Nat) (l : List α) (init : List Nat) :
    l.foldl (fun acc t => acc ++ f t) init = init ++ l.flatMap f := by
  induction l generalizing init with
  | nil => simp
  | cons a l ih => simp [List.flatMap_cons, ih, List.append_assoc]

/-- One step of the second loop of `escapeUrl` appends `escapeByteSpec`. -/
theorem escapeStep_eq (encoded : Bytes) (t : Nat) :
    (if isDropped t then encoded
      else if isSpecial t then encoded ++ sprintfPercentHex t
      else encoded ++ [t]) = encoded ++ escapeByteSpec t := by
  unfold escapeByteSpec
  by_cases h1 : t ≤ 0x1F
  · simp [isDropped, h1]
  · by_cases h2 : 0x80 ≤ t
    · simp [isDropped, h2]
    · have hd : isDropped t = false := by simp [isDropped]; omega
      simp only [hd, h1, h2, or_self, if_false, Bool.false_eq_true]
      by_cases a1 : t = 0x22
      · subst a1; simp [isSpecial, sprintfPercentHex, hexDigitUpper, bytes]
      by_cases a2 : t = 0x25
      · subst a2; simp [isSpecial, sprintfPercentHex, hexDigitUpper, bytes]
      by_cases a3 : t = 0x26
      · subst a3; simp [isSpecial, sprintfPercentHex, hexDigitUpper, bytes]
      by_cases a4 : t = 0x2B
      · subst a4; simp [isSpecial, sprintfPercentHex, hexDigitUpper, bytes]
      by_cases a5 : t = 0x3B
      · subst a5; simp [isSpecial, sprintfPercentHex, hexDigitUpper, bytes]
      simp [isSpecial, a1, a2, a3, a4, a5]

/-! ### The range limit of the float conversion -/

/-- The value of `rangeLimit` is 999999012864, and of the two single precision
values around 999999000000 (they are 2^16 apart) it is the nearer one. -/
theorem rangeLimit_nearest :
    (8388608 + rangeLimit.mantissa.val) * 2 ^ (rangeLimit.exponent.val - 150) = 999999012864 ∧
    (8388608 + rangeLimit.mantissa.val - 1) * 2 ^ (rangeLimit.exponent.val - 150)
      = 999998947328 ∧
    999999012864 - 999999000000 < 999999000000 - 999998947328 ∧
    rangeLimit.isnan = false ∧ rangeLimit.isinf = false := by
  decide

/-! ### The payload built by `writeFields` -/

/-- Joining one more item: a separator goes in front unless it is the first. -/
theorem intercalate_snoc (sep : Bytes) (cs : List Bytes) (x : Bytes) :
    sep.intercalate (cs ++ [x]) = if cs = [] then x else sep.intercalate cs ++ sep ++ x := by
  induction cs with
  | nil => simp [List.intercalate]
  | cons a cs ih =>
    cases cs with
    | nil => simp [List.intercalate]
    | cons b cs =>
      simp only [List.cons_append, reduceCtorEq, if_false] at ih ⊢
      have h1 : ∀ (u v : Bytes) (r : List Bytes),
          sep.intercalate (u :: v :: r) = u ++ sep ++ sep.intercalate (v :: r) := by
        intro u v r
        simp [List.intercalate, List.intersperse]
      rw [h1, ih, h1]
      simp [List.append_assoc]

/-- Appending one `name=value` item the way every block of `writeFields` does. -/
theorem appendItem_eq (cs : List Bytes) (x : Bytes) :
    (if (!decide (cs = [])) = true then (bytes "&").intercalate cs ++ bytes "&"
      else (bytes "&").intercalate cs) ++ x = (bytes "&").intercalate (cs ++ [x]) := by
  rw [intercalate_snoc]
  by_cases h : cs = []
  · subst h; simp [List.intercalate]
  · simp [h]

theorem writeFieldsLoop_spec (l : List (Fin 8)) :
    l.Nodup → ∀ (cs : List Bytes) (ts : ThingSpeakClass),
    l.foldl writeFieldsLoopBody ⟨(bytes "&").intercalate cs, decide (cs = []), ts⟩ =
      ⟨(bytes "&").intercalate (cs ++ (l.filter (fun i => ts.nextWriteField i ≠ [])).map
          (fun i => bytes "field" ++ decimal (i.val + 1) ++ bytes "="
            ++ escapeUrl (ts.nextWriteField i))),
       decide (cs ++ (l.filter (fun i => ts.nextWriteField i ≠ [])).map
          (fun i => bytes "field" ++ decimal (i.val + 1) ++ bytes "="
            ++ escapeUrl (ts.nextWriteField i)) = []),
       { ts with nextWriteField := fun i => if i ∈ l then [] else ts.nextWriteField i }⟩ := by
  induction l with
  | nil => intro _ cs ts; simp
  | cons i l ih =>
    intro hn cs ts
    have hi : i ∉ l := (List.nodup_cons.mp hn).1
    have hl : l.Nodup := (List.nodup_cons.mp hn).2
    rw [List.foldl_cons]
    by_cases he : ts.nextWriteField i = []
    · have hb : writeFieldsLoopBody ⟨(bytes "&").intercalate cs, decide (cs = []), ts⟩ i =
          ⟨(bytes "&").intercalate cs, decide (cs = []), ts⟩ := by
        simp [writeFieldsLoopBody, he]
      rw [hb, ih hl cs ts]
      have hf : (fun j => if j ∈ l then [] else ts.nextWriteField j) =
          (fun j => if j = i ∨ j ∈ l then [] else ts.nextWriteField j) := by
        funext j
        by_cases hj : j = i
        · subst hj; simp [he]
        · simp [hj]
      simp [List.filter_cons, he, hf]
    · have hlen : (ts.nextWriteField i).length > 0 := List.length_pos.mpr he
      have hb : writeFieldsLoopBody ⟨(bytes "&").intercalate cs, decide (cs = []), ts⟩ i =
          ⟨(bytes "&").intercalate (cs ++ [bytes "field" ++ decimal (i.val + 1) ++ bytes "="
              ++ escapeUrl (ts.nextWriteField i)]),
            decide (cs ++ [bytes "field" ++ decimal (i.val + 1) ++ bytes "="
              ++ escapeUrl (ts.nextWriteField i)] = []),
            { ts with nextWriteField := fun j => if j = i then [] else ts.nextWriteField j }⟩ := by
        simp only [writeFieldsLoopBody, hlen, if_true]
        rw [← appendItem_eq]
        simp [List.append_assoc]
      rw [hb, ih hl]
      have hfilter : ∀ j ∈ l, (if j = i then [] else ts.nextWriteField j) = ts.nextWriteField j := by
        intro j hj
        have : j ≠ i := fun h => hi (h ▸ hj)
        simp [this]
      have h1 : (l.filter (fun j => (if j = i then [] else ts.nextWriteField j) ≠ [])).map
            (fun j => bytes "field" ++ decimal (j.val + 1) ++ bytes "="
              ++ escapeUrl (if j = i then [] else ts.nextWriteField j)) =
          (l.filter (fun j => ts.nextWriteField j ≠ [])).map
            (fun j => bytes "field" ++ decimal (j.val + 1) ++ bytes "="
              ++ escapeUrl (ts.nextWriteField j)) := by
        have hfl : l.filter (fun j => (if j = i then [] else ts.nextWriteField j) ≠ []) =
            l.filter (fun j => ts.nextWriteField j ≠ []) := by
          apply List.filter_congr
          intro j hj
          rw [hfilter j hj]
        rw [hfl]
        apply List.map_congr_left
        intro j hj
        rw [hfilter j (List.mem_of_mem_filter hj)]
      have hf : (fun j => if j ∈ l then [] else if j = i then [] else ts.nextWriteField j) =
          (fun j => if j = i ∨ j ∈ l then [] else ts.nextWriteField j) := by
        funext j
        by_cases hj : j = i
        · subst hj; simp
        · simp [hj]
      simp only [h1, hf]
      simp [List.filter_cons, he, List.append_assoc]

theorem mem_fieldIndexes (i : Fin 8) : i ∈ fieldIndexes := by
  revert i; decide

theorem writeFieldsLatitude_eq (P : Platform) (cs : List Bytes) (t : ThingSpeakClass) :
    writeFieldsLatitude P ⟨(bytes "&").intercalate cs, decide (cs = []), t⟩ =
      ⟨(bytes "&").intercalate (cs ++ (if t.nextWriteLatitude.isnan then []
          else [bytes "lat=" ++ P.floatToString t.nextWriteLatitude])),
       decide (cs ++ (if t.nextWriteLatitude.isnan then []
          else [bytes "lat=" ++ P.floatToString t.nextWriteLatitude]) = []),
       { t with nextWriteLatitude :=
          if t.nextWriteLatitude.isnan then t.nextWriteLatitude else NAN }⟩ := by
  unfold writeFieldsLatitude
  cases h : t.nextWriteLatitude.isnan
  · simp only [h, Bool.not_false, if_true, Bool.false_eq_true, if_false]
    rw [← appendItem_eq]
    simp [List.append_assoc]
  · simp [h]

theorem writeFieldsLongitude_eq (P : Platform) (cs : List Bytes) (t : ThingSpeakClass) :
    writeFieldsLongitude P ⟨(bytes "&").intercalate cs, decide (cs = []), t⟩ =
      ⟨(bytes "&").intercalate (cs ++ (if t.nextWriteLongitude.isnan then []
          else [bytes "long=" ++ P.floatToString t.nextWriteLongitude])),
       decide (cs ++ (if t.nextWriteLongitude.isnan then []
          else [bytes "long=" ++ P.floatToString t.nextWriteLongitude]) = []),
       { t with nextWriteLongitude :=
          if t.nextWriteLongitude.isnan then t.nextWriteLongitude else NAN }⟩ := by
  unfold writeFieldsLongitude
  cases h : t.nextWriteLongitude.isnan
  · simp only [h, Bool.not_false, if_true, Bool.false_eq_true, if_false]
    rw [← appendItem_eq]
    simp [List.append_assoc]
  · simp [h]

theorem writeFieldsElevation_eq (P : Platform) (cs : List Bytes) (t : ThingSpeakClass) :
    writeFieldsElevation P ⟨(bytes "&").intercalate cs, decide (cs = []), t⟩ =
      ⟨(bytes "&").intercalate (cs ++ (if t.nextWriteElevation.isnan then []
          else [bytes "elevation=" ++ P.floatToString t.nextWriteElevation])),
       decide (cs ++ (if t.nextWriteElevation.isnan then []
          else [bytes "elevation=" ++ P.floatToString t.nextWriteElevation]) = []),
       { t with nextWriteElevation :=
          if t.nextWriteElevation.isnan then t.nextWriteElevation else NAN }⟩ := by
  unfold writeFieldsElevation
  cases h : t.nextWriteElevation.isnan
  · simp only [h, Bool.not_false, if_true, Bool.false_eq_true, if_false]
    rw [← appendItem_eq]
    simp [List.append_assoc]
  · simp [h]

theorem writeFieldsStatus_eq (cs : List Bytes) (t : ThingSpeakClass) :
    writeFieldsStatus ⟨(bytes "&").intercalate cs, decide (cs = []), t⟩ =
      ⟨(bytes "&").intercalate (cs ++ (if t.nextWriteStatus = [] then []
          else [bytes "status=" ++ escapeUrl t.nextWriteStatus])),
       decide (cs ++ (if t.nextWriteStatus = [] then []
          else [bytes "status=" ++ escapeUrl t.nextWriteStatus]) = []),
       { t with nextWriteStatus := [] }⟩ := by
  unfold writeFieldsStatus
  by_cases h : t.nextWriteStatus = []
  · cases t
    simp only at h
    simp [h]
  · have hlen : t.nextWriteStatus.length > 0 := List.length_pos.mpr h
    simp only [hlen, h, if_true, if_false]
    rw [← appendItem_eq]
    simp [List.append_assoc]

theorem writeFieldsCreatedAt_eq (cs : List Bytes) (t : ThingSpeakClass) :
    writeFieldsCreatedAt ⟨(bytes "&").intercalate cs, decide (cs = []), t⟩ =
      ⟨(bytes "&").intercalate (cs ++ (if t.nextWriteCreatedAt = [] then []
          else [bytes "created_at=" ++ t.nextWriteCreatedAt])),
       decide (cs ++ (if t.nextWriteCreatedAt = [] then []
          else [bytes "created_at=" ++ t.nextWriteCreatedAt]) = []),
       { t with nextWriteCreatedAt := [] }⟩ := by
  unfold writeFieldsCreatedAt
  by_cases h : t.nextWriteCreatedAt = []
  · cases t
    simp only at h
    simp [h]
  · have hlen : t.nextWriteCreatedAt.length > 0 := List.length_pos.mpr h
    simp only [hlen, h, if_true, if_false]
    rw [← appendItem_eq]
    simp [List.append_assoc]

/-- What `writeFields` has built when it reaches its last two statements: the
`&`-join of the set components, the flag telling that there is none, and the
object with its pending update consumed. -/
theorem writeFieldsBuild_eq (P : Platform) (ts : ThingSpeakClass) :
    writeFieldsBuild P ts =
      ⟨(bytes "&").intercalate (pendingComponents P ts),
       decide (pendingComponents P ts = []), consumed ts⟩ := by
  have h0 : (⟨[], true, ts⟩ : WriteFieldsVars) =
      ⟨(bytes "&").intercalate [], decide (([] : List Bytes) = []), ts⟩ := by
    simp [List.intercalate]
  have hnodup : fieldIndexes.Nodup := by decide
  unfold writeFieldsBuild
  rw [h0, writeFieldsLoop_spec fieldIndexes hnodup [] ts]
  simp only [List.nil_append, mem_fieldIndexes, if_true]
  rw [writeFieldsLatitude_eq, writeFieldsLongitude_eq, writeFieldsElevation_eq,
    writeFieldsStatus_eq, writeFieldsCreatedAt_eq]
  rfl

/-! ### Claims -/

/-- C1: for every byte string `m`, `escapeUrl m` is the in-order concatenation
over the bytes of `m` of: nothing for a byte in 0x00-0x1F or at least 0x80,
the triples `%22 %25 %26 %2B %3B` for the five reserved bytes, and the byte
itself otherwise (so space and 0x7F pass through); in particular
`a b&c"d` is escaped to `a b%26c%22d`. -/
theorem escapeUrl_spec :
    (∀ m : Bytes, escapeUrl m = m.flatMap escapeByteSpec) ∧
    escapeByteSpec 0x20 = [0x20] ∧ escapeByteSpec 0x7F = [0x7F] ∧
    escapeUrl (bytes "a b&c\"d") = bytes "a b%26c%22d" := by
  refine ⟨?_, by decide, by decide, by decide⟩
  intro m
  have h : (fun (encoded : Bytes) (t : Nat) =>
      if isDropped t then encoded
      else if isSpecial t then encoded ++ sprintfPercentHex t
      else encoded ++ [t]) = fun encoded t => encoded ++ escapeByteSpec t := by
    funext encoded t
    exact escapeStep_eq encoded t
  unfold escapeUrl escapeUrlBuild
  rw [h, foldl_append_eq_flatMap]
  simp

/-- C2 (as stated, refuted): with field index 0 and the value 2^40, the
floating-point overloads of `setField` and `writeField` return OutOfRange
(-101), not InvalidFieldNumber (-201). -/
theorem invalid_field_float_counterexample :
    (setFieldFloat photon 0 ⟨false, 167, 0⟩ (ThingSpeakClass.construct offline)).1 = -101 ∧
    (writeFieldFloat photon 7 0 ⟨false, 167, 0⟩ none (ThingSpeakClass.construct offline)).1
      = -101 := by
  decide

/-- C2 (amended): for every field index outside [1,8], `setField` and
`writeField` return InvalidFieldNumber (-201) in their text and integer
overloads for every value, and in their floating-point overloads for every
value the float conversion accepts; a value that the conversion rejects as out
of range is answered with OutOfRange (-101) first. In every case the object, and with it the transport and the pending
update, is unchanged. -/
theorem invalid_field_rejected (P : Platform) (channelNumber field : Nat) (text : Bytes)
    (n : Int) (x : Float32) (key : Option Bytes) (ts : ThingSpeakClass)
    (h : field < 1 ∨ 8 < field) :
    setField field text ts = (-201, ts) ∧
    writeField P channelNumber field text key ts = (-201, ts) ∧
    setFieldLong field n ts = (-201, ts) ∧
    writeFieldLong P channelNumber field n key ts = (-201, ts) ∧
    setFieldFloat P field x ts =
      (if !x.isinf && (rangeLimit.lt x || x.lt negRangeLimit) then -101 else -201, ts) ∧
    writeFieldFloat P channelNumber field x key ts =
      (if !x.isinf && (rangeLimit.lt x || x.lt negRangeLimit) then -101 else -201, ts) := by
  have hs : ∀ v, setField field v ts = (-201, ts) := by
    intro v
    unfold setField
    rw [dif_pos (show field < FIELDNUM_MIN ∨ field > FIELDNUM_MAX from h)]
    rfl
  have hw : ∀ v, writeField P channelNumber field v key ts = (-201, ts) := by
    intro v
    unfold writeField
    rw [if_pos (show field < FIELDNUM_MIN ∨ field > FIELDNUM_MAX from h)]
    rfl
  refine ⟨hs text, hw text, hs _, hw _, ?_, ?_⟩
  · unfold setFieldFloat convertFloatToChar
    cases hc : (!x.isinf && (rangeLimit.lt x || x.lt negRangeLimit))
    · simp [hs, TS_OK_SUCCESS]
    · simp [TS_OK_SUCCESS, TS_ERR_OUT_OF_RANGE]
  · unfold writeFieldFloat convertFloatToChar
    cases hc : (!x.isinf && (rangeLimit.lt x || x.lt negRangeLimit))
    · simp [hw, TS_OK_SUCCESS]
    · simp [TS_OK_SUCCESS, TS_ERR_OUT_OF_RANGE]

/-- Witness of `invalid_field_rejected`: field index 9. -/
theorem invalid_field_rejected_witness :
    (9 < 1 ∨ 8 < 9) ∧
    setField 9 (bytes "21") (ThingSpeakClass.construct offline)
      = (-201, ThingSpeakClass.construct offline) ∧
    setFieldFloat photon 9 ⟨false, 127, 0⟩ (ThingSpeakClass.construct offline)
      = (-201, ThingSpeakClass.construct offline) :=
  ⟨by decide,
   (invalid_field_rejected photon 7 9 (bytes "21") 3 ⟨false, 127, 0⟩ none
      (ThingSpeakClass.construct offline) (by decide)).1,
   (invalid_field_rejected photon 7 9 (bytes "21") 3 ⟨false, 127, 0⟩ none
      (ThingSpeakClass.construct offline) (by decide)).2.2.2.2.1⟩

set_option maxRecDepth 8000 in
/-- C3 (as stated, refuted): with field index 0, a text of 256 bytes is
answered by `setField` and `writeField` with InvalidFieldNumber (-201), not
OutOfRange (-101). -/
theorem long_text_invalid_field_counterexample :
    (List.replicate 256 65).length = 256 ∧
    (setField 0 (List.replicate 256 65) (ThingSpeakClass.construct offline)).1 = -201 ∧
    (writeField photon 7 0 (List.replicate 256 65) none (ThingSpeakClass.construct offline)).1
      = -201 := by
  decide

/-- C3 (amended): for every text longer than 255 bytes, `setStatus` and
`setCreatedAt` return OutOfRange (-101), and `setField(text)` and
`writeField(text)` return OutOfRange (-101) when the field index is in [1,8]
and InvalidFieldNumber (-201) when it is not; in every case the object, and
with it the transport and the pending update, is unchanged. -/
theorem long_text_rejected (P : Platform) (channelNumber field : Nat) (text : Bytes)
    (key : Option Bytes) (ts : ThingSpeakClass) (h : 255 < text.length) :
    setStatus text ts = (-101, ts) ∧
    setCreatedAt text ts = (-101, ts) ∧
    setField field text ts = (if 1 ≤ field ∧ field ≤ 8 then -101 else -201, ts) ∧
    writeField P channelNumber field text key ts
      = (if 1 ≤ field ∧ field ≤ 8 then -101 else -201, ts) := by
  have hlen : text.length > FIELDLENGTH_MAX := h
  refine ⟨?_, ?_, ?_, ?_⟩
  · unfold setStatus
    rw [if_pos hlen]; rfl
  · unfold setCreatedAt
    rw [if_pos hlen]; rfl
  · unfold setField
    by_cases hf : field < FIELDNUM_MIN ∨ field > FIELDNUM_MAX
    · rw [dif_pos hf]
      have : ¬ (1 ≤ field ∧ field ≤ 8) := by
        simp only [FIELDNUM_MIN, FIELDNUM_MAX] at hf; omega
      rw [if_neg this]; rfl
    · rw [dif_neg hf, if_pos hlen]
      have : 1 ≤ field ∧ field ≤ 8 := by
        simp only [FIELDNUM_MIN, FIELDNUM_MAX] at hf; omega
      rw [if_pos this]; rfl
  · unfold writeField
    by_cases hf : field < FIELDNUM_MIN ∨ field > FIELDNUM_MAX
    · rw [if_pos hf]
      have : ¬ (1 ≤ field ∧ field ≤ 8) := by
        simp only [FIELDNUM_MIN, FIELDNUM_MAX] at hf; omega
      rw [if_neg this]; rfl
    · rw [if_neg hf, if_pos hlen]
      have : 1 ≤ field ∧ field ≤ 8 := by
        simp only [FIELDNUM_MIN, FIELDNUM_MAX] at hf; omega
      rw [if_pos this]; rfl

set_option maxRecDepth 8000 in
/-- Witness of `long_text_rejected`: 256 bytes for field 3. -/
theorem long_text_rejected_witness :
    255 < (List.replicate 256 65).length ∧
    setStatus (List.replicate 256 65) (ThingSpeakClass.construct offline)
      = (-101, ThingSpeakClass.construct offline) ∧
    setField 3 (List.replicate 256 65) (ThingSpeakClass.construct offline)
      = (-101, ThingSpeakClass.construct offline) :=
  ⟨by decide,
   (long_text_rejected photon 7 3 (List.replicate 256 65) none
      (ThingSpeakClass.construct offline) (by decide)).1,
   (long_text_rejected photon 7 3 (List.replicate 256 65) none
      (ThingSpeakClass.construct offline) (by decide)).2.2.1⟩

/-- C4: for every field index `f` in [1,8] and every text `t` of at most 255
bytes, `setField(f, t)` returns 200, makes pending field `f` exactly `t`, and
leaves every other pending field, the pending status, coordinates and
created-at text, the feed cache, the status register and the transport (no
call is made on it) unchanged. -/
theorem setField_frame (f : Nat) (t : Bytes) (ts : ThingSpeakClass)
    (hf : 1 ≤ f ∧ f ≤ 8) (ht : t.length ≤ 255) :
    (setField f t ts).1 = 200 ∧
    (∀ i : Fin 8, (setField f t ts).2.nextWriteField i =
      if i.val + 1 = f then t else ts.nextWriteField i) ∧
    (setField f t ts).2.nextWriteStatus = ts.nextWriteStatus ∧
    (setField f t ts).2.nextWriteLatitude = ts.nextWriteLatitude ∧
    (setField f t ts).2.nextWriteLongitude = ts.nextWriteLongitude ∧
    (setField f t ts).2.nextWriteElevation = ts.nextWriteElevation ∧
    (setField f t ts).2.nextWriteCreatedAt = ts.nextWriteCreatedAt ∧
    (setField f t ts).2.lastFeed = ts.lastFeed ∧
    (setField f t ts).2.lastReadStatus = ts.lastReadStatus ∧
    (setField f t ts).2.client = ts.client ∧
    (setField f t ts).2.port = ts.port := by
  have h1 : ¬ (f < FIELDNUM_MIN ∨ f > FIELDNUM_MAX) := by
    simp only [FIELDNUM_MIN, FIELDNUM_MAX]; omega
  have h2 : ¬ (t.length > FIELDLENGTH_MAX) := by
    simp only [FIELDLENGTH_MAX]; omega
  unfold setField
  rw [dif_neg h1, if_neg h2]
  refine ⟨rfl, ?_, rfl, rfl, rfl, rfl, rfl, rfl, rfl, rfl, rfl⟩
  intro i
  have : (i = (⟨f - 1, by omega⟩ : Fin 8)) ↔ i.val + 1 = f := by
    constructor
    · intro h; rw [h]; simp; omega
    · intro h; apply Fin.ext; simp; omega
  simp only [this]

set_option maxRecDepth 8000 in
/-- Witness of `setField_frame`: a text of exactly 255 bytes for field 8. -/
theorem setField_frame_witness :
    (1 ≤ 8 ∧ 8 ≤ 8) ∧ (List.replicate 255 65).length ≤ 255 ∧
    (setField 8 (List.replicate 255 65) (ThingSpeakClass.construct offline)).1 = 200 ∧
    (setField 8 (List.replicate 255 65) (ThingSpeakClass.construct offline)).2.nextWriteField 7
      = List.replicate 255 65 :=
  ⟨by decide, by decide,
   (setField_frame 8 (List.replicate 255 65) (ThingSpeakClass.construct offline)
      (by decide) (by decide)).1,
   by
    have h := (setField_frame 8 (List.replicate 255 65) (ThingSpeakClass.construct offline)
      (by decide) (by decide)).2.1 7
    simpa using h⟩

theorem printAll_append (a b : List Bytes) (c : Client) :
    printAll (a ++ b) c =
      if (printAll a c).1 = true then printAll b (printAll a c).2 else printAll a c := by
  induction a generalizing c with
  | nil => simp [printAll]
  | cons s a ih =>
    simp only [List.cons_append, printAll]
    by_cases h : (c.print s).1 = 0
    · simp [h]
    · simp only [h, if_false]
      exact ih _

theorem writeHTTPHeader_eq (P : Platform) (APIKey : Option Bytes) (c : Client) :
    writeHTTPHeader P APIKey c = printAll (headerLines P APIKey) c := by
  unfold writeHTTPHeader headerLines
  cases APIKey with
  | none =>
    simp only [List.append_nil, printAll]
  | some key =>
    simp only [List.cons_append, List.nil_append, printAll]

theorem writeRawExchange_eq (P : Platform) (port : Nat) (q : Bytes) (key : Option Bytes)
    (c : Client) :
    writeRawExchange P port q key c =
      if c.connectOk = false then
        (TS_ERR_CONNECT_FAILED, (c.connect (bytes "api.thingspeak.com") port).2)
      else if (printAll (postRequest P q key) (c.connect (bytes "api.thingspeak.com") port).2).1
          = false then
        (TS_ERR_UNEXPECTED_FAIL,
          (printAll (postRequest P q key) (c.connect (bytes "api.thingspeak.com") port).2).2.stop)
      else if (getHTTPResponse []
          (printAll (postRequest P q key) (c.connect (bytes "api.thingspeak.com") port).2).2).1
            ≠ TS_OK_SUCCESS then
        ((getHTTPResponse []
          (printAll (postRequest P q key) (c.connect (bytes "api.thingspeak.com") port).2).2).1,
         (getHTTPResponse []
          (printAll (postRequest P q key)
            (c.connect (bytes "api.thingspeak.com") port).2).2).2.2.stop)
      else if toInt (getHTTPResponse []
          (printAll (postRequest P q key)
            (c.connect (bytes "api.thingspeak.com") port).2).2).2.1 = 0 then
        (TS_ERR_NOT_INSERTED,
         (getHTTPResponse []
          (printAll (postRequest P q key)
            (c.connect (bytes "api.thingspeak.com") port).2).2).2.2.stop)
      else
        (TS_OK_SUCCESS,
         (getHTTPResponse []
          (printAll (postRequest P q key)
            (c.connect (bytes "api.thingspeak.com") port).2).2).2.2.stop) := by
  unfold writeRawExchange postRequest
  simp only [connectThingSpeak, writeHTTPHeader_eq, abortWriteRaw]
  have hc : (c.connect (bytes "api.thingspeak.com") port).1 = c.connectOk := rfl
  rw [hc]
  by_cases h0 : c.connectOk = false
  · simp [h0]
  · simp only [h0, if_false]
    generalize (c.connect (bytes "api.thingspeak.com") port).2 = c1
    rw [List.cons_append, printAll, printAll_append]
    by_cases h1 : (c1.print (bytes "POST /update HTTP/1.1\r\n")).1 = 0
    · simp [h1]
    · simp only [h1, if_false]
      generalize (c1.print (bytes "POST /update HTTP/1.1\r\n")).2 = c2
      cases hh : (printAll (headerLines P key) c2).1
      · simp [hh]
      · simp only [if_true, Bool.true_eq_false, if_false]
        generalize (printAll (headerLines P key) c2).2 = c3
        simp only [printAll]
        by_cases h2 : (c3.print (bytes "Content-Type: application/x-www-form-urlencoded\r\n")).1 = 0
        · simp only [h2, if_true]
        · simp only [h2, if_false]
          generalize (c3.print (bytes "Content-Type: application/x-www-form-urlencoded\r\n")).2 = c4
          by_cases h3 : (c4.print (bytes "Content-Length: ")).1 = 0
          · simp only [h3, if_true]
          · simp only [h3, if_false]
            generalize (c4.print (bytes "Content-Length: ")).2 = c5
            by_cases h4 : (c5.print (decimal (q ++ bytes "&headers=false").length)).1 = 0
            · simp only [h4, if_true]
            · simp only [h4, if_false]
              generalize (c5.print (decimal (q ++ bytes "&headers=false").length)).2 = c6
              by_cases h5 : (c6.print (bytes "\r\n\r\n")).1 = 0
              · simp only [h5, if_true]
              · simp only [h5, if_false]
                generalize (c6.print (bytes "\r\n\r\n")).2 = c7
                by_cases h6 : (c7.print (q ++ bytes "&headers=false")).1 = 0
                · simp only [h6, if_true]
                · simp only [h6, if_false, Bool.true_eq_false]
                  generalize (c7.print (q ++ bytes "&headers=false")).2 = c8
                  by_cases h7 : (getHTTPResponse [] c8).1 = TS_OK_SUCCESS
                  · simp only [h7, ne_eq, not_true_eq_false, if_false]
                  · simp only [h7, ne_eq, not_false_eq_true, if_true]

/-! ### The response wait -/

/-- Elapsed time after one `delay(100)`: while less than the timeout has
elapsed, the 32-bit difference grows by the time slept, without wrapping. -/
theorem elapsed_delay (start : Nat) (c : Client) (hs : start < 2 ^ 32)
    (he : (c.millis + 2 ^ 32 - start) % 2 ^ 32 < TIMEOUT_MS_SERVERRESPONSE) :
    ((c.delay 100).millis + 2 ^ 32 - start) % 2 ^ 32 =
      (c.millis + 2 ^ 32 - start) % 2 ^ 32 + (100 + min (c.overshoot.headD 0) maxOvershoot) := by
  simp only [Client.millis, Client.delay, maxOvershoot, TIMEOUT_MS_SERVERRESPONSE,
    Nat.reducePow] at *
  omega

/-- Enough fuel: once `100 * f` more milliseconds reach the timeout, more than
`f + 1` evaluations of the loop condition change nothing. -/
theorem waitForResponse_fuel_aux (f : Nat) :
    ∀ (k start : Nat) (c : Client), start < 2 ^ 32 →
      TIMEOUT_MS_SERVERRESPONSE ≤ (c.millis + 2 ^ 32 - start) % 2 ^ 32 + 100 * f →
      waitForResponse (f + 1 + k) start c = waitForResponse (f + 1) start c := by
  induction f with
  | zero =>
    intro k start c hs h
    have hk : 0 + 1 + k = k + 1 := by omega
    rw [hk]
    have h1 : ¬ (c.available.1 = 0 ∧
        (c.available.2.millis + 2 ^ 32 - start) % 2 ^ 32 < TIMEOUT_MS_SERVERRESPONSE) := by
      intro hc
      have : c.available.2.millis = c.millis := rfl
      rw [this] at hc
      omega
    simp only [waitForResponse, h1, if_false]
  | succ f ih =>
    intro k start c hs h
    have hk : f + 1 + 1 + k = (f + 1 + k) + 1 := by omega
    rw [hk]
    rw [waitForResponse, waitForResponse]
    by_cases h1 : c.available.1 = 0 ∧
        (c.available.2.millis + 2 ^ 32 - start) % 2 ^ 32 < TIMEOUT_MS_SERVERRESPONSE
    · rw [if_pos h1, if_pos h1]
      apply ih k start _ hs
      rw [elapsed_delay start c.available.2 hs h1.2]
      have : c.available.2.millis = c.millis := rfl
      rw [this]
      omega
    · rw [if_neg h1, if_neg h1]

/-- The fuel of `getHTTPResponse` is enough: the wait gives the same result with
any larger number of evaluations of the loop condition, for every clock value
at the start, every transport and every oversleeping. -/
theorem waitForResponse_fuel (k : Nat) (c : Client) :
    waitForResponse (waitFuel + k) c.millis c = waitForResponse waitFuel c.millis c := by
  have hs : c.millis < 2 ^ 32 := by
    simp only [Client.millis]; omega
  have := waitForResponse_fuel_aux 50 k c.millis c hs (by
    simp only [TIMEOUT_MS_SERVERRESPONSE]; omega)
  exact this

/-- What the wait leaves untouched, and when it ends with the response visible. -/
theorem waitForResponse_spec (fuel : Nat) :
    ∀ (start : Nat) (c : Client),
      (waitForResponse fuel start c).rx = c.rx ∧
      (waitForResponse fuel start c).connectOk = c.connectOk ∧
      (waitForResponse fuel start c).writeOk = c.writeOk ∧
      (∃ ops, (waitForResponse fuel start c).trace = c.trace ++ ops ∧
        ∀ op ∈ ops, op.isPrint = false ∧ op ≠ Op.stop) ∧
      (start < 2 ^ 32 →
        (c.rxDelay + (c.millis + 2 ^ 32 - start) % 2 ^ 32 ≤ TIMEOUT_MS_SERVERRESPONSE
          ∨ c.rxDelay = 0) →
        TIMEOUT_MS_SERVERRESPONSE ≤ (c.millis + 2 ^ 32 - start) % 2 ^ 32 + 100 * fuel →
        (waitForResponse fuel start c).rxDelay = 0) := by
  induction fuel with
  | zero =>
    intro start c
    refine ⟨rfl, rfl, rfl, ⟨[], by simp [waitForResponse], by simp⟩, ?_⟩
    intro _ h1 h2
    simp only [waitForResponse]
    simp only [TIMEOUT_MS_SERVERRESPONSE] at *
    omega
  | succ fuel ih =>
    intro start c
    rw [waitForResponse]
    by_cases h1 : c.available.1 = 0 ∧
        (c.available.2.millis + 2 ^ 32 - start) % 2 ^ 32 < TIMEOUT_MS_SERVERRESPONSE
    · rw [if_pos h1]
      obtain ⟨i1, i2, i3, ⟨ops, i4, i5⟩, i6⟩ := ih start (c.available.2.delay 100)
      refine ⟨i1, i2, i3, ⟨Op.available (if c.rxDelay = 0 then c.rx.length else 0)
        :: Op.delay 100 :: ops, ?_, ?_⟩, ?_⟩
      · rw [i4]
        simp [Client.delay, Client.available]
      · intro op hop
        simp only [List.mem_cons] at hop
        rcases hop with h | h | h
        · subst h; exact ⟨rfl, by simp⟩
        · subst h; exact ⟨rfl, by simp⟩
        · exact i5 op h
      · intro hs hinv hfuel
        apply i6 hs
        · rw [elapsed_delay start c.available.2 hs h1.2]
          have hm : c.available.2.millis = c.millis := rfl
          have hr : (c.available.2.delay 100).rxDelay =
              c.rxDelay - (100 + min (c.overshoot.headD 0) maxOvershoot) := rfl
          have ho : c.available.2.overshoot = c.overshoot := rfl
          rw [hm, hr, ho]
          omega
        · rw [elapsed_delay start c.available.2 hs h1.2]
          have hm : c.available.2.millis = c.millis := rfl
          rw [hm]
          omega
    · rw [if_neg h1]
      refine ⟨rfl, rfl, rfl, ⟨[Op.available (if c.rxDelay = 0 then c.rx.length else 0)],
        rfl, ?_⟩, ?_⟩
      · intro op hop
        simp only [List.mem_singleton] at hop
        subst hop; exact ⟨rfl, by simp⟩
      · intro hs hinv hfuel
        have hm : c.available.2.millis = c.millis := rfl
        have hr : c.available.2.rxDelay = c.rxDelay := rfl
        have ha : c.available.1 = if c.rxDelay = 0 then c.rx.length else 0 := rfl
        rw [hm, ha] at h1
        rw [hr]
        by_cases hz : c.rxDelay = 0
        · exact hz
        · simp only [hz, if_false, true_and, not_lt] at h1
          simp only [TIMEOUT_MS_SERVERRESPONSE] at *
          omega

/-! ### Traces -/

theorem find_trace (t : Bytes) (c : Client) :
    (c.find t).2.trace = c.trace ++ [Op.find t (c.find t).1] := by
  unfold Client.find
  cases findAfter t c.rx <;> rfl

theorem find_frame (t : Bytes) (c : Client) :
    (c.find t).2.connectOk = c.connectOk ∧ (c.find t).2.writeOk = c.writeOk ∧
    (c.find t).2.rxDelay = c.rxDelay := by
  unfold Client.find
  cases findAfter t c.rx <;> exact ⟨rfl, rfl, rfl⟩

theorem print_eq_zero_iff (s : Bytes) (c : Client) :
    (c.print s).1 = 0 ↔ (c.writeOk.headD true = false ∨ s = []) := by
  unfold Client.print
  cases h : c.writeOk.headD true <;> simp [List.length_eq_zero]

/-- What a sequence of writes leaves untouched, and the calls it makes: when all
are written, one successful `print` per text, none of them empty; otherwise
the successful ones up to the first that writes nothing. -/
theorem printAll_spec (l : List Bytes) :
    ∀ c : Client,
      (printAll l c).2.rx = c.rx ∧ (printAll l c).2.rxDelay = c.rxDelay ∧
      (printAll l c).2.clock = c.clock ∧ (printAll l c).2.overshoot = c.overshoot ∧
      (printAll l c).2.connectOk = c.connectOk ∧
      ((printAll l c).1 = true →
        (printAll l c).2.trace = c.trace ++ l.map (fun s => Op.print s s.length) ∧
        ∀ s ∈ l, s ≠ []) ∧
      ((printAll l c).1 = false →
        ∃ pre s post, l = pre ++ s :: post ∧
          (printAll l c).2.trace =
            c.trace ++ pre.map (fun s => Op.print s s.length) ++ [Op.print s 0]) := by
  induction l with
  | nil =>
    intro c
    simp [printAll]
  | cons s l ih =>
    intro c
    rw [printAll]
    by_cases h : (c.print s).1 = 0
    · rw [if_pos h]
      refine ⟨rfl, rfl, rfl, rfl, rfl, by simp, ?_⟩
      intro _
      refine ⟨[], s, l, rfl, ?_⟩
      have : (c.print s).2.trace = c.trace ++ [Op.print s (c.print s).1] := rfl
      simp [this, h]
    · rw [if_neg h]
      obtain ⟨i1, i2, i3, i4, i5, i6, i7⟩ := ih (c.print s).2
      have hn : (c.print s).1 = s.length := by
        have h' := h
        rw [print_eq_zero_iff] at h'
        unfold Client.print
        cases hh : c.writeOk.headD true
        · exact absurd (Or.inl hh) h'
        · simp
      have hs : s ≠ [] := by
        intro hc
        apply h
        rw [print_eq_zero_iff]
        exact Or.inr hc
      have ht : (c.print s).2.trace = c.trace ++ [Op.print s s.length] := by
        have : (c.print s).2.trace = c.trace ++ [Op.print s (c.print s).1] := rfl
        rw [this, hn]
      refine ⟨i1, i2, i3, i4, i5, ?_, ?_⟩
      · intro hf
        obtain ⟨j1, j2⟩ := i6 hf
        refine ⟨?_, ?_⟩
        · rw [j1, ht]; simp
        · intro x hx
          simp only [List.mem_cons] at hx
          rcases hx with hx | hx
          · rw [hx]; exact hs
          · exact j2 x hx
      · intro hf
        obtain ⟨pre, x, post, j1, j2⟩ := i7 hf
        refine ⟨s :: pre, x, post, by rw [j1]; rfl, ?_⟩
        rw [j2, ht]; simp

/-- The calls `getHTTPResponse` makes: none is a `print` or a `stop`; and it
neither changes the script of the connection nor that of the writes. -/
theorem getHTTPResponse_trace (response : Bytes) (c : Client) :
    ∃ ops, (getHTTPResponse response c).2.2.trace = c.trace ++ ops ∧
      ∀ op ∈ ops, op.isPrint = false ∧ op ≠ Op.stop := by
  obtain ⟨_, _, _, ⟨wops, hw, hwp⟩, _⟩ := waitForResponse_spec waitFuel c.millis c
  unfold getHTTPResponse
  simp only []
  generalize waitForResponse waitFuel c.millis c = w at hw ⊢
  have ha : w.available.2.trace = w.trace ++ [Op.available w.available.1] := rfl
  have hp : ∀ c' : Client, c'.parseInt.2.trace = c'.trace ++ [Op.parseInt c'.parseInt.1] :=
    fun _ => rfl
  have hr : ∀ c' : Client, c'.readString.2.trace = c'.trace ++ [Op.readString c'.readString.1] :=
    fun _ => rfl
  split_ifs
  all_goals
    simp only [find_trace, hp, hr, ha, hw, List.append_assoc]
    refine ⟨_, rfl, ?_⟩
    intro op hop
    rcases List.mem_append.mp hop with h | h
    · exact hwp op h
    · clear hop
      revert h
      revert op
      simp [Op.isPrint]

theorem sentBytes_append (a b : List Op) : sentBytes (a ++ b) = sentBytes a ++ sentBytes b := by
  induction a with
  | nil => simp [sentBytes]
  | cons op a ih =>
    cases op <;> simp [sentBytes, ih]
    split_ifs <;> simp

theorem sentBytes_of_no_print (a : List Op) (h : ∀ op ∈ a, op.isPrint = false) :
    sentBytes a = [] := by
  induction a with
  | nil => rfl
  | cons op a ih =>
    have h1 := h op (List.mem_cons_self _ _)
    have h2 := ih (fun x hx => h x (List.mem_cons_of_mem _ hx))
    cases op <;> simp_all [sentBytes, Op.isPrint]

theorem sentBytes_map_print (l : List Bytes) :
    sentBytes (l.map (fun s => Op.print s s.length)) = l.flatten := by
  induction l with
  | nil => rfl
  | cons s l ih =>
    simp only [List.map_cons, sentBytes, ih, List.flatten_cons]
    split_ifs with h
    · rw [List.length_eq_zero] at h
      simp [h]
    · rfl

/-- The calls one run of `writeRaw` makes on the transport, case by case: a
refused connection; a write that writes nothing, after which only `stop`
follows; or the whole request, the calls of the response reader, and `stop`. -/
theorem writeRawExchange_trace (P : Platform) (port : Nat) (q : Bytes) (key : Option Bytes)
    (c : Client) :
    (c.connectOk = false →
      writeRawExchange P port q key c =
        (TS_ERR_CONNECT_FAILED,
          { c with trace := c.trace ++ [Op.connect (bytes "api.thingspeak.com") port false] })) ∧
    (c.connectOk = true →
      (∃ pre s post, postRequest P q key = pre ++ s :: post ∧
        (writeRawExchange P port q key c).1 = TS_ERR_UNEXPECTED_FAIL ∧
        (writeRawExchange P port q key c).2.trace =
          c.trace ++ [Op.connect (bytes "api.thingspeak.com") port true]
            ++ pre.map (fun s => Op.print s s.length) ++ [Op.print s 0] ++ [Op.stop]) ∨
      (∃ rops, (∀ s ∈ postRequest P q key, s ≠ []) ∧
        (∀ op ∈ rops, op.isPrint = false ∧ op ≠ Op.stop) ∧
        (writeRawExchange P port q key c).2.trace =
          c.trace ++ [Op.connect (bytes "api.thingspeak.com") port true]
            ++ (postRequest P q key).map (fun s => Op.print s s.length) ++ rops ++ [Op.stop])) := by
  rw [writeRawExchange_eq]
  constructor
  · intro h
    rw [if_pos h]
    simp [Client.connect, h]
  · intro h
    have h0 : ¬ c.connectOk = false := by simp [h]
    rw [if_neg h0]
    have hc1 : (c.connect (bytes "api.thingspeak.com") port).2.trace =
        c.trace ++ [Op.connect (bytes "api.thingspeak.com") port true] := by
      simp [Client.connect, h]
    generalize (c.connect (bytes "api.thingspeak.com") port).2 = c1 at hc1 ⊢
    obtain ⟨_, _, _, _, _, hok, hfail⟩ := printAll_spec (postRequest P q key) c1
    cases hr : (printAll (postRequest P q key) c1).1
    · left
      obtain ⟨pre, s, post, hl, ht⟩ := hfail hr
      refine ⟨pre, s, post, hl, by simp, ?_⟩
      simp only [if_true]
      show (printAll (postRequest P q key) c1).2.trace ++ [Op.stop] = _
      rw [ht, hc1]
    · right
      obtain ⟨ht, hne⟩ := hok hr
      obtain ⟨rops, hrt, hrp⟩ := getHTTPResponse_trace [] (printAll (postRequest P q key) c1).2
      refine ⟨rops, hne, hrp, ?_⟩
      have hstop : ∀ x : Client, x.stop.trace = x.trace ++ [Op.stop] := fun _ => rfl
      simp only [Bool.true_eq_false, if_false]
      split_ifs <;> simp only [hstop, hrt, ht, hc1]

theorem drop_trace (t ops : List Op) : (t ++ ops).drop t.length = ops := by
  simp

/-- C9: when `connect` succeeds and every write of the exchange succeeds, the
bytes `writeRaw(channel, q, key)` writes to the transport are exactly the
request line `POST /update HTTP/1.1`, the `Host`, `Connection: close` and
`User-Agent` lines, the `X-THINGSPEAKAPIKEY` line if and only if a write
credential was supplied, the `Content-Type` line, `Content-Length: ` followed
by the decimal byte length `L` of the body and a blank line, then the body
`q` followed by `&headers=false`, where `L` is the length of `q` plus 14. -/
theorem writeRaw_request_bytes (P : Platform) (channelNumber : Nat) (q : Bytes)
    (key : Option Bytes) (ts : ThingSpeakClass)
    (hconn : ts.client.connectOk = true)
    (hw : allWritesSucceeded
      ((writeRaw P channelNumber q key ts).2.client.trace.drop ts.client.trace.length)) :
    sentBytes ((writeRaw P channelNumber q key ts).2.client.trace.drop ts.client.trace.length) =
      bytes "POST /update HTTP/1.1\r\n" ++ bytes "Host: api.thingspeak.com\r\n" ++
      bytes "Connection: close\r\n" ++ bytes "User-Agent: " ++ TS_USER_AGENT P ++ bytes "\r\n" ++
      credentialLine key ++
      bytes "Content-Type: application/x-www-form-urlencoded\r\n" ++
      bytes "Content-Length: " ++ decimal (q.length + 14) ++ bytes "\r\n\r\n" ++
      (q ++ bytes "&headers=false") ∧
    (q ++ bytes "&headers=false").length = q.length + 14 := by
  have hlen : (q ++ bytes "&headers=false").length = q.length + 14 := by
    rw [List.length_append]; rfl
  refine ⟨?_, hlen⟩
  have hcl : (writeRaw P channelNumber q key ts).2.client =
      (writeRawExchange P ts.port q key ts.client).2 := rfl
  rw [hcl] at hw ⊢
  rcases (writeRawExchange_trace P ts.port q key ts.client).2 hconn with
    ⟨pre, s, post, _, _, ht⟩ | ⟨rops, _, hrp, ht⟩
  · exfalso
    rw [ht] at hw
    simp only [List.append_assoc, drop_trace] at hw
    have := hw (Op.print s 0) (by simp)
    simp [Op.wrote] at this
  · rw [ht]
    simp only [List.append_assoc, drop_trace]
    rw [sentBytes_append, sentBytes_append, sentBytes_append, sentBytes_map_print,
      sentBytes_of_no_print rops (fun op h => (hrp op h).1)]
    simp only [sentBytes, List.append_nil, List.nil_append]
    unfold postRequest headerLines
    rw [hlen]
    cases key <;> simp [List.append_assoc, credentialLine]

set_option maxRecDepth 20000 in
/-- Witness of `writeRaw_request_bytes`: a transport that accepts everything,
with the credential `KEY` and the query `field1=7`. -/
theorem writeRaw_request_bytes_witness :
    (answering (bytes "HTTP/1.1 200 OK\r\nA: b\r\n\r\n4")).connectOk = true ∧
    sentBytes ((writeRaw photon 12 (bytes "field1=7") (some (bytes "KEY"))
        (ThingSpeakClass.construct
          (answering (bytes "HTTP/1.1 200 OK\r\nA: b\r\n\r\n4")))).2.client.trace.drop 0) =
      bytes "POST /update HTTP/1.1\r\nHost: api.thingspeak.com\r\nConnection: close\r\nUser-Agent: tslib-arduino/1.6.0 (particle photon)\r\nX-THINGSPEAKAPIKEY: KEY\r\nContent-Type: application/x-www-form-urlencoded\r\nContent-Length: 22\r\n\r\nfield1=7&headers=false" := by
  refine ⟨rfl, ?_⟩
  have h := (writeRaw_request_bytes photon 12 (bytes "field1=7") (some (bytes "KEY"))
    (ThingSpeakClass.construct (answering (bytes "HTTP/1.1 200 OK\r\nA: b\r\n\r\n4")))
    (by decide) (by decide)).1
  exact h.trans (by decide)

theorem find_of_some (t : Bytes) (x : Client) (r : Bytes) (h : findAfter t x.rx = some r) :
    (x.find t).1 = true ∧ (x.find t).2.rx = r := by
  simp only [Client.find, h, and_self]

/-- A response that is visible within the timeout, starts a status line
`HTTP/1.1` with status 200 and has a complete header block is read to the end:
`getHTTPResponse` returns 200 and stores the body. -/
theorem getHTTPResponse_ok (response : Bytes) (c : Client) (r1 r3 body : Bytes)
    (harrive : c.rxDelay ≤ TIMEOUT_MS_SERVERRESPONSE)
    (h1 : findAfter (bytes "HTTP/1.1") c.rx = some r1)
    (h2 : (streamParseInt r1).1 = 200)
    (h3 : findAfter (bytes "\r\n") (streamParseInt r1).2 = some r3)
    (h4 : findAfter (bytes "\n\r\n") r3 = some body) :
    (getHTTPResponse response c).1 = TS_OK_SUCCESS ∧ (getHTTPResponse response c).2.1 = body := by
  obtain ⟨w1, _, _, _, w5⟩ := waitForResponse_spec waitFuel c.millis c
  have hs : c.millis < 2 ^ 32 := by simp only [Client.millis]; omega
  have hz : (waitForResponse waitFuel c.millis c).rxDelay = 0 := by
    apply w5 hs
    · left
      simp only [TIMEOUT_MS_SERVERRESPONSE] at *
      omega
    · simp only [TIMEOUT_MS_SERVERRESPONSE, waitFuel]
      omega
  have hne : c.rx ≠ [] := by
    intro hc
    rw [hc] at h1
    simp [findAfter, bytes] at h1
  unfold getHTTPResponse
  simp only []
  generalize waitForResponse waitFuel c.millis c = w at w1 hz ⊢
  have ha1 : w.available.1 ≠ 0 := by
    simp only [Client.available, hz, if_true, w1]
    exact fun h => hne (List.length_eq_zero.mp h)
  have ha2 : w.available.2.rx = c.rx := w1
  rw [if_neg ha1]
  obtain ⟨f1a, f1b⟩ := find_of_some (bytes "HTTP/1.1") w.available.2 r1 (by rw [ha2]; exact h1)
  generalize w.available.2.find (bytes "HTTP/1.1") = f1 at f1a f1b ⊢
  rw [if_neg (by simp [f1a])]
  have p1 : f1.2.parseInt.1 = 200 := by
    simp only [Client.parseInt, f1b, h2]
  have p2 : f1.2.parseInt.2.rx = (streamParseInt r1).2 := by
    simp only [Client.parseInt, f1b]
  generalize f1.2.parseInt = st at p1 p2 ⊢
  have hst : ¬ (st.1 ≠ TS_OK_SUCCESS) := by
    rw [p1]; decide
  rw [if_neg hst]
  obtain ⟨f2a, f2b⟩ := find_of_some (bytes "\r\n") st.2 r3 (by rw [p2]; exact h3)
  generalize st.2.find (bytes "\r\n") = f2 at f2a f2b ⊢
  rw [if_neg (by simp [f2a])]
  obtain ⟨f3a, f3b⟩ := find_of_some (bytes "\n\r\n") f2.2 body (by rw [f2b]; exact h4)
  generalize f2.2.find (bytes "\n\r\n") = f3 at f3a f3b ⊢
  rw [if_neg (by simp [f3a])]
  exact ⟨p1, f3b⟩

/-- When every write of the exchange succeeded, the whole request was printed. -/
theorem printAll_of_allWritesSucceeded (P : Platform) (port : Nat) (q : Bytes)
    (key : Option Bytes) (c : Client) (hconn : c.connectOk = true)
    (hw : allWritesSucceeded
      ((writeRawExchange P port q key c).2.trace.drop c.trace.length)) :
    (printAll (postRequest P q key) (c.connect (bytes "api.thingspeak.com") port).2).1 = true := by
  cases hr : (printAll (postRequest P q key) (c.connect (bytes "api.thingspeak.com") port).2).1
  · exfalso
    obtain ⟨_, _, _, _, _, _, hfail⟩ :=
      printAll_spec (postRequest P q key) (c.connect (bytes "api.thingspeak.com") port).2
    obtain ⟨pre, s, post, _, ht⟩ := hfail hr
    rw [writeRawExchange_eq, if_neg (by simp [hconn]), if_pos hr] at hw
    have hst : ∀ x : Client, x.stop.trace = x.trace ++ [Op.stop] := fun _ => rfl
    have hc1 : (c.connect (bytes "api.thingspeak.com") port).2.trace =
        c.trace ++ [Op.connect (bytes "api.thingspeak.com") port c.connectOk] := rfl
    simp only [hst, ht, hc1, List.append_assoc, drop_trace] at hw
    have := hw (Op.print s 0) (by simp)
    simp [Op.wrote] at this
  · rfl

/-- C10: for every write exchange (connection accepted, every write
succeeded, response visible within the timeout) whose response has status 200
after the token `HTTP/1.1` and a complete header block, `writeRaw` returns
NotInserted (-401) when the body, parsed as a leading decimal integer, is 0,
and otherwise returns the success code 200. -/
theorem writeRaw_entry_id (P : Platform) (channelNumber : Nat) (q : Bytes)
    (key : Option Bytes) (ts : ThingSpeakClass) (r1 r3 body : Bytes)
    (hconn : ts.client.connectOk = true)
    (hw : allWritesSucceeded
      ((writeRaw P channelNumber q key ts).2.client.trace.drop ts.client.trace.length))
    (harrive : ts.client.rxDelay ≤ TIMEOUT_MS_SERVERRESPONSE)
    (h1 : findAfter (bytes "HTTP/1.1") ts.client.rx = some r1)
    (h2 : (streamParseInt r1).1 = 200)
    (h3 : findAfter (bytes "\r\n") (streamParseInt r1).2 = some r3)
    (h4 : findAfter (bytes "\n\r\n") r3 = some body) :
    (writeRaw P channelNumber q key ts).1 = if toInt body = 0 then -401 else 200 := by
  have hcl : (writeRaw P channelNumber q key ts).2.client =
      (writeRawExchange P ts.port q key ts.client).2 := rfl
  have hres : (writeRaw P channelNumber q key ts).1 =
      (writeRawExchange P ts.port q key ts.client).1 := rfl
  rw [hcl] at hw
  have hp := printAll_of_allWritesSucceeded P ts.port q key ts.client hconn hw
  obtain ⟨i1, i2, _, _, _, _, _⟩ :=
    printAll_spec (postRequest P q key)
      (ts.client.connect (bytes "api.thingspeak.com") ts.port).2
  have hrx : (printAll (postRequest P q key)
      (ts.client.connect (bytes "api.thingspeak.com") ts.port).2).2.rx = ts.client.rx := i1
  have hrd : (printAll (postRequest P q key)
      (ts.client.connect (bytes "api.thingspeak.com") ts.port).2).2.rxDelay
        = ts.client.rxDelay := i2
  obtain ⟨g1, g2⟩ := getHTTPResponse_ok [] _ r1 r3 body (by rw [hrd]; exact harrive)
    (by rw [hrx]; exact h1) h2 h3 h4
  rw [hres, writeRawExchange_eq, if_neg (by simp [hconn]), if_neg (by simp [hp]),
    if_neg (by simp [g1]), g2]
  by_cases hz : toInt body = 0
  · rw [if_pos hz, if_pos hz]; rfl
  · rw [if_neg hz, if_neg hz]; rfl

set_option maxRecDepth 20000 in
/-- Witness of `writeRaw_entry_id`: the body `0` gives NotInserted, and a body
with no leading number gives NotInserted as well. -/
theorem writeRaw_entry_id_witness :
    (writeRaw photon 12 (bytes "field1=7") (some (bytes "KEY"))
      (ThingSpeakClass.construct (answering (bytes "HTTP/1.1 200 OK\r\nA: b\r\n\r\n0")))).1
      = (if toInt (bytes "0") = 0 then -401 else 200) ∧
    toInt (bytes "0") = 0 ∧
    (writeRaw photon 12 (bytes "field1=7") none
      (ThingSpeakClass.construct (answering (bytes "HTTP/1.1 200 OK\r\nA: b\r\n\r\nnone")))).1
      = (if toInt (bytes "none") = 0 then -401 else 200) ∧
    toInt (bytes "none") = 0 :=
  ⟨writeRaw_entry_id photon 12 (bytes "field1=7") (some (bytes "KEY"))
      (ThingSpeakClass.construct (answering (bytes "HTTP/1.1 200 OK\r\nA: b\r\n\r\n0")))
      (bytes " 200 OK\r\nA: b\r\n\r\n0") (bytes "A: b\r\n\r\n0") (bytes "0")
      (by decide) (by decide) (by decide) (by decide) (by decide) (by decide) (by decide),
   by decide,
   writeRaw_entry_id photon 12 (bytes "field1=7") none
      (ThingSpeakClass.construct (answering (bytes "HTTP/1.1 200 OK\r\nA: b\r\n\r\nnone")))
      (bytes " 200 OK\r\nA: b\r\n\r\nnone") (bytes "A: b\r\n\r\nnone") (bytes "none")
      (by decide) (by decide) (by decide) (by decide) (by decide) (by decide) (by decide),
   by decide⟩

/-- No component contributes to the payload exactly when the pending update is empty. -/
theorem pendingComponents_eq_nil_iff (P : Platform) (ts : ThingSpeakClass) :
    pendingComponents P ts = [] ↔ pendingEmpty ts := by
  unfold pendingComponents pendingEmpty
  simp only [List.append_eq_nil, List.map_eq_nil_iff, List.filter_eq_nil_iff]
  constructor
  · rintro ⟨⟨⟨⟨⟨hf, h1⟩, h2⟩, h3⟩, h4⟩, h5⟩
    refine ⟨?_, ?_, ?_, ?_, ?_, ?_⟩
    · intro i
      have := hf i (mem_fieldIndexes i)
      simpa using this
    · by_contra hc; simp [hc] at h4
    · by_contra hc; simp [hc] at h5
    · cases hc : ts.nextWriteLatitude.isnan
      · simp [hc] at h1
      · rfl
    · cases hc : ts.nextWriteLongitude.isnan
      · simp [hc] at h2
      · rfl
    · cases hc : ts.nextWriteElevation.isnan
      · simp [hc] at h3
      · rfl
  · rintro ⟨hf, h4, h5, h1, h2, h3⟩
    simp [hf, h1, h2, h3, h4, h5]

/-- Consuming an empty pending update changes nothing. -/
theorem consumed_of_pendingEmpty (ts : ThingSpeakClass) (h : pendingEmpty ts) :
    consumed ts = ts := by
  obtain ⟨hf, h4, h5, h1, h2, h3⟩ := h
  cases ts
  simp only at hf h4 h5 h1 h2 h3
  simp only [consumed, h1, h2, h3, if_true, ThingSpeakClass.mk.injEq, true_and, and_true]
  exact ⟨by funext i; exact (hf i).symm, h4.symm, h5.symm⟩

/-- A consumed pending update is empty. -/
theorem pendingEmpty_consumed (ts : ThingSpeakClass) : pendingEmpty (consumed ts) := by
  refine ⟨fun _ => rfl, rfl, rfl, ?_, ?_, ?_⟩
  · show Float32.isnan (if ts.nextWriteLatitude.isnan then ts.nextWriteLatitude else NAN) = true
    cases h : ts.nextWriteLatitude.isnan
    · simp [h]; decide
    · simp [h]
  · show Float32.isnan (if ts.nextWriteLongitude.isnan then ts.nextWriteLongitude else NAN) = true
    cases h : ts.nextWriteLongitude.isnan
    · simp [h]; decide
    · simp [h]
  · show Float32.isnan (if ts.nextWriteElevation.isnan then ts.nextWriteElevation else NAN) = true
    cases h : ts.nextWriteElevation.isnan
    · simp [h]; decide
    · simp [h]

/-- The two ways `writeFields` ends. -/
theorem writeFields_eq (P : Platform) (channelNumber : Nat) (key : Option Bytes)
    (ts : ThingSpeakClass) :
    writeFields P channelNumber key ts =
      if pendingComponents P ts = [] then (TS_ERR_SETFIELD_NOT_CALLED, consumed ts)
      else writeRaw P channelNumber ((bytes "&").intercalate (pendingComponents P ts)) key
        (consumed ts) := by
  unfold writeFields
  rw [writeFieldsBuild_eq]
  by_cases h : pendingComponents P ts = []
  · simp [h]
  · simp [h]

theorem NAN_isnan : NAN.isnan = true := by decide

/-- The function `writeRaw` begins by asking for the connection. -/
theorem writeRawExchange_connects (P : Platform) (port : Nat) (q : Bytes) (key : Option Bytes)
    (c : Client) :
    ∃ rest, (writeRawExchange P port q key c).2.trace =
      c.trace ++ Op.connect (bytes "api.thingspeak.com") port c.connectOk :: rest := by
  cases h : c.connectOk
  · rw [((writeRawExchange_trace P port q key c).1 h)]
    exact ⟨[], rfl⟩
  · rcases (writeRawExchange_trace P port q key c).2 h with
      ⟨pre, s, post, _, _, ht⟩ | ⟨rops, _, _, ht⟩
    · rw [ht]
      exact ⟨pre.map (fun s => Op.print s s.length) ++ [Op.print s 0] ++ [Op.stop], by simp⟩
    · rw [ht]
      exact ⟨(postRequest P q key).map (fun s => Op.print s s.length) ++ rops ++ [Op.stop],
        by simp⟩

/-- With nothing set, `writeFields` stops with NoFieldsSet and changes nothing. -/
theorem writeFields_of_pendingEmpty (P : Platform) (channelNumber : Nat) (key : Option Bytes)
    (ts : ThingSpeakClass) (h : pendingEmpty ts) :
    writeFields P channelNumber key ts = (TS_ERR_SETFIELD_NOT_CALLED, ts) := by
  rw [writeFields_eq, if_pos ((pendingComponents_eq_nil_iff P ts).mpr h),
    consumed_of_pendingEmpty ts h]

/-- Whatever happens, `writeFields` leaves an empty pending update. -/
theorem pendingEmpty_writeFields (P : Platform) (channelNumber : Nat) (key : Option Bytes)
    (ts : ThingSpeakClass) :
    pendingEmpty (writeFields P channelNumber key ts).2 := by
  rw [writeFields_eq]
  split_ifs
  · exact pendingEmpty_consumed ts
  · exact pendingEmpty_consumed ts

/-- With exactly one component `x` set, `writeFields` hands `x` to `writeRaw`,
and a second call right after it stops with NoFieldsSet and changes nothing. -/
theorem writeFields_single (P : Platform) (ch ch2 : Nat) (key key2 : Option Bytes)
    (ts : ThingSpeakClass) (x : Bytes) (h : pendingComponents P ts = [x]) :
    writeFields P ch key ts = writeRaw P ch x key (consumed ts) ∧
    writeFields P ch2 key2 (writeFields P ch key ts).2 =
      (-210, (writeFields P ch key ts).2) := by
  refine ⟨?_, ?_⟩
  · rw [writeFields_eq, h, if_neg (by simp)]
    simp [List.intercalate]
  · exact writeFields_of_pendingEmpty P ch2 key2 _ (pendingEmpty_writeFields P ch key ts)

theorem filter_fieldIndexes_eq (k : Fin 8) :
    fieldIndexes.filter (fun i => decide (i = k)) = [k] := by
  revert k; decide

/-- C5: when no component of the pending update is set, as on a freshly
constructed object or right after `begin`, `writeFields` returns NoFieldsSet
(-210) and the object is unchanged, so that no call is made on the transport,
not even `connect`; when at least one component is set, it does not stop there:
its result is that of `writeRaw` on the payload it built, and the first call it
makes on the transport is `connect`. -/
theorem writeFields_nothing_set (P : Platform) (channelNumber : Nat) (key : Option Bytes)
    (ts : ThingSpeakClass) (c : Client) :
    (pendingEmpty ts → writeFields P channelNumber key ts = (-210, ts)) ∧
    (¬ pendingEmpty ts →
      writeFields P channelNumber key ts =
        writeRaw P channelNumber (writeFieldsBuild P ts).postMessage key
          (writeFieldsBuild P ts).ts ∧
      ∃ rest, (writeFields P channelNumber key ts).2.client.trace =
        ts.client.trace ++
          Op.connect (bytes "api.thingspeak.com") ts.port ts.client.connectOk :: rest) ∧
    pendingEmpty (ThingSpeakClass.construct c) ∧
    pendingEmpty (begin c ts).2 := by
  refine ⟨?_, ?_, ?_, ?_⟩
  · intro h
    exact writeFields_of_pendingEmpty P channelNumber key ts h
  · intro h
    have hne : ¬ pendingComponents P ts = [] := fun hc =>
      h ((pendingComponents_eq_nil_iff P ts).mp hc)
    have hb : (writeFieldsBuild P ts).fFirstItem = false := by
      rw [writeFieldsBuild_eq]; simp [hne]
    have he : writeFields P channelNumber key ts =
        writeRaw P channelNumber (writeFieldsBuild P ts).postMessage key
          (writeFieldsBuild P ts).ts := by
      unfold writeFields
      rw [hb]; rfl
    refine ⟨he, ?_⟩
    rw [he, writeFieldsBuild_eq]
    exact writeRawExchange_connects P ts.port _ key ts.client
  · exact ⟨fun _ => rfl, rfl, rfl, NAN_isnan, NAN_isnan, NAN_isnan⟩
  · exact ⟨fun _ => rfl, rfl, rfl, NAN_isnan, NAN_isnan, NAN_isnan⟩

set_option maxRecDepth 20000 in
/-- Witness of `writeFields_nothing_set`: a fresh object, and the same object
after `setStatus("ok")`, on a transport that refuses the connection. -/
theorem writeFields_nothing_set_witness :
    writeFields photon 12 none (ThingSpeakClass.construct offline)
      = (-210, ThingSpeakClass.construct offline) ∧
    (writeFields photon 12 none
      (setStatus (bytes "ok") (ThingSpeakClass.construct offline)).2).2.client.trace
      = [Op.connect (bytes "api.thingspeak.com") 80 false] :=
  ⟨(writeFields_nothing_set photon 12 none (ThingSpeakClass.construct offline) offline).1
      (writeFields_nothing_set photon 12 none (ThingSpeakClass.construct offline) offline).2.2.1,
   by decide⟩

/-- C7: for every pending update with at least one component set, the payload
`writeFields` hands to `writeRaw` is the `&`-join, with no leading or trailing
separator, of exactly the set components in this order: `field<N>=` and the
escaped value for each set field in ascending `N`, then `lat=`, `long=` and
`elevation=` with the formatted coordinate, then `status=` and the escaped
status, then `created_at=` and the created-at text as it is; unset components
contribute nothing. -/
theorem writeFields_payload (P : Platform) (channelNumber : Nat) (key : Option Bytes)
    (ts : ThingSpeakClass) (h : ¬ pendingEmpty ts) :
    writeFields P channelNumber key ts =
      writeRaw P channelNumber ((bytes "&").intercalate (pendingComponents P ts)) key
        (consumed ts) := by
  have hne : ¬ pendingComponents P ts = [] := fun hc =>
    h ((pendingComponents_eq_nil_iff P ts).mp hc)
  rw [writeFields_eq, if_neg hne]

set_option maxRecDepth 20000 in
/-- Witness of `writeFields_payload`: field 1, field 3, a latitude and a status. -/
theorem writeFields_payload_witness :
    ¬ pendingEmpty (setStatus (bytes "a&b") (setLatitude ⟨false, 127, 4194304⟩
        (setField 3 (bytes "x y") (setField 1 (bytes "23.5")
          (ThingSpeakClass.construct offline)).2).2).2).2 ∧
    writeFields photon 12 none (setStatus (bytes "a&b") (setLatitude ⟨false, 127, 4194304⟩
        (setField 3 (bytes "x y") (setField 1 (bytes "23.5")
          (ThingSpeakClass.construct offline)).2).2).2).2 =
      writeRaw photon 12 (bytes "field1=23.5&field3=x y&lat=1.500000&status=a%26b") none
        (consumed (setStatus (bytes "a&b") (setLatitude ⟨false, 127, 4194304⟩
          (setField 3 (bytes "x y") (setField 1 (bytes "23.5")
            (ThingSpeakClass.construct offline)).2).2).2).2) := by
  have hne : ¬ pendingEmpty (setStatus (bytes "a&b") (setLatitude ⟨false, 127, 4194304⟩
        (setField 3 (bytes "x y") (setField 1 (bytes "23.5")
          (ThingSpeakClass.construct offline)).2).2).2).2 := by
    intro h
    have h2 := h.2.1
    revert h2
    decide
  refine ⟨hne, ?_⟩
  have h := writeFields_payload photon 12 none _ hne
  have hp : (bytes "&").intercalate (pendingComponents photon
      (setStatus (bytes "a&b") (setLatitude ⟨false, 127, 4194304⟩
        (setField 3 (bytes "x y") (setField 1 (bytes "23.5")
          (ThingSpeakClass.construct offline)).2).2).2).2) =
      bytes "field1=23.5&field3=x y&lat=1.500000&status=a%26b" := by decide
  rw [hp] at h
  exact h

/-- C8: for every pending update and every behaviour of the transport, the
pending update is empty after `writeFields` returns: the 8 fields, the status
and the created-at text are empty, and latitude, longitude and elevation are
unset. -/
theorem writeFields_clears (P : Platform) (channelNumber : Nat) (key : Option Bytes)
    (ts : ThingSpeakClass) :
    pendingEmpty (writeFields P channelNumber key ts).2 :=
  pendingEmpty_writeFields P channelNumber key ts

set_option maxRecDepth 20000 in
/-- C6 (as stated, refuted): starting from an empty pending update on a
transport that would accept everything, `setLatitude(NAN)`, `setField(1, "")`
and `setStatus("")` each return 200, and the `writeFields` that follows
returns NoFieldsSet (-210) without a call on the transport. -/
theorem single_set_counterexample :
    (setLatitude NAN (ThingSpeakClass.construct
      (answering (bytes "HTTP/1.1 200 OK\r\nA: b\r\n\r\n4")))).1 = 200 ∧
    (writeFields photon 12 none (setLatitude NAN (ThingSpeakClass.construct
      (answering (bytes "HTTP/1.1 200 OK\r\nA: b\r\n\r\n4")))).2).1 = -210 ∧
    (writeFields photon 12 none (setLatitude NAN (ThingSpeakClass.construct
      (answering (bytes "HTTP/1.1 200 OK\r\nA: b\r\n\r\n4")))).2).2.client.trace = [] ∧
    (setField 1 [] (ThingSpeakClass.construct
      (answering (bytes "HTTP/1.1 200 OK\r\nA: b\r\n\r\n4")))).1 = 200 ∧
    (writeFields photon 12 none (setField 1 [] (ThingSpeakClass.construct
      (answering (bytes "HTTP/1.1 200 OK\r\nA: b\r\n\r\n4")))).2).1 = -210 ∧
    (setStatus [] (ThingSpeakClass.construct
      (answering (bytes "HTTP/1.1 200 OK\r\nA: b\r\n\r\n4")))).1 = 200 ∧
    (writeFields photon 12 none (setStatus [] (ThingSpeakClass.construct
      (answering (bytes "HTTP/1.1 200 OK\r\nA: b\r\n\r\n4")))).2).1 = -210 := by
  decide

/-- The one component of the pending update after `setField` on an empty one. -/
theorem pendingComponents_setField (P : Platform) (f : Nat) (t : Bytes) (ts : ThingSpeakClass)
    (hempty : pendingEmpty ts) (hf : 1 ≤ f ∧ f ≤ 8) (ht : t ≠ [] ∧ t.length ≤ 255) :
    (setField f t ts).1 = 200 ∧
    pendingComponents P (setField f t ts).2 =
      [bytes "field" ++ decimal f ++ bytes "=" ++ escapeUrl t] := by
  obtain ⟨e1, e2, e3, e4, e5, e6⟩ := hempty
  have h1 : ¬ (f < FIELDNUM_MIN ∨ f > FIELDNUM_MAX) := by
    simp only [FIELDNUM_MIN, FIELDNUM_MAX]; omega
  have h2 : ¬ (t.length > FIELDLENGTH_MAX) := by
    simp only [FIELDLENGTH_MAX]; omega
  unfold setField
  rw [dif_neg h1, if_neg h2]
  refine ⟨rfl, ?_⟩
  unfold pendingComponents
  simp only [e1, e2, e3, e4, e5, e6, if_true, List.append_nil]
  have hfilter : (fieldIndexes.filter fun i =>
      decide ((if i = (⟨f - 1, by omega⟩ : Fin 8) then t else []) ≠ [])) =
      [(⟨f - 1, by omega⟩ : Fin 8)] := by
    rw [← filter_fieldIndexes_eq]
    apply List.filter_congr
    intro i _
    by_cases hi : i = (⟨f - 1, by omega⟩ : Fin 8)
    · simp [hi, ht.1]
    · simp [hi]
  rw [hfilter]
  have hf1 : f - 1 + 1 = f := by omega
  simp [hf1]

/-- C6 (amended): starting from an empty pending update, after a single call
of `setField` (index in [1,8], non-empty text of at most 255 bytes), of
`setStatus` (non-empty text of at most 255 bytes) or of `setLatitude` (any value
but NaN), which returns 200, `writeFields` builds the one-component payload and
hands it to `writeRaw` instead of stopping with NoFieldsSet, and it clears all
accumulated state: a second `writeFields` right after it returns NoFieldsSet
(-210) and changes nothing. -/
theorem single_set_then_writeFields (P : Platform) (ch ch2 : Nat) (key key2 : Option Bytes)
    (ts : ThingSpeakClass) (f : Nat) (t st : Bytes) (lat : Float32)
    (hempty : pendingEmpty ts) (hf : 1 ≤ f ∧ f ≤ 8) (ht : t ≠ [] ∧ t.length ≤ 255)
    (hst : st ≠ [] ∧ st.length ≤ 255) (hlat : lat.isnan = false) :
    ((setField f t ts).1 = 200 ∧
      writeFields P ch key (setField f t ts).2 =
        writeRaw P ch (bytes "field" ++ decimal f ++ bytes "=" ++ escapeUrl t) key
          (consumed (setField f t ts).2) ∧
      writeFields P ch2 key2 (writeFields P ch key (setField f t ts).2).2 =
        (-210, (writeFields P ch key (setField f t ts).2).2)) ∧
    ((setStatus st ts).1 = 200 ∧
      writeFields P ch key (setStatus st ts).2 =
        writeRaw P ch (bytes "status=" ++ escapeUrl st) key (consumed (setStatus st ts).2) ∧
      writeFields P ch2 key2 (writeFields P ch key (setStatus st ts).2).2 =
        (-210, (writeFields P ch key (setStatus st ts).2).2)) ∧
    ((setLatitude lat ts).1 = 200 ∧
      writeFields P ch key (setLatitude lat ts).2 =
        writeRaw P ch (bytes "lat=" ++ P.floatToString lat) key
          (consumed (setLatitude lat ts).2) ∧
      writeFields P ch2 key2 (writeFields P ch key (setLatitude lat ts).2).2 =
        (-210, (writeFields P ch key (setLatitude lat ts).2).2)) := by
  refine ⟨?_, ?_, ?_⟩
  · obtain ⟨r1, r2⟩ := pendingComponents_setField P f t ts hempty hf ht
    exact ⟨r1, writeFields_single P ch ch2 key key2 _ _ r2⟩
  · obtain ⟨e1, e2, e3, e4, e5, e6⟩ := hempty
    have h2 : ¬ (st.length > FIELDLENGTH_MAX) := by
      simp only [FIELDLENGTH_MAX]; omega
    have hs : setStatus st ts = (TS_OK_SUCCESS, { ts with nextWriteStatus := st }) := by
      unfold setStatus; rw [if_neg h2]
    have hc : pendingComponents P (setStatus st ts).2 = [bytes "status=" ++ escapeUrl st] := by
      rw [hs]
      unfold pendingComponents
      simp [e1, e3, e4, e5, e6, hst.1]
    exact ⟨by rw [hs]; rfl, writeFields_single P ch ch2 key key2 _ _ hc⟩
  · obtain ⟨e1, e2, e3, e4, e5, e6⟩ := hempty
    have hc : pendingComponents P (setLatitude lat ts).2 =
        [bytes "lat=" ++ P.floatToString lat] := by
      unfold pendingComponents setLatitude
      simp [e1, e2, e3, e5, e6, hlat]
    exact ⟨rfl, writeFields_single P ch ch2 key key2 _ _ hc⟩

set_option maxRecDepth 20000 in
/-- Witness of `single_set_then_writeFields`: field 2 set to `7`, on a
transport that answers with entry id 4. -/
theorem single_set_then_writeFields_witness :
    pendingEmpty (ThingSpeakClass.construct
      (answering (bytes "HTTP/1.1 200 OK\r\nA: b\r\n\r\n4"))) ∧
    (setField 2 (bytes "7") (ThingSpeakClass.construct
      (answering (bytes "HTTP/1.1 200 OK\r\nA: b\r\n\r\n4")))).1 = 200 ∧
    (writeFields photon 12 none (setField 2 (bytes "7") (ThingSpeakClass.construct
      (answering (bytes "HTTP/1.1 200 OK\r\nA: b\r\n\r\n4")))).2).1 = 200 ∧
    (writeFields photon 12 none (writeFields photon 12 none
      (setField 2 (bytes "7") (ThingSpeakClass.construct
        (answering (bytes "HTTP/1.1 200 OK\r\nA: b\r\n\r\n4")))).2).2).1 = -210 := by
  have hempty : pendingEmpty (ThingSpeakClass.construct
      (answering (bytes "HTTP/1.1 200 OK\r\nA: b\r\n\r\n4"))) :=
    ⟨fun _ => rfl, rfl, rfl, NAN_isnan, NAN_isnan, NAN_isnan⟩
  have h := (single_set_then_writeFields photon 12 12 none none
    (ThingSpeakClass.construct (answering (bytes "HTTP/1.1 200 OK\r\nA: b\r\n\r\n4")))
    2 (bytes "7") (bytes "ok") ⟨false, 127, 0⟩ hempty (by decide) (by decide) (by decide)
    (by decide)).1
  refine ⟨hempty, h.1, by decide, ?_⟩
  rw [h.2.2]

/-! ### The read exchange -/

theorem printAll_cons (s : Bytes) (l : List Bytes) (c : Client) :
    printAll (s :: l) c =
      if (c.print s).1 = 0 then (false, (c.print s).2) else printAll l (c.print s).2 := by
  rw [printAll]

theorem printAll_nil (c : Client) : printAll [] c = (true, c) := by
  rw [printAll]

/-- The shape of `readRaw`: the connection, the request as one sequence of
writes, the response, and `stop`. -/
theorem readRaw_eq (P : Platform) (channelNumber : Nat) (URLSuffix : Bytes)
    (key : Option Bytes) (ts : ThingSpeakClass) :
    readRaw P channelNumber URLSuffix key ts =
      if ts.client.connectOk = false then
        ([], { ts with
          client := (ts.client.connect (bytes "api.thingspeak.com") ts.port).2
          lastReadStatus := TS_ERR_CONNECT_FAILED })
      else if (printAll (getRequest P channelNumber URLSuffix key)
          (ts.client.connect (bytes "api.thingspeak.com") ts.port).2).1 = false then
        ([], { ts with
          client := (afterRequest ts.port (getRequest P channelNumber URLSuffix key)
            ts.client).stop
          lastReadStatus := TS_ERR_UNEXPECTED_FAIL })
      else if (getHTTPResponse []
          (afterRequest ts.port (getRequest P channelNumber URLSuffix key) ts.client)).1
            ≠ TS_OK_SUCCESS then
        ([], { ts with
          client := (getHTTPResponse []
            (afterRequest ts.port (getRequest P channelNumber URLSuffix key)
              ts.client)).2.2.stop
          lastReadStatus := (getHTTPResponse []
            (afterRequest ts.port (getRequest P channelNumber URLSuffix key) ts.client)).1 })
      else
        ((getHTTPResponse []
            (afterRequest ts.port (getRequest P channelNumber URLSuffix key) ts.client)).2.1,
         { ts with
          client := (getHTTPResponse []
            (afterRequest ts.port (getRequest P channelNumber URLSuffix key)
              ts.client)).2.2.stop
          lastReadStatus := (getHTTPResponse []
            (afterRequest ts.port (getRequest P channelNumber URLSuffix key) ts.client)).1 }) := by
  unfold readRaw getRequest afterRequest
  simp only [connectThingSpeak, writeHTTPHeader_eq, abortReadRaw]
  have hc : (ts.client.connect (bytes "api.thingspeak.com") ts.port).1 = ts.client.connectOk :=
    rfl
  rw [hc]
  by_cases h0 : ts.client.connectOk = false
  · simp only [h0, if_true]
  · simp only [h0, if_false]
    generalize (ts.client.connect (bytes "api.thingspeak.com") ts.port).2 = c1
    generalize bytes "/channels/" ++ decimal channelNumber ++ URLSuffix = URL
    simp only [List.cons_append, List.nil_append, printAll_cons]
    by_cases h1 : (c1.print (bytes "GET ")).1 = 0
    · simp only [h1, if_true, Bool.true_eq_false, if_false]
    · simp only [h1, if_false]
      generalize (c1.print (bytes "GET ")).2 = c2
      by_cases h2 : (c2.print URL).1 = 0
      · simp only [h2, if_true, Bool.true_eq_false, if_false]
      · simp only [h2, if_false]
        generalize (c2.print URL).2 = c3
        by_cases h3 : (c3.print (bytes " HTTP/1.1\r\n")).1 = 0
        · simp only [h3, if_true, Bool.true_eq_false, if_false]
        · simp only [h3, if_false, if_true]
          generalize (c3.print (bytes " HTTP/1.1\r\n")).2 = c4
          rw [printAll_append]
          cases hh : (printAll (headerLines P key) c4).1
          · simp only [hh, if_true, Bool.false_eq_true, if_false]
          · simp only [if_true, Bool.true_eq_false, if_false]
            generalize (printAll (headerLines P key) c4).2 = c5
            simp only [printAll_cons, printAll_nil]
            by_cases h4 : (c5.print (bytes "\r\n")).1 = 0
            · simp only [h4, if_true, Bool.true_eq_false, if_false]
            · simp only [h4, if_false, Bool.true_eq_false, List.nil_append]

theorem find_of_none (t : Bytes) (x : Client) (h : findAfter t x.rx = none) :
    (x.find t).1 = false := by
  simp only [Client.find, h]

/-- What `getHTTPResponse` returns and which calls it makes, from the state `w`
the wait ends in: a timeout when `available` still reports nothing, and
otherwise what `readResponse` says of the bytes of the response. -/
theorem getHTTPResponse_eq (response : Bytes) (c : Client) :
    ((waitForResponse waitFuel c.millis c).available.1 = 0 →
      (getHTTPResponse response c).1 = TS_ERR_TIMEOUT ∧
      (getHTTPResponse response c).2.1 = response ∧
      (getHTTPResponse response c).2.2.trace =
        (waitForResponse waitFuel c.millis c).trace ++ [Op.available 0]) ∧
    ((waitForResponse waitFuel c.millis c).available.1 ≠ 0 →
      (getHTTPResponse response c).1 = (readResponse response c.rx).1 ∧
      (getHTTPResponse response c).2.1 = (readResponse response c.rx).2.1 ∧
      (getHTTPResponse response c).2.2.trace =
        (waitForResponse waitFuel c.millis c).trace ++
          Op.available (waitForResponse waitFuel c.millis c).available.1 ::
            (readResponse response c.rx).2.2) := by
  obtain ⟨w1, _, _, _, _⟩ := waitForResponse_spec waitFuel c.millis c
  unfold getHTTPResponse
  simp only []
  generalize waitForResponse waitFuel c.millis c = w at w1 ⊢
  have hat : w.available.2.trace = w.trace ++ [Op.available w.available.1] := rfl
  have harx : w.available.2.rx = c.rx := w1
  constructor
  · intro ha
    rw [if_pos ha]
    refine ⟨rfl, rfl, ?_⟩
    rw [hat, ha]
  · intro ha
    rw [if_neg ha]
    unfold readResponse
    cases h1 : findAfter (bytes "HTTP/1.1") c.rx with
    | none =>
      have f1 := find_of_none (bytes "HTTP/1.1") w.available.2 (by rw [harx]; exact h1)
      have f1t := find_trace (bytes "HTTP/1.1") w.available.2
      rw [if_pos f1]
      refine ⟨rfl, rfl, ?_⟩
      rw [f1t, f1, hat]
      simp
    | some r1 =>
      obtain ⟨f1a, f1b⟩ := find_of_some (bytes "HTTP/1.1") w.available.2 r1
        (by rw [harx]; exact h1)
      have f1t := find_trace (bytes "HTTP/1.1") w.available.2
      rw [f1a, hat] at f1t
      generalize w.available.2.find (bytes "HTTP/1.1") = f1 at f1a f1b f1t ⊢
      rw [if_neg (by simp [f1a])]
      have p1 : f1.2.parseInt.1 = (streamParseInt r1).1 := by
        simp only [Client.parseInt, f1b]
      have p2 : f1.2.parseInt.2.rx = (streamParseInt r1).2 := by
        simp only [Client.parseInt, f1b]
      have pt : f1.2.parseInt.2.trace = f1.2.trace ++ [Op.parseInt f1.2.parseInt.1] := rfl
      rw [p1, f1t] at pt
      generalize f1.2.parseInt = st at p1 p2 pt ⊢
      simp only []
      by_cases hs : (streamParseInt r1).1 ≠ TS_OK_SUCCESS
      · rw [if_pos (by rw [p1]; exact hs), if_pos hs]
        refine ⟨p1, rfl, ?_⟩
        rw [pt]; simp
      · rw [if_neg (by rw [p1]; exact hs), if_neg hs]
        cases h3 : findAfter (bytes "\r\n") (streamParseInt r1).2 with
        | none =>
          have f2 := find_of_none (bytes "\r\n") st.2 (by rw [p2]; exact h3)
          have f2t := find_trace (bytes "\r\n") st.2
          rw [if_pos f2]
          refine ⟨rfl, rfl, ?_⟩
          rw [f2t, f2, pt]; simp
        | some r3 =>
          simp only []
          obtain ⟨f2a, f2b⟩ := find_of_some (bytes "\r\n") st.2 r3 (by rw [p2]; exact h3)
          have f2t := find_trace (bytes "\r\n") st.2
          rw [f2a, pt] at f2t
          generalize st.2.find (bytes "\r\n") = f2 at f2a f2b f2t ⊢
          rw [if_neg (by simp [f2a])]
          cases h4 : findAfter (bytes "\n\r\n") r3 with
          | none =>
            have f3 := find_of_none (bytes "\n\r\n") f2.2 (by rw [f2b]; exact h4)
            have f3t := find_trace (bytes "\n\r\n") f2.2
            rw [if_pos f3]
            refine ⟨rfl, rfl, ?_⟩
            rw [f3t, f3, f2t]; simp
          | some body =>
            obtain ⟨f3a, f3b⟩ := find_of_some (bytes "\n\r\n") f2.2 body
              (by rw [f2b]; exact h4)
            have f3t := find_trace (bytes "\n\r\n") f2.2
            rw [f3a, f2t] at f3t
            generalize f2.2.find (bytes "\n\r\n") = f3 at f3a f3b f3t ⊢
            rw [if_neg (by simp [f3a])]
            have rt : f3.2.readString.2.trace = f3.2.trace ++ [Op.readString f3.2.rx] := rfl
            have rv : f3.2.readString.1 = f3.2.rx := rfl
            refine ⟨p1, ?_, ?_⟩
            · rw [rv, f3b]
            · rw [rt, f3t, f3b]; simp

/-- The calls of the wait are `available` and `delay(100)` only, and the sleeps
are few: none once the timeout has elapsed, and otherwise the sleeps still to
come, at 100 ms or more each, fit in what is left of the timeout. -/
theorem waitForResponse_sleeps (fuel : Nat) :
    ∀ (start : Nat) (c : Client), start < 2 ^ 32 →
      ∃ ops, (waitForResponse fuel start c).trace = c.trace ++ ops ∧
        (∀ op ∈ ops, op.isPoll = true) ∧
        (TIMEOUT_MS_SERVERRESPONSE ≤ (c.millis + 2 ^ 32 - start) % 2 ^ 32 →
          ops.count (Op.delay 100) = 0) ∧
        ((c.millis + 2 ^ 32 - start) % 2 ^ 32 < TIMEOUT_MS_SERVERRESPONSE →
          100 * ops.count (Op.delay 100) + (c.millis + 2 ^ 32 - start) % 2 ^ 32 ≤ 5099) := by
  induction fuel with
  | zero =>
    intro start c _
    refine ⟨[], by simp [waitForResponse], by simp, by simp, ?_⟩
    intro h
    simp only [TIMEOUT_MS_SERVERRESPONSE] at h
    simp only [List.count_nil]
    omega
  | succ fuel ih =>
    intro start c hs
    rw [waitForResponse]
    have hm : c.available.2.millis = c.millis := rfl
    by_cases h1 : c.available.1 = 0 ∧
        (c.available.2.millis + 2 ^ 32 - start) % 2 ^ 32 < TIMEOUT_MS_SERVERRESPONSE
    · rw [if_pos h1]
      obtain ⟨ops, i1, i2, i3, i4⟩ := ih start (c.available.2.delay 100) hs
      have he := elapsed_delay start c.available.2 hs h1.2
      rw [hm] at he
      have h1e := h1.2
      rw [hm] at h1e
      refine ⟨Op.available c.available.1 :: Op.delay 100 :: ops, ?_, ?_, ?_, ?_⟩
      · rw [i1]
        simp [Client.delay, Client.available]
      · intro op hop
        simp only [List.mem_cons] at hop
        rcases hop with h | h | h
        · subst h; rfl
        · subst h; rfl
        · exact i2 op h
      · intro hc
        simp only [TIMEOUT_MS_SERVERRESPONSE] at hc h1e
        omega
      · intro _
        have hcount : (Op.available c.available.1 :: Op.delay 100 :: ops).count (Op.delay 100)
            = ops.count (Op.delay 100) + 1 := by
          simp [List.count_cons]
        rw [hcount]
        by_cases h5 : TIMEOUT_MS_SERVERRESPONSE ≤
            ((c.available.2.delay 100).millis + 2 ^ 32 - start) % 2 ^ 32
        · rw [i3 h5]
          simp only [TIMEOUT_MS_SERVERRESPONSE] at h1e
          omega
        · have := i4 (by omega)
          rw [he] at this
          omega
    · rw [if_neg h1]
      refine ⟨[Op.available c.available.1], rfl, ?_, ?_, ?_⟩
      · intro op hop
        simp only [List.mem_singleton] at hop
        subst hop; rfl
      · intro _
        simp [List.count_cons]
      · intro h
        simp only [TIMEOUT_MS_SERVERRESPONSE] at h
        simp [List.count_cons]
        omega

/-- With enough fuel the wait ends because its condition is false: a byte is
available or the timeout has elapsed. -/
theorem waitForResponse_exits (f : Nat) :
    ∀ (start : Nat) (c : Client), start < 2 ^ 32 →
      TIMEOUT_MS_SERVERRESPONSE ≤ (c.millis + 2 ^ 32 - start) % 2 ^ 32 + 100 * f →
      ¬ ((waitForResponse (f + 1) start c).available.1 = 0 ∧
        ((waitForResponse (f + 1) start c).millis + 2 ^ 32 - start) % 2 ^ 32
          < TIMEOUT_MS_SERVERRESPONSE) := by
  induction f with
  | zero =>
    intro start c hs h
    rw [waitForResponse]
    have hm : c.available.2.millis = c.millis := rfl
    by_cases h1 : c.available.1 = 0 ∧
        (c.available.2.millis + 2 ^ 32 - start) % 2 ^ 32 < TIMEOUT_MS_SERVERRESPONSE
    · exfalso
      rw [hm] at h1
      omega
    · rw [if_neg h1]
      exact h1
  | succ f ih =>
    intro start c hs h
    rw [waitForResponse]
    have hm : c.available.2.millis = c.millis := rfl
    by_cases h1 : c.available.1 = 0 ∧
        (c.available.2.millis + 2 ^ 32 - start) % 2 ^ 32 < TIMEOUT_MS_SERVERRESPONSE
    · rw [if_pos h1]
      apply ih start _ hs
      rw [elapsed_delay start c.available.2 hs h1.2, hm]
      omega
    · rw [if_neg h1]
      exact h1

/-! ### Searching the stream -/

/-- The search finds nothing exactly when the target does not occur in the stream. -/
theorem findAfter_eq_none_iff (t : Bytes) (s : Bytes) :
    findAfter t s = none ↔ ¬ t <:+: s := by
  induction s with
  | nil =>
    simp only [findAfter, List.infix_nil]
    by_cases h : t = [] <;> simp [h]
  | cons b rest ih =>
    rw [findAfter, List.infix_cons_iff, not_or, ← ih, ← List.isPrefixOf_iff_prefix]
    by_cases h : t.isPrefixOf (b :: rest) = true
    · simp [h]
    · simp [h]

/-- What the search leaves is what follows the first occurrence of the target. -/
theorem findAfter_eq_some (t : Bytes) (s r : Bytes) (h : findAfter t s = some r) :
    ∃ pre, s = pre ++ t ++ r ∧
      ∀ pre' r', s = pre' ++ t ++ r' → pre.length ≤ pre'.length := by
  induction s with
  | nil =>
    rw [findAfter] at h
    by_cases ht : t = []
    · rw [if_pos ht] at h
      refine ⟨[], ?_, by simp⟩
      simp only [Option.some.injEq] at h
      simp [ht, ← h]
    · rw [if_neg ht] at h
      exact absurd h (by simp)
  | cons b rest ih =>
    rw [findAfter] at h
    by_cases hp : t.isPrefixOf (b :: rest) = true
    · rw [if_pos hp] at h
      refine ⟨[], ?_, by simp⟩
      obtain ⟨u, hu⟩ := List.isPrefixOf_iff_prefix.mp hp
      simp only [Option.some.injEq] at h
      rw [← h, ← hu]
      simp
    · rw [if_neg hp] at h
      obtain ⟨pre, h1, h2⟩ := ih h
      refine ⟨b :: pre, by rw [h1]; simp, ?_⟩
      intro pre' r' hs
      cases pre' with
      | nil =>
        exfalso
        apply hp
        rw [List.isPrefixOf_iff_prefix]
        exact ⟨r', by rw [hs]; simp⟩
      | cons b' p' =>
        simp only [List.cons_append, List.cons.injEq] at hs
        have := h2 p' r' (by rw [hs.2])
        simp only [List.length_cons]
        omega

/-- A stream in which the target occurs is searched successfully. -/
theorem findAfter_of_occurs (t : Bytes) (pre r : Bytes) :
    ∃ r', findAfter t (pre ++ t ++ r) = some r' := by
  cases h : findAfter t (pre ++ t ++ r) with
  | some r' => exact ⟨r', rfl⟩
  | none =>
    exfalso
    rw [findAfter_eq_none_iff] at h
    exact h ⟨pre, r, rfl⟩

/-! ### One exchange, call by call -/

/-- The transport once the request was printed: the response script is
untouched, and the calls are `connect` followed by the writes, all of them when
each wrote something, and otherwise those up to the first that wrote nothing. -/
theorem afterRequest_spec (port : Nat) (req : List Bytes) (c : Client) :
    (afterRequest port req c).rx = c.rx ∧ (afterRequest port req c).rxDelay = c.rxDelay ∧
    ((printAll req (c.connect (bytes "api.thingspeak.com") port).2).1 = true →
      (afterRequest port req c).trace =
        c.trace ++ (Op.connect (bytes "api.thingspeak.com") port c.connectOk ::
          req.map (fun s => Op.print s s.length)) ∧
      ∀ s ∈ req, s ≠ []) ∧
    ((printAll req (c.connect (bytes "api.thingspeak.com") port).2).1 = false →
      ∃ pre s post, req = pre ++ s :: post ∧
        (afterRequest port req c).trace =
          c.trace ++ (Op.connect (bytes "api.thingspeak.com") port c.connectOk ::
            (pre.map (fun s => Op.print s s.length) ++ [Op.print s 0]))) := by
  obtain ⟨i1, i2, _, _, _, i6, i7⟩ :=
    printAll_spec req (c.connect (bytes "api.thingspeak.com") port).2
  have hc : (c.connect (bytes "api.thingspeak.com") port).2.trace =
      c.trace ++ [Op.connect (bytes "api.thingspeak.com") port c.connectOk] := rfl
  unfold afterRequest
  refine ⟨i1, i2, ?_, ?_⟩
  · intro h
    obtain ⟨j1, j2⟩ := i6 h
    refine ⟨?_, j2⟩
    rw [j1, hc]; simp
  · intro h
    obtain ⟨pre, s, post, j1, j2⟩ := i7 h
    refine ⟨pre, s, post, j1, ?_⟩
    rw [j2, hc]; simp

/-- The response to a request that was printed in full: the calls of the wait
(at most 50 sleeps), then `available`; when that reports nothing the outcome is
Timeout, and otherwise it is what `readResponse` makes of the response. A
response that is not empty and visible within the timeout is always seen. -/
theorem response_after_request (port : Nat) (req : List Bytes) (c : Client)
    (hp : (printAll req (c.connect (bytes "api.thingspeak.com") port).2).1 = true) :
    ∃ wops n, (∀ op ∈ wops, op.isPoll = true) ∧ wops.count (Op.delay 100) ≤ 50 ∧
      (c.rxDelay ≤ TIMEOUT_MS_SERVERRESPONSE → c.rx ≠ [] → n ≠ 0) ∧
      ((n = 0 ∧
        (getHTTPResponse [] (afterRequest port req c)).1 = TS_ERR_TIMEOUT ∧
        (getHTTPResponse [] (afterRequest port req c)).2.1 = [] ∧
        (getHTTPResponse [] (afterRequest port req c)).2.2.trace =
          c.trace ++ (Op.connect (bytes "api.thingspeak.com") port c.connectOk ::
            req.map (fun s => Op.print s s.length) ++ wops ++ [Op.available 0])) ∨
       (n ≠ 0 ∧
        (getHTTPResponse [] (afterRequest port req c)).1 = (readResponse [] c.rx).1 ∧
        (getHTTPResponse [] (afterRequest port req c)).2.1 = (readResponse [] c.rx).2.1 ∧
        (getHTTPResponse [] (afterRequest port req c)).2.2.trace =
          c.trace ++ (Op.connect (bytes "api.thingspeak.com") port c.connectOk ::
            req.map (fun s => Op.print s s.length) ++ wops ++
              Op.available n :: (readResponse [] c.rx).2.2))) := by
  obtain ⟨a1, a2, a3, _⟩ := afterRequest_spec port req c
  obtain ⟨at1, _⟩ := a3 hp
  have hs : (afterRequest port req c).millis < 2 ^ 32 := by
    simp only [Client.millis]; omega
  obtain ⟨wops, w1, w2, _, w4⟩ :=
    waitForResponse_sleeps waitFuel (afterRequest port req c).millis (afterRequest port req c) hs
  obtain ⟨s1, _, _, _, s5⟩ :=
    waitForResponse_spec waitFuel (afterRequest port req c).millis (afterRequest port req c)
  obtain ⟨g1, g2⟩ := getHTTPResponse_eq [] (afterRequest port req c)
  refine ⟨wops, (waitForResponse waitFuel (afterRequest port req c).millis
    (afterRequest port req c)).available.1, w2, ?_, ?_, ?_⟩
  · have := w4 (by simp only [TIMEOUT_MS_SERVERRESPONSE]; omega)
    omega
  · intro harr hne
    have hz := s5 hs (by
      left
      rw [a2]
      simp only [TIMEOUT_MS_SERVERRESPONSE] at *
      omega) (by simp only [TIMEOUT_MS_SERVERRESPONSE, waitFuel]; omega)
    simp only [Client.available, hz, if_true, s1, a1]
    exact fun h => hne (List.length_eq_zero.mp h)
  · by_cases hn : (waitForResponse waitFuel (afterRequest port req c).millis
        (afterRequest port req c)).available.1 = 0
    · left
      obtain ⟨k1, k2, k3⟩ := g1 hn
      refine ⟨hn, k1, k2, ?_⟩
      rw [k3, w1, at1]; simp
    · right
      obtain ⟨k1, k2, k3⟩ := g2 hn
      rw [a1] at k1 k2 k3
      refine ⟨hn, k1, k2, ?_⟩
      rw [k3, w1, at1]; simp

theorem wrote_of_not_print (op : Op) (h : op.isPrint = false) : op.wrote = true := by
  cases op <;> simp_all [Op.isPrint, Op.wrote]

/-- The calls `readResponse` lists are stream reads: no write, no `stop`, no
call of the wait. -/
theorem readResponse_ops (response rx : Bytes) :
    ∀ op ∈ (readResponse response rx).2.2,
      op.isPrint = false ∧ op ≠ Op.stop ∧ op.isPoll = false := by
  unfold readResponse
  cases findAfter (bytes "HTTP/1.1") rx with
  | none => simp [Op.isPrint, Op.isPoll]
  | some r1 =>
    simp only []
    split_ifs
    · simp [Op.isPrint, Op.isPoll]
    · cases findAfter (bytes "\r\n") (streamParseInt r1).2 with
      | none => simp [Op.isPrint, Op.isPoll]
      | some r3 =>
        simp only []
        cases findAfter (bytes "\n\r\n") r3 with
        | none => simp [Op.isPrint, Op.isPoll]
        | some body => simp [Op.isPrint, Op.isPoll]

/-- The two ways `writeRaw` goes on after an accepted connection. -/
theorem writeRaw_cases (P : Platform) (ch : Nat) (q : Bytes) (key : Option Bytes)
    (ts : ThingSpeakClass) (hconn : ts.client.connectOk = true) :
    ((printAll (postRequest P q key)
        (ts.client.connect (bytes "api.thingspeak.com") ts.port).2).1 = false →
      (writeRaw P ch q key ts).1 = TS_ERR_UNEXPECTED_FAIL ∧
      (writeRaw P ch q key ts).2.client =
        (afterRequest ts.port (postRequest P q key) ts.client).stop) ∧
    ((printAll (postRequest P q key)
        (ts.client.connect (bytes "api.thingspeak.com") ts.port).2).1 = true →
      (writeRaw P ch q key ts).2.client =
        (getHTTPResponse [] (afterRequest ts.port (postRequest P q key) ts.client)).2.2.stop ∧
      (writeRaw P ch q key ts).1 =
        if (getHTTPResponse [] (afterRequest ts.port (postRequest P q key) ts.client)).1
            ≠ TS_OK_SUCCESS then
          (getHTTPResponse [] (afterRequest ts.port (postRequest P q key) ts.client)).1
        else if toInt
            (getHTTPResponse [] (afterRequest ts.port (postRequest P q key) ts.client)).2.1
              = 0 then
          TS_ERR_NOT_INSERTED
        else TS_OK_SUCCESS) := by
  have hcl : (writeRaw P ch q key ts).2.client =
      (writeRawExchange P ts.port q key ts.client).2 := rfl
  have hres : (writeRaw P ch q key ts).1 =
      (writeRawExchange P ts.port q key ts.client).1 := rfl
  rw [hcl, hres, writeRawExchange_eq, if_neg (by simp [hconn])]
  unfold afterRequest
  constructor
  · intro h
    rw [if_pos h]
    exact ⟨rfl, rfl⟩
  · intro h
    rw [if_neg (by simp [h])]
    split_ifs <;> exact ⟨rfl, rfl⟩

/-- The two ways `readRaw` goes on after an accepted connection. -/
theorem readRaw_cases (P : Platform) (ch : Nat) (suffix : Bytes) (key : Option Bytes)
    (ts : ThingSpeakClass) (hconn : ts.client.connectOk = true) :
    ((printAll (getRequest P ch suffix key)
        (ts.client.connect (bytes "api.thingspeak.com") ts.port).2).1 = false →
      (readRaw P ch suffix key ts).1 = [] ∧
      (readRaw P ch suffix key ts).2.lastReadStatus = TS_ERR_UNEXPECTED_FAIL ∧
      (readRaw P ch suffix key ts).2.client =
        (afterRequest ts.port (getRequest P ch suffix key) ts.client).stop) ∧
    ((printAll (getRequest P ch suffix key)
        (ts.client.connect (bytes "api.thingspeak.com") ts.port).2).1 = true →
      (readRaw P ch suffix key ts).2.client =
        (getHTTPResponse [] (afterRequest ts.port (getRequest P ch suffix key)
          ts.client)).2.2.stop ∧
      (readRaw P ch suffix key ts).2.lastReadStatus =
        (getHTTPResponse [] (afterRequest ts.port (getRequest P ch suffix key) ts.client)).1 ∧
      (readRaw P ch suffix key ts).1 =
        if (getHTTPResponse [] (afterRequest ts.port (getRequest P ch suffix key) ts.client)).1
            ≠ TS_OK_SUCCESS then []
        else
          (getHTTPResponse [] (afterRequest ts.port (getRequest P ch suffix key)
            ts.client)).2.1) := by
  rw [readRaw_eq, if_neg (by simp [hconn])]
  constructor
  · intro h
    rw [if_pos h]
    exact ⟨rfl, rfl, rfl⟩
  · intro h
    rw [if_neg (by simp [h])]
    split_ifs <;> exact ⟨rfl, rfl, rfl⟩

/-- What `readRaw` leaves untouched: the pending update, the feed cache and the port. -/
theorem readRaw_frame (P : Platform) (ch : Nat) (suffix : Bytes) (key : Option Bytes)
    (ts : ThingSpeakClass) :
    (readRaw P ch suffix key ts).2.lastFeed = ts.lastFeed ∧
    (readRaw P ch suffix key ts).2.port = ts.port ∧
    (readRaw P ch suffix key ts).2.nextWriteField = ts.nextWriteField ∧
    (readRaw P ch suffix key ts).2.nextWriteStatus = ts.nextWriteStatus ∧
    (readRaw P ch suffix key ts).2.nextWriteCreatedAt = ts.nextWriteCreatedAt ∧
    (readRaw P ch suffix key ts).2.nextWriteLatitude = ts.nextWriteLatitude ∧
    (readRaw P ch suffix key ts).2.nextWriteLongitude = ts.nextWriteLongitude ∧
    (readRaw P ch suffix key ts).2.nextWriteElevation = ts.nextWriteElevation := by
  rw [readRaw_eq]
  split_ifs <;> exact ⟨rfl, rfl, rfl, rfl, rfl, rfl, rfl, rfl⟩

/-- After a request printed in full, the exchange ends with `stop`, which is
its only `stop`, and every write of it succeeded. -/
theorem exchange_ok_trace (port : Nat) (req : List Bytes) (c : Client)
    (hp : (printAll req (c.connect (bytes "api.thingspeak.com") port).2).1 = true) :
    ∃ mid, (∀ op ∈ mid, op.isPrint = false ∧ op ≠ Op.stop) ∧
      (getHTTPResponse [] (afterRequest port req c)).2.2.stop.trace =
        c.trace ++ (Op.connect (bytes "api.thingspeak.com") port c.connectOk ::
          req.map (fun s => Op.print s s.length) ++ mid ++ [Op.stop]) ∧
      allWritesSucceeded
        ((getHTTPResponse [] (afterRequest port req c)).2.2.stop.trace.drop c.trace.length) := by
  obtain ⟨_, _, a3, _⟩ := afterRequest_spec port req c
  obtain ⟨at1, hne⟩ := a3 hp
  obtain ⟨rops, hrt, hrp⟩ := getHTTPResponse_trace [] (afterRequest port req c)
  have hst : ∀ x : Client, x.stop.trace = x.trace ++ [Op.stop] := fun _ => rfl
  have ht : (getHTTPResponse [] (afterRequest port req c)).2.2.stop.trace =
      c.trace ++ (Op.connect (bytes "api.thingspeak.com") port c.connectOk ::
        req.map (fun s => Op.print s s.length) ++ rops ++ [Op.stop]) := by
    rw [hst, hrt, at1]; simp
  refine ⟨rops, hrp, ht, ?_⟩
  rw [ht, drop_trace]
  intro op hop
  simp only [List.cons_append, List.mem_cons, List.mem_append, List.mem_map,
    List.mem_singleton, List.not_mem_nil, or_false] at hop
  rcases hop with h | ((h | h) | h)
  · subst h; rfl
  · obtain ⟨s, hs, h⟩ := h
    subst h
    have := hne s hs
    simp only [Op.wrote, bne_iff_ne, ne_eq, List.length_eq_zero]
    exact this
  · exact wrote_of_not_print op (hrp op h).1
  · subst h; rfl

/-- After a write that wrote nothing, the exchange ends with `stop` at once. -/
theorem exchange_fail_trace (port : Nat) (req : List Bytes) (c : Client)
    (hp : (printAll req (c.connect (bytes "api.thingspeak.com") port).2).1 = false) :
    (∃ pre s post, req = pre ++ s :: post ∧
      (afterRequest port req c).stop.trace =
        c.trace ++ (Op.connect (bytes "api.thingspeak.com") port c.connectOk ::
          (pre.map (fun s => Op.print s s.length) ++ [Op.print s 0, Op.stop]))) ∧
    ¬ allWritesSucceeded ((afterRequest port req c).stop.trace.drop c.trace.length) := by
  obtain ⟨_, _, _, a4⟩ := afterRequest_spec port req c
  obtain ⟨pre, s, post, h1, h2⟩ := a4 hp
  have hst : ∀ x : Client, x.stop.trace = x.trace ++ [Op.stop] := fun _ => rfl
  have ht : (afterRequest port req c).stop.trace =
      c.trace ++ (Op.connect (bytes "api.thingspeak.com") port c.connectOk ::
        (pre.map (fun s => Op.print s s.length) ++ [Op.print s 0, Op.stop])) := by
    rw [hst, h2]; simp
  refine ⟨⟨pre, s, post, h1, ht⟩, ?_⟩
  rw [ht, drop_trace]
  intro hall
  have := hall (Op.print s 0) (by simp)
  simp [Op.wrote] at this

/-- C12: if `connect` succeeded and a write of the exchange fails (a `print`
reports 0 bytes), the outcome is UnexpectedFailure (-302): `writeRaw` returns
-302, and `readRaw` returns the empty string with the status register at -302.
The calls of the exchange are then `connect`, the writes that succeeded, the
failed write, and `stop`: no write or read follows the failed write, and the
transport is closed. -/
theorem write_failure_aborts (P : Platform) (ch : Nat) (q suffix : Bytes)
    (key : Option Bytes) (ts : ThingSpeakClass) (hconn : ts.client.connectOk = true) :
    (¬ allWritesSucceeded
        ((writeRaw P ch q key ts).2.client.trace.drop ts.client.trace.length) →
      (writeRaw P ch q key ts).1 = -302 ∧
      ∃ (pre : List Bytes) (s : Bytes), (writeRaw P ch q key ts).2.client.trace.drop ts.client.trace.length =
        Op.connect (bytes "api.thingspeak.com") ts.port true ::
          (pre.map (fun s => Op.print s s.length) ++ [Op.print s 0, Op.stop])) ∧
    (¬ allWritesSucceeded
        ((readRaw P ch suffix key ts).2.client.trace.drop ts.client.trace.length) →
      (readRaw P ch suffix key ts).1 = [] ∧
      (readRaw P ch suffix key ts).2.lastReadStatus = -302 ∧
      ∃ (pre : List Bytes) (s : Bytes), (readRaw P ch suffix key ts).2.client.trace.drop ts.client.trace.length =
        Op.connect (bytes "api.thingspeak.com") ts.port true ::
          (pre.map (fun s => Op.print s s.length) ++ [Op.print s 0, Op.stop])) := by
  constructor
  · intro hfail
    obtain ⟨w1, w2⟩ := writeRaw_cases P ch q key ts hconn
    cases hp : (printAll (postRequest P q key)
        (ts.client.connect (bytes "api.thingspeak.com") ts.port).2).1
    · obtain ⟨r1, r2⟩ := w1 hp
      obtain ⟨⟨pre, s, _, _, ht⟩, _⟩ :=
        exchange_fail_trace ts.port (postRequest P q key) ts.client hp
      refine ⟨r1, pre, s, ?_⟩
      rw [r2, ht, drop_trace, hconn]
    · exfalso
      apply hfail
      rw [(w2 hp).1]
      exact (exchange_ok_trace ts.port (postRequest P q key) ts.client hp).choose_spec.2.2
  · intro hfail
    obtain ⟨w1, w2⟩ := readRaw_cases P ch suffix key ts hconn
    cases hp : (printAll (getRequest P ch suffix key)
        (ts.client.connect (bytes "api.thingspeak.com") ts.port).2).1
    · obtain ⟨r1, r2, r3⟩ := w1 hp
      obtain ⟨⟨pre, s, _, _, ht⟩, _⟩ :=
        exchange_fail_trace ts.port (getRequest P ch suffix key) ts.client hp
      refine ⟨r1, r2, pre, s, ?_⟩
      rw [r3, ht, drop_trace, hconn]
    · exfalso
      apply hfail
      rw [(w2 hp).1]
      exact (exchange_ok_trace ts.port (getRequest P ch suffix key) ts.client
        hp).choose_spec.2.2

set_option maxRecDepth 20000 in
/-- Witness of `write_failure_aborts`: the third write is refused. -/
theorem write_failure_aborts_witness :
    refusingThird.connectOk = true ∧
    (writeRaw photon 12 (bytes "field1=7") none
      (ThingSpeakClass.construct refusingThird)).1
        = -302 ∧
    (readRaw photon 12 (bytes "/feeds/last.txt") none
      (ThingSpeakClass.construct refusingThird)).1
        = [] ∧
    (readRaw photon 12 (bytes "/feeds/last.txt") none
      (ThingSpeakClass.construct
        refusingThird)).2.lastReadStatus = -302 ∧
    (readRaw photon 12 (bytes "/feeds/last.txt") none
      (ThingSpeakClass.construct
        refusingThird)).2.client.trace =
      [Op.connect (bytes "api.thingspeak.com") 80 true, Op.print (bytes "GET ") 4,
        Op.print (bytes "/channels/12/feeds/last.txt") 27, Op.print (bytes " HTTP/1.1\r\n") 0,
        Op.stop] :=
  ⟨rfl,
   ((write_failure_aborts photon 12 (bytes "field1=7") (bytes "/feeds/last.txt") none
      (ThingSpeakClass.construct refusingThird)
      rfl).1 (by decide)).1,
   ((write_failure_aborts photon 12 (bytes "field1=7") (bytes "/feeds/last.txt") none
      (ThingSpeakClass.construct refusingThird)
      rfl).2 (by decide)).1,
   ((write_failure_aborts photon 12 (bytes "field1=7") (bytes "/feeds/last.txt") none
      (ThingSpeakClass.construct refusingThird)
      rfl).2 (by decide)).2.1,
   by decide⟩

/-- C13: if the transport's `connect` fails, `writeRaw` returns ConnectFailed
(-301) and `readRaw` returns the empty string with the status register at
ConnectFailed (-301); in both cases `connect` is the only call made on the
transport, so no byte is written to it or read from it. -/
theorem connect_failure (P : Platform) (ch : Nat) (q suffix : Bytes)
    (key : Option Bytes) (ts : ThingSpeakClass) (hconn : ts.client.connectOk = false) :
    (writeRaw P ch q key ts).1 = -301 ∧
    (writeRaw P ch q key ts).2.client.trace.drop ts.client.trace.length =
      [Op.connect (bytes "api.thingspeak.com") ts.port false] ∧
    (readRaw P ch suffix key ts).1 = [] ∧
    (readRaw P ch suffix key ts).2.lastReadStatus = -301 ∧
    (readRaw P ch suffix key ts).2.client.trace.drop ts.client.trace.length =
      [Op.connect (bytes "api.thingspeak.com") ts.port false] := by
  have hcl : (writeRaw P ch q key ts).2.client =
      (writeRawExchange P ts.port q key ts.client).2 := rfl
  have hres : (writeRaw P ch q key ts).1 =
      (writeRawExchange P ts.port q key ts.client).1 := rfl
  have hc : (ts.client.connect (bytes "api.thingspeak.com") ts.port).2.trace =
      ts.client.trace ++ [Op.connect (bytes "api.thingspeak.com") ts.port false] := by
    simp [Client.connect, hconn]
  rw [hcl, hres, writeRawExchange_eq, readRaw_eq, if_pos hconn, if_pos hconn]
  refine ⟨rfl, ?_, rfl, rfl, ?_⟩
  · show ((ts.client.connect (bytes "api.thingspeak.com") ts.port).2.trace).drop _ = _
    rw [hc, drop_trace]
  · show ((ts.client.connect (bytes "api.thingspeak.com") ts.port).2.trace).drop _ = _
    rw [hc, drop_trace]

/-- Witness of `connect_failure`: a transport that refuses the connection. -/
theorem connect_failure_witness :
    offline.connectOk = false ∧
    (writeRaw photon 12 (bytes "field1=7") none (ThingSpeakClass.construct offline)).1 = -301 ∧
    (readRaw photon 12 (bytes "/feeds/last.txt") none
      (ThingSpeakClass.construct offline)).2.lastReadStatus = -301 :=
  ⟨rfl,
   (connect_failure photon 12 (bytes "field1=7") (bytes "/feeds/last.txt") none
      (ThingSpeakClass.construct offline) rfl).1,
   (connect_failure photon 12 (bytes "field1=7") (bytes "/feeds/last.txt") none
      (ThingSpeakClass.construct offline) rfl).2.2.2.1⟩

/-- C15: in every execution of `writeRaw` or `readRaw` in which `connect`
succeeded, whatever happens next (a failed write, a timeout, a response that
cannot be parsed, a status other than 200, a rejected write, or success), the
last call made on the transport is `stop`, and it is the only `stop`: the
transport is closed before the operation returns and nothing is called on it
after that. -/
theorem exchange_closes (P : Platform) (ch : Nat) (q suffix : Bytes)
    (key : Option Bytes) (ts : ThingSpeakClass) (hconn : ts.client.connectOk = true) :
    (∃ ops, (writeRaw P ch q key ts).2.client.trace.drop ts.client.trace.length =
      ops ++ [Op.stop] ∧ Op.stop ∉ ops) ∧
    (∃ ops, (readRaw P ch suffix key ts).2.client.trace.drop ts.client.trace.length =
      ops ++ [Op.stop] ∧ Op.stop ∉ ops) := by
  have key1 : ∀ (req : List Bytes) (x : Client),
      (((printAll req (ts.client.connect (bytes "api.thingspeak.com") ts.port).2).1 = false →
        x = (afterRequest ts.port req ts.client).stop) ∧
       ((printAll req (ts.client.connect (bytes "api.thingspeak.com") ts.port).2).1 = true →
        x = (getHTTPResponse [] (afterRequest ts.port req ts.client)).2.2.stop)) →
      ∃ ops, x.trace.drop ts.client.trace.length = ops ++ [Op.stop] ∧ Op.stop ∉ ops := by
    intro req x hx
    cases hp : (printAll req (ts.client.connect (bytes "api.thingspeak.com") ts.port).2).1
    · obtain ⟨⟨pre, s, _, _, ht⟩, _⟩ := exchange_fail_trace ts.port req ts.client hp
      refine ⟨Op.connect (bytes "api.thingspeak.com") ts.port ts.client.connectOk ::
        (pre.map (fun s => Op.print s s.length) ++ [Op.print s 0]), ?_, ?_⟩
      · rw [hx.1 hp, ht, drop_trace]; simp
      · simp
    · obtain ⟨mid, hmid, ht, _⟩ := exchange_ok_trace ts.port req ts.client hp
      refine ⟨Op.connect (bytes "api.thingspeak.com") ts.port ts.client.connectOk ::
        req.map (fun s => Op.print s s.length) ++ mid, ?_, ?_⟩
      · rw [hx.2 hp, ht, drop_trace]
      · simp only [List.cons_append, List.mem_cons, List.mem_append, List.mem_map, not_or]
        refine ⟨by simp, by simp, ?_⟩
        intro hm
        exact (hmid _ hm).2 rfl
  obtain ⟨w1, w2⟩ := writeRaw_cases P ch q key ts hconn
  obtain ⟨r1, r2⟩ := readRaw_cases P ch suffix key ts hconn
  exact ⟨key1 _ _ ⟨fun h => (w1 h).2, fun h => (w2 h).1⟩,
    key1 _ _ ⟨fun h => (r1 h).2.2, fun h => (r2 h).1⟩⟩

set_option maxRecDepth 20000 in
/-- Witness of `exchange_closes`: a response with status 404. -/
theorem exchange_closes_witness :
    (answering (bytes "HTTP/1.1 404 Not Found\r\n\r\n")).connectOk = true ∧
    (∃ ops, (writeRaw photon 12 (bytes "field1=7") none (ThingSpeakClass.construct
        (answering (bytes "HTTP/1.1 404 Not Found\r\n\r\n")))).2.client.trace.drop 0 =
      ops ++ [Op.stop] ∧ Op.stop ∉ ops) ∧
    (readRaw photon 12 (bytes "/x") none (ThingSpeakClass.construct
        (answering (bytes "HTTP/1.1 404 Not Found\r\n\r\n")))).2.client.trace.getLast? =
      some Op.stop :=
  ⟨rfl,
   (exchange_closes photon 12 (bytes "field1=7") (bytes "/x") none
      (ThingSpeakClass.construct (answering (bytes "HTTP/1.1 404 Not Found\r\n\r\n"))) rfl).1,
   by decide⟩

/-- When every write of a `writeRaw` succeeded, the request was printed in full. -/
theorem writeRaw_printed (P : Platform) (ch : Nat) (q : Bytes) (key : Option Bytes)
    (ts : ThingSpeakClass) (hconn : ts.client.connectOk = true)
    (hw : allWritesSucceeded
      ((writeRaw P ch q key ts).2.client.trace.drop ts.client.trace.length)) :
    (printAll (postRequest P q key)
      (ts.client.connect (bytes "api.thingspeak.com") ts.port).2).1 = true := by
  cases hp : (printAll (postRequest P q key)
      (ts.client.connect (bytes "api.thingspeak.com") ts.port).2).1
  · exfalso
    rw [((writeRaw_cases P ch q key ts hconn).1 hp).2] at hw
    exact (exchange_fail_trace ts.port (postRequest P q key) ts.client hp).2 hw
  · rfl

/-- When every write of a `readRaw` succeeded, the request was printed in full. -/
theorem readRaw_printed (P : Platform) (ch : Nat) (suffix : Bytes) (key : Option Bytes)
    (ts : ThingSpeakClass) (hconn : ts.client.connectOk = true)
    (hw : allWritesSucceeded
      ((readRaw P ch suffix key ts).2.client.trace.drop ts.client.trace.length)) :
    (printAll (getRequest P ch suffix key)
      (ts.client.connect (bytes "api.thingspeak.com") ts.port).2).1 = true := by
  cases hp : (printAll (getRequest P ch suffix key)
      (ts.client.connect (bytes "api.thingspeak.com") ts.port).2).1
  · exfalso
    rw [((readRaw_cases P ch suffix key ts hconn).1 hp).2.2] at hw
    exact (exchange_fail_trace ts.port (getRequest P ch suffix key) ts.client hp).2 hw
  · rfl

/-- The outcome of a `writeRaw` whose request was printed in full, with every
call it makes: Timeout when `available` reports nothing after the wait, and
otherwise the status of the response, turned into NotInserted when the status
is 200 and the body reads as 0. -/
theorem writeRaw_response (P : Platform) (ch : Nat) (q : Bytes) (key : Option Bytes)
    (ts : ThingSpeakClass) (hconn : ts.client.connectOk = true)
    (hp : (printAll (postRequest P q key)
      (ts.client.connect (bytes "api.thingspeak.com") ts.port).2).1 = true) :
    ∃ wops n, (∀ op ∈ wops, op.isPoll = true) ∧ wops.count (Op.delay 100) ≤ 50 ∧
      (ts.client.rxDelay ≤ TIMEOUT_MS_SERVERRESPONSE → ts.client.rx ≠ [] → n ≠ 0) ∧
      ((n = 0 ∧ (writeRaw P ch q key ts).1 = TS_ERR_TIMEOUT ∧
        (writeRaw P ch q key ts).2.client.trace.drop ts.client.trace.length =
          Op.connect (bytes "api.thingspeak.com") ts.port true ::
            (postRequest P q key).map (fun s => Op.print s s.length) ++ wops ++
              [Op.available 0, Op.stop]) ∨
       (n ≠ 0 ∧
        (writeRaw P ch q key ts).1 =
          (if (readResponse [] ts.client.rx).1 ≠ TS_OK_SUCCESS then
            (readResponse [] ts.client.rx).1
          else if toInt (readResponse [] ts.client.rx).2.1 = 0 then TS_ERR_NOT_INSERTED
          else TS_OK_SUCCESS) ∧
        (writeRaw P ch q key ts).2.client.trace.drop ts.client.trace.length =
          Op.connect (bytes "api.thingspeak.com") ts.port true ::
            (postRequest P q key).map (fun s => Op.print s s.length) ++ wops ++
              Op.available n :: ((readResponse [] ts.client.rx).2.2 ++ [Op.stop]))) := by
  obtain ⟨wops, n, h1, h2, h3, h4⟩ :=
    response_after_request ts.port (postRequest P q key) ts.client hp
  obtain ⟨c1, c2⟩ := (writeRaw_cases P ch q key ts hconn).2 hp
  have hst : ∀ x : Client, x.stop.trace = x.trace ++ [Op.stop] := fun _ => rfl
  refine ⟨wops, n, h1, h2, h3, ?_⟩
  rcases h4 with ⟨hn, k1, k2, k3⟩ | ⟨hn, k1, k2, k3⟩
  · left
    refine ⟨hn, ?_, ?_⟩
    · rw [c2, k1]; rfl
    · rw [c1, hst, k3, hconn, List.append_assoc, drop_trace]; simp
  · right
    refine ⟨hn, ?_, ?_⟩
    · rw [c2, k1, k2]
    · rw [c1, hst, k3, hconn, List.append_assoc, drop_trace]; simp

/-- The outcome of a `readRaw` whose request was printed in full, with every
call it makes: Timeout when `available` reports nothing after the wait, and
otherwise the status of the response, with the body when the status is 200. -/
theorem readRaw_response (P : Platform) (ch : Nat) (suffix : Bytes) (key : Option Bytes)
    (ts : ThingSpeakClass) (hconn : ts.client.connectOk = true)
    (hp : (printAll (getRequest P ch suffix key)
      (ts.client.connect (bytes "api.thingspeak.com") ts.port).2).1 = true) :
    ∃ wops n, (∀ op ∈ wops, op.isPoll = true) ∧ wops.count (Op.delay 100) ≤ 50 ∧
      (ts.client.rxDelay ≤ TIMEOUT_MS_SERVERRESPONSE → ts.client.rx ≠ [] → n ≠ 0) ∧
      ((n = 0 ∧ (readRaw P ch suffix key ts).1 = [] ∧
        (readRaw P ch suffix key ts).2.lastReadStatus = TS_ERR_TIMEOUT ∧
        (readRaw P ch suffix key ts).2.client.trace.drop ts.client.trace.length =
          Op.connect (bytes "api.thingspeak.com") ts.port true ::
            (getRequest P ch suffix key).map (fun s => Op.print s s.length) ++ wops ++
              [Op.available 0, Op.stop]) ∨
       (n ≠ 0 ∧
        (readRaw P ch suffix key ts).1 =
          (if (readResponse [] ts.client.rx).1 ≠ TS_OK_SUCCESS then []
          else (readResponse [] ts.client.rx).2.1) ∧
        (readRaw P ch suffix key ts).2.lastReadStatus = (readResponse [] ts.client.rx).1 ∧
        (readRaw P ch suffix key ts).2.client.trace.drop ts.client.trace.length =
          Op.connect (bytes "api.thingspeak.com") ts.port true ::
            (getRequest P ch suffix key).map (fun s => Op.print s s.length) ++ wops ++
              Op.available n :: ((readResponse [] ts.client.rx).2.2 ++ [Op.stop]))) := by
  obtain ⟨wops, n, h1, h2, h3, h4⟩ :=
    response_after_request ts.port (getRequest P ch suffix key) ts.client hp
  obtain ⟨c1, c2, c3⟩ := (readRaw_cases P ch suffix key ts hconn).2 hp
  have hst : ∀ x : Client, x.stop.trace = x.trace ++ [Op.stop] := fun _ => rfl
  refine ⟨wops, n, h1, h2, h3, ?_⟩
  rcases h4 with ⟨hn, k1, k2, k3⟩ | ⟨hn, k1, k2, k3⟩
  · left
    refine ⟨hn, ?_, ?_, ?_⟩
    · rw [c3, k1]; rfl
    · rw [c2, k1]
    · rw [c1, hst, k3, hconn, List.append_assoc, drop_trace]; simp
  · right
    refine ⟨hn, ?_, ?_, ?_⟩
    · rw [c3, k1, k2]
    · rw [c2, k1]
    · rw [c1, hst, k3, hconn, List.append_assoc, drop_trace]; simp

/-- What `readResponse` makes of a response whose status is not 200. -/
theorem readResponse_status (response rx r1 : Bytes) (s : Int)
    (h1 : findAfter (bytes "HTTP/1.1") rx = some r1) (h2 : (streamParseInt r1).1 = s)
    (hs : s ≠ 200) :
    readResponse response rx =
      (s, response, [Op.find (bytes "HTTP/1.1") true, Op.parseInt s]) := by
  unfold readResponse
  rw [h1]
  simp only []
  rw [if_pos (by rw [h2]; exact hs), h2]

theorem rx_ne_nil_of_find (rx r1 : Bytes) (h1 : findAfter (bytes "HTTP/1.1") rx = some r1) :
    rx ≠ [] := by
  intro hc
  rw [hc] at h1
  simp [findAfter, bytes] at h1

/-- C14: for every response, visible within the timeout, in which the token
`HTTP/1.1` is followed by a status integer `s` other than 200 (400 or 404 for
example), the status passes through unmodified once the request was written:
`writeRaw` returns `s`, and `readRaw` sets the status register to `s` and
returns the empty string. The body is not consulted: after the status is
parsed the only call made on the transport is `stop`. -/
theorem status_passes_through (P : Platform) (ch : Nat) (q suffix : Bytes)
    (key : Option Bytes) (ts : ThingSpeakClass) (r1 : Bytes) (s : Int)
    (hconn : ts.client.connectOk = true)
    (harrive : ts.client.rxDelay ≤ TIMEOUT_MS_SERVERRESPONSE)
    (h1 : findAfter (bytes "HTTP/1.1") ts.client.rx = some r1)
    (h2 : (streamParseInt r1).1 = s) (hs : s ≠ 200) :
    (allWritesSucceeded
        ((writeRaw P ch q key ts).2.client.trace.drop ts.client.trace.length) →
      (writeRaw P ch q key ts).1 = s ∧
      ∃ wops n, (∀ op ∈ wops, op.isPoll = true) ∧
        (writeRaw P ch q key ts).2.client.trace.drop ts.client.trace.length =
          Op.connect (bytes "api.thingspeak.com") ts.port true ::
            (postRequest P q key).map (fun s => Op.print s s.length) ++ wops ++
              [Op.available n, Op.find (bytes "HTTP/1.1") true, Op.parseInt s, Op.stop]) ∧
    (allWritesSucceeded
        ((readRaw P ch suffix key ts).2.client.trace.drop ts.client.trace.length) →
      (readRaw P ch suffix key ts).1 = [] ∧
      (readRaw P ch suffix key ts).2.lastReadStatus = s ∧
      ∃ wops n, (∀ op ∈ wops, op.isPoll = true) ∧
        (readRaw P ch suffix key ts).2.client.trace.drop ts.client.trace.length =
          Op.connect (bytes "api.thingspeak.com") ts.port true ::
            (getRequest P ch suffix key).map (fun s => Op.print s s.length) ++ wops ++
              [Op.available n, Op.find (bytes "HTTP/1.1") true, Op.parseInt s, Op.stop]) := by
  have hrr := readResponse_status [] ts.client.rx r1 s h1 h2 hs
  have hne := rx_ne_nil_of_find ts.client.rx r1 h1
  have hs' : s ≠ TS_OK_SUCCESS := hs
  constructor
  · intro hw
    obtain ⟨wops, n, p1, _, p3, p4⟩ :=
      writeRaw_response P ch q key ts hconn (writeRaw_printed P ch q key ts hconn hw)
    rcases p4 with ⟨hn, _, _⟩ | ⟨_, k1, k2⟩
    · exact absurd hn (p3 harrive hne)
    · rw [hrr] at k1 k2
      simp only [] at k1 k2
      rw [if_pos hs'] at k1
      exact ⟨k1, wops, n, p1, by rw [k2]; simp⟩
  · intro hw
    obtain ⟨wops, n, p1, _, p3, p4⟩ :=
      readRaw_response P ch suffix key ts hconn (readRaw_printed P ch suffix key ts hconn hw)
    rcases p4 with ⟨hn, _, _⟩ | ⟨_, k1, k2, k3⟩
    · exact absurd hn (p3 harrive hne)
    · rw [hrr] at k1 k2 k3
      simp only [] at k1 k2 k3
      rw [if_pos hs'] at k1
      exact ⟨k1, k2, wops, n, p1, by rw [k3]; simp⟩

set_option maxRecDepth 20000 in
/-- Witness of `status_passes_through`: the statuses 404 and 400. -/
theorem status_passes_through_witness :
    (writeRaw photon 12 (bytes "field1=7") (some (bytes "KEY")) (ThingSpeakClass.construct
      (answering (bytes "HTTP/1.1 404 Not Found\r\nA: b\r\n\r\n0")))).1 = 404 ∧
    (readRaw photon 12 (bytes "/feeds/last.txt") none (ThingSpeakClass.construct
      (answering (bytes "HTTP/1.1 400 Bad Request\r\nA: b\r\n\r\n0")))).1 = [] ∧
    (readRaw photon 12 (bytes "/feeds/last.txt") none (ThingSpeakClass.construct
      (answering (bytes "HTTP/1.1 400 Bad Request\r\nA: b\r\n\r\n0")))).2.lastReadStatus = 400 :=
  ⟨((status_passes_through photon 12 (bytes "field1=7") (bytes "/feeds/last.txt")
      (some (bytes "KEY")) (ThingSpeakClass.construct
        (answering (bytes "HTTP/1.1 404 Not Found\r\nA: b\r\n\r\n0")))
      (bytes " 404 Not Found\r\nA: b\r\n\r\n0") 404 rfl (by decide) (by decide) (by decide)
      (by decide)).1 (by decide)).1,
   ((status_passes_through photon 12 (bytes "field1=7") (bytes "/feeds/last.txt")
      none (ThingSpeakClass.construct
        (answering (bytes "HTTP/1.1 400 Bad Request\r\nA: b\r\n\r\n0")))
      (bytes " 400 Bad Request\r\nA: b\r\n\r\n0") 400 rfl (by decide) (by decide) (by decide)
      (by decide)).2 (by decide)).1,
   ((status_passes_through photon 12 (bytes "field1=7") (bytes "/feeds/last.txt")
      none (ThingSpeakClass.construct
        (answering (bytes "HTTP/1.1 400 Bad Request\r\nA: b\r\n\r\n0")))
      (bytes " 400 Bad Request\r\nA: b\r\n\r\n0") 400 rfl (by decide) (by decide) (by decide)
      (by decide)).2 (by decide)).2.1⟩

/-- C19: if response bytes are available within the timeout but the stream
does not contain the literal token `HTTP/1.1` (an `HTTP/1.0` response for
example), the outcome is BadResponse (-303) once the request was written:
`writeRaw` returns -303, and `readRaw` returns the empty string with the status
register at -303. -/
theorem missing_token_bad_response (P : Platform) (ch : Nat) (q suffix : Bytes)
    (key : Option Bytes) (ts : ThingSpeakClass)
    (hconn : ts.client.connectOk = true)
    (harrive : ts.client.rxDelay ≤ TIMEOUT_MS_SERVERRESPONSE)
    (hbytes : ts.client.rx ≠ [])
    (hno : ¬ (bytes "HTTP/1.1") <:+: ts.client.rx) :
    (allWritesSucceeded
        ((writeRaw P ch q key ts).2.client.trace.drop ts.client.trace.length) →
      (writeRaw P ch q key ts).1 = -303) ∧
    (allWritesSucceeded
        ((readRaw P ch suffix key ts).2.client.trace.drop ts.client.trace.length) →
      (readRaw P ch suffix key ts).1 = [] ∧
      (readRaw P ch suffix key ts).2.lastReadStatus = -303) := by
  have hf : findAfter (bytes "HTTP/1.1") ts.client.rx = none :=
    (findAfter_eq_none_iff _ _).mpr hno
  have hrr : readResponse [] ts.client.rx =
      (TS_ERR_BAD_RESPONSE, [], [Op.find (bytes "HTTP/1.1") false]) := by
    unfold readResponse
    rw [hf]
  constructor
  · intro hw
    obtain ⟨wops, n, _, _, p3, p4⟩ :=
      writeRaw_response P ch q key ts hconn (writeRaw_printed P ch q key ts hconn hw)
    rcases p4 with ⟨hn, _, _⟩ | ⟨_, k1, _⟩
    · exact absurd hn (p3 harrive hbytes)
    · rw [hrr] at k1
      rw [k1]
      decide
  · intro hw
    obtain ⟨wops, n, _, _, p3, p4⟩ :=
      readRaw_response P ch suffix key ts hconn (readRaw_printed P ch suffix key ts hconn hw)
    rcases p4 with ⟨hn, _, _⟩ | ⟨_, k1, k2, _⟩
    · exact absurd hn (p3 harrive hbytes)
    · rw [hrr] at k1 k2
      refine ⟨?_, ?_⟩
      · rw [k1]; decide
      · rw [k2]; decide

set_option maxRecDepth 20000 in
/-- Witness of `missing_token_bad_response`: an `HTTP/1.0` response. -/
theorem missing_token_bad_response_witness :
    ¬ (bytes "HTTP/1.1") <:+: bytes "HTTP/1.0 200 OK\r\nA: b\r\n\r\n4" ∧
    (writeRaw photon 12 (bytes "field1=7") none (ThingSpeakClass.construct
      (answering (bytes "HTTP/1.0 200 OK\r\nA: b\r\n\r\n4")))).1 = -303 ∧
    (readRaw photon 12 (bytes "/feeds/last.txt") none (ThingSpeakClass.construct
      (answering (bytes "HTTP/1.0 200 OK\r\nA: b\r\n\r\n4")))).2.lastReadStatus = -303 := by
  have hno : ¬ (bytes "HTTP/1.1") <:+: bytes "HTTP/1.0 200 OK\r\nA: b\r\n\r\n4" := by
    rw [← findAfter_eq_none_iff]
    decide
  have h := missing_token_bad_response photon 12 (bytes "field1=7") (bytes "/feeds/last.txt")
    none (ThingSpeakClass.construct (answering (bytes "HTTP/1.0 200 OK\r\nA: b\r\n\r\n4")))
    rfl (by decide) (by decide) hno
  exact ⟨hno, h.1 (by decide), (h.2 (by decide)).2⟩

/-- C20: for every response, visible within the timeout and read after a
request written in full, in which `HTTP/1.1` is followed by status 200: if the
rest of the stream contains a CRLF and, after the first such CRLF, an
occurrence of LF CR LF, then `readRaw` returns exactly the bytes that follow
the first such LF CR LF (the body, possibly empty) and sets the status register
to 200; if either delimiter is absent the outcome is BadResponse (-303) and
`readRaw` returns the empty string. -/
theorem readRaw_body (P : Platform) (ch : Nat) (suffix : Bytes) (key : Option Bytes)
    (ts : ThingSpeakClass) (r1 : Bytes)
    (hconn : ts.client.connectOk = true)
    (harrive : ts.client.rxDelay ≤ TIMEOUT_MS_SERVERRESPONSE)
    (h1 : findAfter (bytes "HTTP/1.1") ts.client.rx = some r1)
    (h2 : (streamParseInt r1).1 = 200)
    (hw : allWritesSucceeded
      ((readRaw P ch suffix key ts).2.client.trace.drop ts.client.trace.length)) :
    (∀ r3 body, findAfter (bytes "\r\n") (streamParseInt r1).2 = some r3 →
      findAfter (bytes "\n\r\n") r3 = some body →
      (readRaw P ch suffix key ts).1 = body ∧
      (readRaw P ch suffix key ts).2.lastReadStatus = 200) ∧
    (¬ (bytes "\r\n") <:+: (streamParseInt r1).2 →
      (readRaw P ch suffix key ts).1 = [] ∧
      (readRaw P ch suffix key ts).2.lastReadStatus = -303) ∧
    (∀ r3, findAfter (bytes "\r\n") (streamParseInt r1).2 = some r3 →
      ¬ (bytes "\n\r\n") <:+: r3 →
      (readRaw P ch suffix key ts).1 = [] ∧
      (readRaw P ch suffix key ts).2.lastReadStatus = -303) := by
  have hne := rx_ne_nil_of_find ts.client.rx r1 h1
  obtain ⟨wops, n, _, _, p3, p4⟩ :=
    readRaw_response P ch suffix key ts hconn (readRaw_printed P ch suffix key ts hconn hw)
  have hs : ¬ ((streamParseInt r1).1 ≠ TS_OK_SUCCESS) := by
    rw [h2]; decide
  rcases p4 with ⟨hn, _, _⟩ | ⟨_, k1, k2, _⟩
  · exact absurd hn (p3 harrive hne)
  · refine ⟨?_, ?_, ?_⟩
    · intro r3 body h3 h4
      have hrr : (readResponse [] ts.client.rx).1 = 200 ∧
          (readResponse [] ts.client.rx).2.1 = body := by
        unfold readResponse
        rw [h1]
        simp only []
        rw [if_neg hs, h3]
        simp only []
        rw [h4]
        exact ⟨h2, rfl⟩
      rw [k1, k2, hrr.1, hrr.2]
      exact ⟨if_neg (by decide), rfl⟩
    · intro hno
      have h3 : findAfter (bytes "\r\n") (streamParseInt r1).2 = none :=
        (findAfter_eq_none_iff _ _).mpr hno
      have hrr : (readResponse [] ts.client.rx).1 = TS_ERR_BAD_RESPONSE := by
        unfold readResponse
        rw [h1]
        simp only []
        rw [if_neg hs, h3]
      rw [k1, k2, hrr]
      exact ⟨if_pos (by decide), by decide⟩
    · intro r3 h3 hno
      have h4 : findAfter (bytes "\n\r\n") r3 = none :=
        (findAfter_eq_none_iff _ _).mpr hno
      have hrr : (readResponse [] ts.client.rx).1 = TS_ERR_BAD_RESPONSE := by
        unfold readResponse
        rw [h1]
        simp only []
        rw [if_neg hs, h3]
        simp only []
        rw [h4]
      rw [k1, k2, hrr]
      exact ⟨if_pos (by decide), by decide⟩

set_option maxRecDepth 20000 in
/-- Witness of `readRaw_body`: a response with one header line, whose body is
returned, and a response without the end of the header block. -/
theorem readRaw_body_witness :
    (readRaw photon 12 (bytes "/feeds/last.txt") none (ThingSpeakClass.construct
      (answering (bytes "HTTP/1.1 200 OK\r\nA: b\r\n\r\n23.5")))).1
        = bytes "23.5" ∧
    (readRaw photon 12 (bytes "/feeds/last.txt") none (ThingSpeakClass.construct
      (answering (bytes "HTTP/1.1 200 OK\r\nA: b\r\n\r\n23.5")))).2.lastReadStatus
        = 200 ∧
    (readRaw photon 12 (bytes "/feeds/last.txt") none (ThingSpeakClass.construct
      (answering (bytes "HTTP/1.1 200 OK\r\nA: b\r\n")))).2.lastReadStatus = -303 := by
  have h := (readRaw_body photon 12 (bytes "/feeds/last.txt") none (ThingSpeakClass.construct
      (answering (bytes "HTTP/1.1 200 OK\r\nA: b\r\n\r\n23.5")))
      (bytes " 200 OK\r\nA: b\r\n\r\n23.5") rfl (by decide) (by decide)
      (by decide) (by decide)).1
      (bytes "A: b\r\n\r\n23.5") (bytes "23.5") (by decide)
      (by decide)
  have h' := (readRaw_body photon 12 (bytes "/feeds/last.txt") none (ThingSpeakClass.construct
      (answering (bytes "HTTP/1.1 200 OK\r\nA: b\r\n")))
      (bytes " 200 OK\r\nA: b\r\n") rfl (by decide) (by decide)
      (by decide) (by decide)).2.2
      (bytes "A: b\r\n") (by decide) (by rw [← findAfter_eq_none_iff]; decide)
  exact ⟨h.1, h.2, h'.2⟩

/-- The transport and the status register after `readMultipleFields` are those
`readRaw` leaves, and a status other than 200 is returned with the object as
`readRaw` left it. -/
theorem readMultipleFields_client (P : Platform) (ch : Nat) (key : Option Bytes)
    (ts : ThingSpeakClass) :
    (readMultipleFields P ch key ts).2.client =
      (readRaw P ch (bytes "/feeds/last.txt?status=true&location=true") key ts).2.client ∧
    (readMultipleFields P ch key ts).2.lastReadStatus =
      (readRaw P ch (bytes "/feeds/last.txt?status=true&location=true") key
        ts).2.lastReadStatus ∧
    ((readRaw P ch (bytes "/feeds/last.txt?status=true&location=true") key
        ts).2.lastReadStatus ≠ 200 →
      readMultipleFields P ch key ts =
        ((readRaw P ch (bytes "/feeds/last.txt?status=true&location=true") key
          ts).2.lastReadStatus,
         (readRaw P ch (bytes "/feeds/last.txt?status=true&location=true") key ts).2)) := by
  unfold readMultipleFields getLastReadStatus
  simp only []
  refine ⟨?_, ?_, ?_⟩
  · split_ifs <;> rfl
  · split_ifs <;> rfl
  · intro h
    rw [if_pos (show _ ≠ TS_OK_SUCCESS from h)]

/-- C17: if, after the request is sent, every `available` call of the exchange
reports no byte - the transport has no byte to report until after the 5000 ms
wait is over - the read fails with Timeout: `readRaw` returns the empty string
with the status register at -304, and `readMultipleFields` returns -304 with the
status register at -304 and the feed cache unchanged. -/
theorem read_timeout (P : Platform) (ch : Nat) (suffix : Bytes) (key : Option Bytes)
    (ts : ThingSpeakClass) (hconn : ts.client.connectOk = true) :
    (allWritesSucceeded
        ((readRaw P ch suffix key ts).2.client.trace.drop ts.client.trace.length) →
      noByteReported
        ((readRaw P ch suffix key ts).2.client.trace.drop ts.client.trace.length) →
      (readRaw P ch suffix key ts).1 = [] ∧
      (readRaw P ch suffix key ts).2.lastReadStatus = -304) ∧
    (allWritesSucceeded
        ((readMultipleFields P ch key ts).2.client.trace.drop ts.client.trace.length) →
      noByteReported
        ((readMultipleFields P ch key ts).2.client.trace.drop ts.client.trace.length) →
      (readMultipleFields P ch key ts).1 = -304 ∧
      (readMultipleFields P ch key ts).2.lastReadStatus = -304 ∧
      (readMultipleFields P ch key ts).2.lastFeed = ts.lastFeed) := by
  have key1 : ∀ sfx : Bytes,
      allWritesSucceeded
        ((readRaw P ch sfx key ts).2.client.trace.drop ts.client.trace.length) →
      noByteReported
        ((readRaw P ch sfx key ts).2.client.trace.drop ts.client.trace.length) →
      (readRaw P ch sfx key ts).1 = [] ∧
      (readRaw P ch sfx key ts).2.lastReadStatus = -304 := by
    intro sfx hw hq
    obtain ⟨wops, n, _, _, _, p4⟩ :=
      readRaw_response P ch sfx key ts hconn (readRaw_printed P ch sfx key ts hconn hw)
    rcases p4 with ⟨_, k1, k2, _⟩ | ⟨hn, _, _, k3⟩
    · exact ⟨k1, k2⟩
    · exfalso
      rw [k3] at hq
      have := hq (Op.available n) (by simp)
      simp only [Op.quiet, beq_iff_eq] at this
      exact hn this
  refine ⟨key1 suffix, ?_⟩
  intro hw hq
  obtain ⟨m1, m2, m3⟩ := readMultipleFields_client P ch key ts
  rw [m1] at hw hq
  obtain ⟨_, k2⟩ := key1 _ hw hq
  have hne : (readRaw P ch (bytes "/feeds/last.txt?status=true&location=true") key
      ts).2.lastReadStatus ≠ 200 := by
    rw [k2]; decide
  rw [m3 hne]
  exact ⟨k2, k2, (readRaw_frame P ch _ key ts).1⟩

set_option maxRecDepth 40000 in
/-- Witness of `read_timeout`: the response becomes visible 5001 ms after the
wait began, the clock standing 296 ms before its wrap-around. -/
theorem read_timeout_witness :
    (delayed (bytes "HTTP/1.1 200 OK\r\nA: b\r\n\r\nx") 5001 4294967000).connectOk = true ∧
    (readRaw photon 12 (bytes "/feeds/last.txt") none (ThingSpeakClass.construct
      (delayed (bytes "HTTP/1.1 200 OK\r\nA: b\r\n\r\nx") 5001 4294967000))).2.lastReadStatus
        = -304 ∧
    (readMultipleFields photon 12 none (ThingSpeakClass.construct
      (delayed (bytes "HTTP/1.1 200 OK\r\nA: b\r\n\r\nx") 5001 4294967000))).1 = -304 :=
  ⟨rfl,
   ((read_timeout photon 12 (bytes "/feeds/last.txt") none (ThingSpeakClass.construct
      (delayed (bytes "HTTP/1.1 200 OK\r\nA: b\r\n\r\nx") 5001 4294967000)) rfl).1
      (by decide) (by decide)).2,
   ((read_timeout photon 12 (bytes "/feeds/last.txt") none (ThingSpeakClass.construct
      (delayed (bytes "HTTP/1.1 200 OK\r\nA: b\r\n\r\nx") 5001 4294967000)) rfl).2
      (by decide) (by decide)).1⟩

/-- C16 (amended): for every channel number and every path suffix, when the
connection is accepted and every write succeeds, the bytes `readRaw` writes are
exactly `GET `, the URL `/channels/` followed by the channel in decimal and by
the suffix as it was passed (no `/` is put between the two), ` HTTP/1.1` and
CRLF, then the `Host`, `Connection: close` and `User-Agent` lines, then the
`X-THINGSPEAKAPIKEY` line if and only if a read credential was supplied, then a
final CRLF. -/
theorem readRaw_request_bytes (P : Platform) (channelNumber : Nat) (suffix : Bytes)
    (key : Option Bytes) (ts : ThingSpeakClass)
    (hconn : ts.client.connectOk = true)
    (hw : allWritesSucceeded
      ((readRaw P channelNumber suffix key ts).2.client.trace.drop ts.client.trace.length)) :
    sentBytes ((readRaw P channelNumber suffix key ts).2.client.trace.drop
        ts.client.trace.length) =
      bytes "GET " ++ (bytes "/channels/" ++ decimal channelNumber ++ suffix) ++
      bytes " HTTP/1.1\r\n" ++ bytes "Host: api.thingspeak.com\r\n" ++
      bytes "Connection: close\r\n" ++ bytes "User-Agent: " ++ TS_USER_AGENT P ++ bytes "\r\n" ++
      credentialLine key ++ bytes "\r\n" := by
  have hp := readRaw_printed P channelNumber suffix key ts hconn hw
  obtain ⟨c1, _, _⟩ := (readRaw_cases P channelNumber suffix key ts hconn).2 hp
  obtain ⟨mid, hmid, ht, _⟩ :=
    exchange_ok_trace ts.port (getRequest P channelNumber suffix key) ts.client hp
  rw [c1, ht, drop_trace]
  have hc : ∀ (x : Op) (l : List Op), x.isPrint = false → sentBytes (x :: l) = sentBytes l := by
    intro x l hx
    cases x <;> simp_all [sentBytes, Op.isPrint]
  rw [List.cons_append, List.cons_append, hc (Op.connect _ _ _) _ rfl, sentBytes_append, sentBytes_append,
    sentBytes_map_print, sentBytes_of_no_print mid (fun op h => (hmid op h).1)]
  simp only [sentBytes, List.append_nil]
  unfold getRequest headerLines
  cases key <;> simp [List.append_assoc, credentialLine]

set_option maxRecDepth 20000 in
/-- Witness of `readRaw_request_bytes`: a transport that accepts everything,
with the credential `KEY` and the suffix `/feeds/last.txt`. -/
theorem readRaw_request_bytes_witness :
    (answering (bytes "HTTP/1.1 200 OK\r\nA: b\r\n\r\nx")).connectOk = true ∧
    sentBytes ((readRaw photon 12 (bytes "/feeds/last.txt") (some (bytes "KEY"))
        (ThingSpeakClass.construct
          (answering (bytes "HTTP/1.1 200 OK\r\nA: b\r\n\r\nx")))).2.client.trace.drop 0) =
      bytes "GET /channels/12/feeds/last.txt HTTP/1.1\r\nHost: api.thingspeak.com\r\nConnection: close\r\nUser-Agent: tslib-arduino/1.6.0 (particle photon)\r\nX-THINGSPEAKAPIKEY: KEY\r\n\r\n" := by
  refine ⟨rfl, ?_⟩
  have h := readRaw_request_bytes photon 12 (bytes "/feeds/last.txt") (some (bytes "KEY"))
    (ThingSpeakClass.construct (answering (bytes "HTTP/1.1 200 OK\r\nA: b\r\n\r\nx")))
    (by decide) (by decide)
  exact h.trans (by decide)

set_option maxRecDepth 20000 in
/-- C16 (as stated, refuted): on a transport that accepts the connection and
every write, `readRaw` with channel 12 and path suffix `feeds/last.txt` writes
the request line `GET /channels/12feeds/last.txt HTTP/1.1`, with no `/` between
the channel and the suffix; with the suffix `/feeds/last.txt` it writes
`GET /channels/12/feeds/last.txt HTTP/1.1`, the suffix's own `/` being the only
one. In neither case are the bytes written those of
`GET /channels/12/<pathSuffix> HTTP/1.1`. -/
theorem readRaw_request_line_counterexample :
    sentBytes (readRaw photon 12 (bytes "feeds/last.txt") none
        (ThingSpeakClass.construct
          (answering (bytes "HTTP/1.1 200 OK\r\nA: b\r\n\r\nx")))).2.client.trace =
      bytes "GET /channels/12feeds/last.txt HTTP/1.1\r\nHost: api.thingspeak.com\r\nConnection: close\r\nUser-Agent: tslib-arduino/1.6.0 (particle photon)\r\n\r\n" ∧
    sentBytes (readRaw photon 12 (bytes "feeds/last.txt") none
        (ThingSpeakClass.construct
          (answering (bytes "HTTP/1.1 200 OK\r\nA: b\r\n\r\nx")))).2.client.trace ≠
      bytes "GET /channels/" ++ decimal 12 ++ bytes "/" ++ bytes "feeds/last.txt" ++
        bytes " HTTP/1.1\r\nHost: api.thingspeak.com\r\nConnection: close\r\nUser-Agent: tslib-arduino/1.6.0 (particle photon)\r\n\r\n" ∧
    sentBytes (readRaw photon 12 (bytes "/feeds/last.txt") none
        (ThingSpeakClass.construct
          (answering (bytes "HTTP/1.1 200 OK\r\nA: b\r\n\r\nx")))).2.client.trace =
      bytes "GET /channels/12/feeds/last.txt HTTP/1.1\r\nHost: api.thingspeak.com\r\nConnection: close\r\nUser-Agent: tslib-arduino/1.6.0 (particle photon)\r\n\r\n" ∧
    sentBytes (readRaw photon 12 (bytes "/feeds/last.txt") none
        (ThingSpeakClass.construct
          (answering (bytes "HTTP/1.1 200 OK\r\nA: b\r\n\r\nx")))).2.client.trace ≠
      bytes "GET /channels/" ++ decimal 12 ++ bytes "/" ++ bytes "/feeds/last.txt" ++
        bytes " HTTP/1.1\r\nHost: api.thingspeak.com\r\nConnection: close\r\nUser-Agent: tslib-arduino/1.6.0 (particle photon)\r\n\r\n" ∧
    allWritesSucceeded (readRaw photon 12 (bytes "feeds/last.txt") none
        (ThingSpeakClass.construct
          (answering (bytes "HTTP/1.1 200 OK\r\nA: b\r\n\r\nx")))).2.client.trace := by
  refine ⟨by decide, by decide, by decide, by decide, by decide⟩

/-- C18: the response wait is bounded. A `delay(100)` advances the millisecond
clock by at least 100 ms; for every transport, every clock value at the start
(the values within 5000 ms of the 32-bit wrap-around included) and every
oversleeping, the wait of `getHTTPResponse` calls only `available` and
`delay(100)`, sleeps at most 50 times, is the same with any larger number of
evaluations of its condition, and ends with its condition false: a byte is
available or the elapsed time, computed modulo 2^32, has reached 5000 ms. That
difference modulo 2^32 is the true elapsed time `t` whenever `t` is below 2^32. -/
theorem wait_bounded (c : Client) :
    (∀ x : Client, 100 ≤ ((x.delay 100).millis + 2 ^ 32 - x.millis) % 2 ^ 32) ∧
    (∃ ops, (waitForResponse waitFuel c.millis c).trace = c.trace ++ ops ∧
      (∀ op ∈ ops, op.isPoll = true) ∧ ops.count (Op.delay 100) ≤ 50) ∧
    (∀ k, waitForResponse (waitFuel + k) c.millis c = waitForResponse waitFuel c.millis c) ∧
    ¬ ((waitForResponse waitFuel c.millis c).available.1 = 0 ∧
      ((waitForResponse waitFuel c.millis c).millis + 2 ^ 32 - c.millis) % 2 ^ 32
        < TIMEOUT_MS_SERVERRESPONSE) ∧
    (∀ start t : Nat, start < 2 ^ 32 → t < 2 ^ 32 →
      ((start + t) % 2 ^ 32 + 2 ^ 32 - start) % 2 ^ 32 = t) := by
  have hs : c.millis < 2 ^ 32 := by
    simp only [Client.millis]; omega
  have h0 : (c.millis + 2 ^ 32 - c.millis) % 2 ^ 32 = 0 := by
    omega
  refine ⟨?_, ?_, fun k => waitForResponse_fuel k c, ?_, ?_⟩
  · intro x
    simp only [Client.millis, Client.delay, maxOvershoot, Nat.reducePow]
    omega
  · obtain ⟨ops, h1, h2, _, h4⟩ := waitForResponse_sleeps waitFuel c.millis c hs
    refine ⟨ops, h1, h2, ?_⟩
    have := h4 (by rw [h0]; decide)
    omega
  · exact waitForResponse_exits 50 c.millis c hs (by
      simp only [TIMEOUT_MS_SERVERRESPONSE]; omega)
  · intro start t h1 h2
    omega

set_option maxRecDepth 40000 in
/-- C11 (as stated, refuted): the result of the scenario is the status 200 and
holds no entry id. On a transport that accepts every write, after
`setField(1, "23.5")` and `setStatus("ok")`, `writeFields` returns 200 when the
200 response has the body `4`, and the same 200 when the body is `5`; the
result is not 4. -/
theorem end_to_end_write_counterexample :
    (writeFields photon 12 (some (bytes "KEY")) (setStatus (bytes "ok")
      (setField 1 (bytes "23.5") (ThingSpeakClass.construct
        (answering (bytes "HTTP/1.1 200 OK\r\nA: b\r\n\r\n4")))).2).2).1 = 200 ∧
    (writeFields photon 12 (some (bytes "KEY")) (setStatus (bytes "ok")
      (setField 1 (bytes "23.5") (ThingSpeakClass.construct
        (answering (bytes "HTTP/1.1 200 OK\r\nA: b\r\n\r\n5")))).2).2).1 = 200 ∧
    (writeFields photon 12 (some (bytes "KEY")) (setStatus (bytes "ok")
      (setField 1 (bytes "23.5") (ThingSpeakClass.construct
        (answering (bytes "HTTP/1.1 200 OK\r\nA: b\r\n\r\n4")))).2).2).1 ≠ 4 := by
  refine ⟨by decide, by decide, by decide⟩

set_option maxRecDepth 40000 in
/-- C11 (amended): starting from an empty pending update, `setField(1, "23.5")`
and `setStatus("ok")` each return 200; `writeFields`, against a transport that
accepts every write and answers with a 200 response whose body is `4`, sends
the body `field1=23.5&status=ok&headers=false` and returns the status 200
(the entry id 4 read from the response body being other than 0), and the
pending update is empty afterwards. -/
theorem end_to_end_write :
    pendingEmpty (ThingSpeakClass.construct
      (answering (bytes "HTTP/1.1 200 OK\r\nA: b\r\n\r\n4"))) ∧
    (setField 1 (bytes "23.5") (ThingSpeakClass.construct
      (answering (bytes "HTTP/1.1 200 OK\r\nA: b\r\n\r\n4")))).1 = 200 ∧
    (setStatus (bytes "ok") (setField 1 (bytes "23.5") (ThingSpeakClass.construct
      (answering (bytes "HTTP/1.1 200 OK\r\nA: b\r\n\r\n4")))).2).1 = 200 ∧
    (writeFields photon 12 (some (bytes "KEY")) (setStatus (bytes "ok")
      (setField 1 (bytes "23.5") (ThingSpeakClass.construct
        (answering (bytes "HTTP/1.1 200 OK\r\nA: b\r\n\r\n4")))).2).2).1 = 200 ∧
    sentBytes (writeFields photon 12 (some (bytes "KEY")) (setStatus (bytes "ok")
      (setField 1 (bytes "23.5") (ThingSpeakClass.construct
        (answering (bytes "HTTP/1.1 200 OK\r\nA: b\r\n\r\n4")))).2).2).2.client.trace =
      bytes "POST /update HTTP/1.1\r\nHost: api.thingspeak.com\r\nConnection: close\r\nUser-Agent: tslib-arduino/1.6.0 (particle photon)\r\nX-THINGSPEAKAPIKEY: KEY\r\nContent-Type: application/x-www-form-urlencoded\r\nContent-Length: 35\r\n\r\nfield1=23.5&status=ok&headers=false" ∧
    (readResponse [] (bytes "HTTP/1.1 200 OK\r\nA: b\r\n\r\n4")).2.1 = bytes "4" ∧
    toInt (bytes "4") = 4 ∧
    pendingEmpty (writeFields photon 12 (some (bytes "KEY")) (setStatus (bytes "ok")
      (setField 1 (bytes "23.5") (ThingSpeakClass.construct
        (answering (bytes "HTTP/1.1 200 OK\r\nA: b\r\n\r\n4")))).2).2).2 :=
  ⟨⟨fun _ => rfl, rfl, rfl, NAN_isnan, NAN_isnan, NAN_isnan⟩, by decide, by decide, by decide,
    by decide, by decide, by decide, pendingEmpty_writeFields _ _ _ _⟩

/-- What `writeRaw` leaves untouched: everything but the transport. -/
theorem writeRaw_frame (P : Platform) (ch : Nat) (q : Bytes) (key : Option Bytes)
    (ts : ThingSpeakClass) :
    (writeRaw P ch q key ts).2 = { ts with client := (writeRaw P ch q key ts).2.client } := rfl

/-- A `writeField` leaves the object as it was, or as `writeRaw` left it. -/
theorem writeField_frame (P : Platform) (ch field : Nat) (value : Bytes) (key : Option Bytes)
    (ts : ThingSpeakClass) :
    (writeField P ch field value key ts).2 =
      { ts with client := (writeField P ch field value key ts).2.client } := by
  unfold writeField
  split_ifs <;> rfl

/-- A `setField` changes the pending fields only, and only to a text of at most
255 bytes. -/
theorem setField_fields (field : Nat) (value : Bytes) (ts : ThingSpeakClass) :
    (setField field value ts).2 =
      { ts with nextWriteField := (setField field value ts).2.nextWriteField } ∧
    ∀ i, (setField field value ts).2.nextWriteField i = ts.nextWriteField i ∨
      ((setField field value ts).2.nextWriteField i = value ∧ value.length ≤ 255) := by
  unfold setField
  by_cases h : field < FIELDNUM_MIN ∨ field > FIELDNUM_MAX
  · rw [dif_pos h]
    exact ⟨rfl, fun i => Or.inl rfl⟩
  · rw [dif_neg h]
    by_cases hl : value.length > FIELDLENGTH_MAX
    · rw [if_pos hl]
      exact ⟨rfl, fun i => Or.inl rfl⟩
    · rw [if_neg hl]
      refine ⟨rfl, fun i => ?_⟩
      simp only [FIELDLENGTH_MAX] at hl
      by_cases hi : i = (⟨field - 1, by
            simp only [FIELDNUM_MIN, FIELDNUM_MAX] at h
            omega⟩ : Fin 8)
      · right
        simp only [hi, if_true]
        exact ⟨trivial, by omega⟩
      · left
        simp only [hi, if_false]

/-- C27: no write operation changes the status register: `setField` in its
text, integer and floating-point forms, `setLatitude`, `setLongitude`,
`setElevation`, `setStatus`, `setCreatedAt`, `writeField` in its three forms,
`writeFields` and `writeRaw` leave the value `getLastReadStatus` returns as it
was, for every object, every argument and every behaviour of the transport. -/
theorem writes_keep_status_register (P : Platform) (ch field : Nat) (text : Bytes) (v : Int)
    (x : Float32) (key : Option Bytes) (ts : ThingSpeakClass) :
    getLastReadStatus (setField field text ts).2 = getLastReadStatus ts ∧
    getLastReadStatus (setFieldLong field v ts).2 = getLastReadStatus ts ∧
    getLastReadStatus (setFieldFloat P field x ts).2 = getLastReadStatus ts ∧
    getLastReadStatus (setLatitude x ts).2 = getLastReadStatus ts ∧
    getLastReadStatus (setLongitude x ts).2 = getLastReadStatus ts ∧
    getLastReadStatus (setElevation x ts).2 = getLastReadStatus ts ∧
    getLastReadStatus (setStatus text ts).2 = getLastReadStatus ts ∧
    getLastReadStatus (setCreatedAt text ts).2 = getLastReadStatus ts ∧
    getLastReadStatus (writeField P ch field text key ts).2 = getLastReadStatus ts ∧
    getLastReadStatus (writeFieldLong P ch field v key ts).2 = getLastReadStatus ts ∧
    getLastReadStatus (writeFieldFloat P ch field x key ts).2 = getLastReadStatus ts ∧
    getLastReadStatus (writeFields P ch key ts).2 = getLastReadStatus ts ∧
    getLastReadStatus (writeRaw P ch text key ts).2 = getLastReadStatus ts := by
  have hset : ∀ (f : Nat) (t : Bytes),
      getLastReadStatus (setField f t ts).2 = getLastReadStatus ts := by
    intro f t
    rw [(setField_fields f t ts).1]
    rfl
  have hwrite : ∀ (f : Nat) (t : Bytes),
      getLastReadStatus (writeField P ch f t key ts).2 = getLastReadStatus ts := by
    intro f t
    rw [writeField_frame]
    rfl
  refine ⟨hset _ _, hset _ _, ?_, rfl, rfl, rfl, ?_, ?_, hwrite _ _, hwrite _ _, ?_, ?_, rfl⟩
  · unfold setFieldFloat
    split_ifs
    · rfl
    · exact hset _ _
  · unfold setStatus
    split_ifs <;> rfl
  · unfold setCreatedAt
    split_ifs <;> rfl
  · unfold writeFieldFloat
    split_ifs
    · rfl
    · exact hwrite _ _
  · rw [writeFields_eq]
    split_ifs <;> rfl

/-- C24: for every field index outside [1,8], `readStringField`,
`readLongField`, `readIntField` and `readFloatField` make no call on the
transport, return the empty string, respectively 0 (for the float read: the
value `toFloat` gives for the empty text, which is 0 when `atof` follows the C
standard), and set the status register to InvalidFieldNumber (-201), the rest
of the object being unchanged; for an index `f` in [1,8], `readStringField` is
exactly `readRaw` with the path suffix `/fields/<f>/last`, and the numeric reads
decode the text it returns. -/
theorem single_field_read (P : Platform) (ch field : Nat) (key : Option Bytes)
    (ts : ThingSpeakClass) :
    ((field < 1 ∨ 8 < field) →
      readStringField P ch field key ts = ([], { ts with lastReadStatus := -201 }) ∧
      readLongField P ch field key ts = (0, { ts with lastReadStatus := -201 }) ∧
      readIntField P ch field key ts = (0, { ts with lastReadStatus := -201 }) ∧
      readFloatField P ch field key ts =
        (P.toFloat [], { ts with lastReadStatus := -201 }) ∧
      (P.toFloat [] = ⟨false, 0, 0⟩ →
        (readFloatField P ch field key ts).1 = ⟨false, 0, 0⟩) ∧
      (readStringField P ch field key ts).2.client.trace = ts.client.trace ∧
      getLastReadStatus (readStringField P ch field key ts).2 = -201) ∧
    ((1 ≤ field ∧ field ≤ 8) →
      readStringField P ch field key ts =
        readRaw P ch (bytes "/fields/" ++ decimal field ++ bytes "/last") key ts ∧
      (readLongField P ch field key ts).1 =
        toInt (readRaw P ch (bytes "/fields/" ++ decimal field ++ bytes "/last") key ts).1 ∧
      (readIntField P ch field key ts).1 =
        toInt (readRaw P ch (bytes "/fields/" ++ decimal field ++ bytes "/last") key ts).1 ∧
      (readFloatField P ch field key ts).1 =
        convertStringToFloat P
          (readRaw P ch (bytes "/fields/" ++ decimal field ++ bytes "/last") key ts).1) := by
  constructor
  · intro h
    have hg : field < FIELDNUM_MIN ∨ field > FIELDNUM_MAX := h
    have hs : readStringField P ch field key ts = ([], { ts with lastReadStatus := -201 }) := by
      unfold readStringField
      rw [if_pos hg]
      rfl
    have hf : readFloatField P ch field key ts =
        (P.toFloat [], { ts with lastReadStatus := -201 }) := by
      unfold readFloatField
      rw [hs]
      simp [convertStringToFloat]
    refine ⟨hs, ?_, ?_, hf, ?_, ?_, ?_⟩
    · unfold readLongField
      rw [hs]
      rfl
    · unfold readIntField readLongField
      rw [hs]
      rfl
    · intro h0
      rw [hf, h0]
    · rw [hs]
    · rw [hs]
      rfl
  · intro h
    have hg : ¬ (field < FIELDNUM_MIN ∨ field > FIELDNUM_MAX) := by
      simp only [FIELDNUM_MIN, FIELDNUM_MAX]
      omega
    have hs : readStringField P ch field key ts =
        readRaw P ch (bytes "/fields/" ++ decimal field ++ bytes "/last") key ts := by
      unfold readStringField
      rw [if_neg hg]
    refine ⟨hs, ?_, ?_, ?_⟩
    · unfold readLongField
      rw [hs]
    · unfold readIntField readLongField
      rw [hs]
    · unfold readFloatField
      rw [hs]

/-- C25: `readStatus` and `readCreatedAt` leave the object as `readRaw` leaves
it for the path suffix `/feeds/last.txt?status=true`, respectively
`/feeds/last.txt`, so that the outcome of that read is in the status register;
they return the empty string whenever that outcome is not 200, and when it is
200 with body `b` they return what `getJSONValueByKey` extracts from `b` for the
key `status`, respectively `created_at`. -/
theorem read_status_created_at (P : Platform) (ch : Nat) (key : Option Bytes)
    (ts : ThingSpeakClass) :
    (readStatus P ch key ts).2 =
      (readRaw P ch (bytes "/feeds/last.txt?status=true") key ts).2 ∧
    (getLastReadStatus (readRaw P ch (bytes "/feeds/last.txt?status=true") key ts).2 ≠ 200 →
      (readStatus P ch key ts).1 = []) ∧
    (getLastReadStatus (readRaw P ch (bytes "/feeds/last.txt?status=true") key ts).2 = 200 →
      (readStatus P ch key ts).1 =
        getJSONValueByKey (readRaw P ch (bytes "/feeds/last.txt?status=true") key ts).1
          (bytes "status")) ∧
    (readCreatedAt P ch key ts).2 = (readRaw P ch (bytes "/feeds/last.txt") key ts).2 ∧
    (getLastReadStatus (readRaw P ch (bytes "/feeds/last.txt") key ts).2 ≠ 200 →
      (readCreatedAt P ch key ts).1 = []) ∧
    (getLastReadStatus (readRaw P ch (bytes "/feeds/last.txt") key ts).2 = 200 →
      (readCreatedAt P ch key ts).1 =
        getJSONValueByKey (readRaw P ch (bytes "/feeds/last.txt") key ts).1
          (bytes "created_at")) := by
  unfold readStatus readCreatedAt
  simp only []
  refine ⟨?_, ?_, ?_, ?_, ?_, ?_⟩
  · split_ifs <;> rfl
  · intro h
    rw [if_pos (show _ ≠ TS_OK_SUCCESS from h)]
  · intro h
    rw [if_neg (show ¬ _ ≠ TS_OK_SUCCESS from not_not.mpr h)]
  · split_ifs <;> rfl
  · intro h
    rw [if_pos (show _ ≠ TS_OK_SUCCESS from h)]
  · intro h
    rw [if_neg (show ¬ _ ≠ TS_OK_SUCCESS from not_not.mpr h)]

/-- C26: the cached getters make no call on the transport and never change the
feed cache. `getStatus`, `getLatitude`, `getLongitude`, `getElevation` and
`getCreatedAt` return the entry the cache holds. `getFieldAsString` changes the
status register only: with an index in [1,8] it returns the cached field (and
sets the register to 200), with an index outside it returns the empty string
and sets the register to InvalidFieldNumber (-201). -/
theorem cached_getters (field : Nat) (ts : ThingSpeakClass) :
    getStatus ts = ts.lastFeed.nextReadStatus ∧
    getLatitude ts = ts.lastFeed.nextReadLatitude ∧
    getLongitude ts = ts.lastFeed.nextReadLongitude ∧
    getElevation ts = ts.lastFeed.nextReadElevation ∧
    getCreatedAt ts = ts.lastFeed.nextReadCreatedAt ∧
    (getFieldAsString field ts).2 =
      { ts with lastReadStatus := (getFieldAsString field ts).2.lastReadStatus } ∧
    (getFieldAsString field ts).2.client = ts.client ∧
    (getFieldAsString field ts).2.lastFeed = ts.lastFeed ∧
    (∀ i : Fin 8, field = i.val + 1 →
      (getFieldAsString field ts).1 = ts.lastFeed.nextReadField i ∧
      (getFieldAsString field ts).2.lastReadStatus = 200) ∧
    ((field < 1 ∨ 8 < field) →
      (getFieldAsString field ts).1 = [] ∧
      (getFieldAsString field ts).2.lastReadStatus = -201) := by
  refine ⟨rfl, rfl, rfl, rfl, rfl, ?_, ?_, ?_, ?_, ?_⟩
  · unfold getFieldAsString
    split_ifs <;> rfl
  · unfold getFieldAsString
    split_ifs <;> rfl
  · unfold getFieldAsString
    split_ifs <;> rfl
  · intro i hi
    subst hi
    have hg : ¬ (i.val + 1 < FIELDNUM_MIN ∨ i.val + 1 > FIELDNUM_MAX) := by
      have := i.isLt
      simp only [FIELDNUM_MIN, FIELDNUM_MAX]
      omega
    unfold getFieldAsString
    rw [dif_neg hg]
    exact ⟨rfl, rfl⟩
  · intro h
    have hg : field < FIELDNUM_MIN ∨ field > FIELDNUM_MAX := h
    unfold getFieldAsString
    rw [dif_pos hg]
    exact ⟨rfl, rfl⟩

/-- The two ways `readMultipleFields` ends, by the status `readRaw` left. -/
theorem readMultipleFields_cases (P : Platform) (ch : Nat) (key : Option Bytes)
    (ts : ThingSpeakClass) :
    ((readRaw P ch (bytes "/feeds/last.txt?status=true&location=true") key
        ts).2.lastReadStatus = 200 →
      (readMultipleFields P ch key ts).1 = 200 ∧
      (readMultipleFields P ch key ts).2.lastReadStatus = 200 ∧
      (readMultipleFields P ch key ts).2.lastFeed =
        { nextReadField := fun i =>
            parseValues (readRaw P ch (bytes "/feeds/last.txt?status=true&location=true") key
              ts).1 (bytes "field" ++ decimal (i.val + 1))
          nextReadStatus :=
            parseValues (readRaw P ch (bytes "/feeds/last.txt?status=true&location=true") key
              ts).1 (bytes "status")
          nextReadLatitude :=
            parseValues (readRaw P ch (bytes "/feeds/last.txt?status=true&location=true") key
              ts).1 (bytes "latitude")
          nextReadLongitude :=
            parseValues (readRaw P ch (bytes "/feeds/last.txt?status=true&location=true") key
              ts).1 (bytes "longitude")
          nextReadElevation :=
            parseValues (readRaw P ch (bytes "/feeds/last.txt?status=true&location=true") key
              ts).1 (bytes "elevation")
          nextReadCreatedAt :=
            parseValues (readRaw P ch (bytes "/feeds/last.txt?status=true&location=true") key
              ts).1 (bytes "created_at") }) ∧
    ((readRaw P ch (bytes "/feeds/last.txt?status=true&location=true") key
        ts).2.lastReadStatus ≠ 200 →
      (readMultipleFields P ch key ts).1 =
        (readRaw P ch (bytes "/feeds/last.txt?status=true&location=true") key
          ts).2.lastReadStatus ∧
      (readMultipleFields P ch key ts).2.lastReadStatus =
        (readRaw P ch (bytes "/feeds/last.txt?status=true&location=true") key
          ts).2.lastReadStatus ∧
      (readMultipleFields P ch key ts).2.lastFeed = ts.lastFeed) := by
  constructor
  · intro h
    have hg : ¬ (getLastReadStatus (readRaw P ch
        (bytes "/feeds/last.txt?status=true&location=true") key ts).2 ≠ TS_OK_SUCCESS) :=
      not_not.mpr h
    unfold readMultipleFields
    simp only []
    rw [if_neg hg]
    refine ⟨rfl, h, ?_⟩
    simp only [Feed.mk.injEq, and_true]
    funext i
    fin_cases i <;> rfl
  · intro h
    rw [(readMultipleFields_client P ch key ts).2.2 h]
    exact ⟨rfl, rfl, (readRaw_frame P ch _ key ts).1⟩

/-- C21: when the multi-field read succeeds - `readRaw`, for the path suffix
`/feeds/last.txt?status=true&location=true`, leaves 200 in the status register
and returns the body `b` - `readMultipleFields` returns 200, the status register
is 200, and every one of the 13 entries of the feed cache (field1..field8,
status, created_at, latitude, longitude, elevation) is what `parseValues`
extracts from `b` for that key, whatever the entry held before. -/
theorem multi_read_overwrites_cache (P : Platform) (ch : Nat) (key : Option Bytes)
    (ts : ThingSpeakClass)
    (h : (readRaw P ch (bytes "/feeds/last.txt?status=true&location=true") key
        ts).2.lastReadStatus = 200) :
    (readMultipleFields P ch key ts).1 = 200 ∧
    getLastReadStatus (readMultipleFields P ch key ts).2 = 200 ∧
    (∀ i : Fin 8, (readMultipleFields P ch key ts).2.lastFeed.nextReadField i =
      parseValues (readRaw P ch (bytes "/feeds/last.txt?status=true&location=true") key ts).1
        (bytes "field" ++ decimal (i.val + 1))) ∧
    (readMultipleFields P ch key ts).2.lastFeed.nextReadStatus =
      parseValues (readRaw P ch (bytes "/feeds/last.txt?status=true&location=true") key ts).1
        (bytes "status") ∧
    (readMultipleFields P ch key ts).2.lastFeed.nextReadCreatedAt =
      parseValues (readRaw P ch (bytes "/feeds/last.txt?status=true&location=true") key ts).1
        (bytes "created_at") ∧
    (readMultipleFields P ch key ts).2.lastFeed.nextReadLatitude =
      parseValues (readRaw P ch (bytes "/feeds/last.txt?status=true&location=true") key ts).1
        (bytes "latitude") ∧
    (readMultipleFields P ch key ts).2.lastFeed.nextReadLongitude =
      parseValues (readRaw P ch (bytes "/feeds/last.txt?status=true&location=true") key ts).1
        (bytes "longitude") ∧
    (readMultipleFields P ch key ts).2.lastFeed.nextReadElevation =
      parseValues (readRaw P ch (bytes "/feeds/last.txt?status=true&location=true") key ts).1
        (bytes "elevation") := by
  obtain ⟨h1, h2, h3⟩ := (readMultipleFields_cases P ch key ts).1 h
  rw [h3]
  exact ⟨h1, h2, fun _ => rfl, rfl, rfl, rfl, rfl, rfl⟩

set_option maxRecDepth 100000 in
/-- Witness of `multi_read_overwrites_cache`: the 200 response has the body
`{"field1":"12.3","status":"ok"}` and every entry of the cache held `old`;
afterwards field 1 is `12.3`, the status is `ok`, and every other entry is the
empty string. -/
theorem multi_read_overwrites_cache_witness :
    (readMultipleFields photon 12 none (staleCache (answering
      (bytes "HTTP/1.1 200 OK\r\nA: b\r\n\r\n\x7b\"field1\":\"12.3\",\"status\":\"ok\"\x7d")))).1
        = 200 ∧
    getLastReadStatus (readMultipleFields photon 12 none (staleCache (answering
      (bytes "HTTP/1.1 200 OK\r\nA: b\r\n\r\n\x7b\"field1\":\"12.3\",\"status\":\"ok\"\x7d")))).2
        = 200 ∧
    (readMultipleFields photon 12 none (staleCache (answering
      (bytes "HTTP/1.1 200 OK\r\nA: b\r\n\r\n\x7b\"field1\":\"12.3\",\"status\":\"ok\"\x7d")))).2.lastFeed
        = ⟨fun i => if i = 0 then bytes "12.3" else [], bytes "ok", [], [], [], []⟩ := by
  have h := multi_read_overwrites_cache photon 12 none (staleCache (answering
      (bytes "HTTP/1.1 200 OK\r\nA: b\r\n\r\n\x7b\"field1\":\"12.3\",\"status\":\"ok\"\x7d")))
      (by decide)
  refine ⟨h.1, h.2.1, ?_⟩
  obtain ⟨_, _, h3, h4, h5, h6, h7, h8⟩ := h
  have hf : (readMultipleFields photon 12 none (staleCache (answering
      (bytes "HTTP/1.1 200 OK\r\nA: b\r\n\r\n\x7b\"field1\":\"12.3\",\"status\":\"ok\"\x7d")))).2.lastFeed.nextReadField
        = fun i => if i = 0 then bytes "12.3" else [] := by
    funext i
    rw [h3 i]
    fin_cases i <;> decide
  have e : ∀ f : Feed, f = ⟨f.nextReadField, f.nextReadStatus, f.nextReadLatitude,
      f.nextReadLongitude, f.nextReadElevation, f.nextReadCreatedAt⟩ := fun f => rfl
  rw [e (readMultipleFields photon 12 none _).2.lastFeed, hf, h4, h5, h6, h7, h8]
  simp only [Feed.mk.injEq, true_and]
  refine ⟨by decide, by decide, by decide, by decide, by decide⟩

/-- C22: when the multi-field read fails, that is when `readMultipleFields`
returns anything other than 200 (connection refused, a failed write, timeout,
bad response or a status other than 200), the status register holds the code
returned and the feed cache, with each of its 13 entries, is exactly as it was
before the call. -/
theorem multi_read_failure_keeps_cache (P : Platform) (ch : Nat) (key : Option Bytes)
    (ts : ThingSpeakClass) (h : (readMultipleFields P ch key ts).1 ≠ 200) :
    getLastReadStatus (readMultipleFields P ch key ts).2 = (readMultipleFields P ch key ts).1 ∧
    (readMultipleFields P ch key ts).2.lastFeed = ts.lastFeed := by
  by_cases hs : (readRaw P ch (bytes "/feeds/last.txt?status=true&location=true") key
      ts).2.lastReadStatus = 200
  · exact absurd ((readMultipleFields_cases P ch key ts).1 hs).1 h
  · obtain ⟨h1, h2, h3⟩ := (readMultipleFields_cases P ch key ts).2 hs
    exact ⟨by rw [h1]; exact h2, h3⟩

set_option maxRecDepth 100000 in
/-- Witness of `multi_read_failure_keeps_cache`: connection refused (-301), the
third write refused (-302), no HTTP token in the response (-303), response
visible after 5001 ms (-304), and status 404; the cache, `old` in every entry,
is unchanged each time. -/
theorem multi_read_failure_keeps_cache_witness :
    ((readMultipleFields photon 12 none (staleCache offline)).1 = -301 ∧
      (readMultipleFields photon 12 none (staleCache offline)).2.lastFeed
        = (staleCache offline).lastFeed) ∧
    ((readMultipleFields photon 12 none (staleCache refusingThird)).1 = -302 ∧
      getLastReadStatus (readMultipleFields photon 12 none (staleCache refusingThird)).2
        = -302) ∧
    ((readMultipleFields photon 12 none (staleCache (answering (bytes "hello")))).1 = -303 ∧
      (readMultipleFields photon 12 none (staleCache (answering (bytes "hello")))).2.lastFeed
        = (staleCache (answering (bytes "hello"))).lastFeed) ∧
    ((readMultipleFields photon 12 none (staleCache
        (delayed (bytes "HTTP/1.1 200 OK\r\nA: b\r\n\r\nx") 5001 0))).1 = -304 ∧
      getLastReadStatus (readMultipleFields photon 12 none (staleCache
        (delayed (bytes "HTTP/1.1 200 OK\r\nA: b\r\n\r\nx") 5001 0))).2 = -304) ∧
    ((readMultipleFields photon 12 none (staleCache
        (answering (bytes "HTTP/1.1 404 Not Found\r\n\r\n")))).1 = 404 ∧
      getLastReadStatus (readMultipleFields photon 12 none (staleCache
        (answering (bytes "HTTP/1.1 404 Not Found\r\n\r\n")))).2 = 404 ∧
      (readMultipleFields photon 12 none (staleCache
        (answering (bytes "HTTP/1.1 404 Not Found\r\n\r\n")))).2.lastFeed
        = (staleCache (answering (bytes "HTTP/1.1 404 Not Found\r\n\r\n"))).lastFeed) := by
  have h1 := multi_read_failure_keeps_cache photon 12 none (staleCache offline) (by decide)
  have h2 := multi_read_failure_keeps_cache photon 12 none (staleCache refusingThird)
    (by decide)
  have h3 := multi_read_failure_keeps_cache photon 12 none
    (staleCache (answering (bytes "hello"))) (by decide)
  have h4 := multi_read_failure_keeps_cache photon 12 none (staleCache
    (delayed (bytes "HTTP/1.1 200 OK\r\nA: b\r\n\r\nx") 5001 0)) (by decide)
  have h5 := multi_read_failure_keeps_cache photon 12 none (staleCache
    (answering (bytes "HTTP/1.1 404 Not Found\r\n\r\n"))) (by decide)
  refine ⟨⟨by decide, h1.2⟩, ⟨by decide, ?_⟩, ⟨by decide, h3.2⟩, ⟨by decide, ?_⟩,
    ⟨by decide, ?_, h5.2⟩⟩
  · rw [h2.1]; decide
  · rw [h4.1]; decide
  · rw [h5.1]; decide

/-! ### The extractor -/

/-- The position `strstr` finds is where the stream search stops: what follows
the occurrence found is what `findAfter` leaves. -/
theorem strstrPos_findAfter (t : Bytes) (s : Bytes) :
    (strstrPos t s).map (fun i => s.drop (i + t.length)) = findAfter t s ∧
    ∀ i, strstrPos t s = some i → i + t.length ≤ s.length := by
  induction s with
  | nil =>
    by_cases h : t = []
    · subst h
      simp [strstrPos, findAfter]
    · simp [strstrPos, findAfter, h]
  | cons b rest ih =>
    rw [strstrPos, findAfter]
    by_cases hp : t.isPrefixOf (b :: rest) = true
    · rw [if_pos hp, if_pos hp]
      refine ⟨by simp, ?_⟩
      intro i hi
      simp only [Option.some.injEq] at hi
      subst hi
      have := (List.isPrefixOf_iff_prefix.mp hp).length_le
      omega
    · rw [if_neg hp, if_neg hp]
      refine ⟨?_, ?_⟩
      · rw [← ih.1]
        cases strstrPos t rest with
        | none => rfl
        | some i =>
          simp only [Option.map_some']
          congr 1
          have : i + 1 + t.length = (i + t.length) + 1 := by omega
          rw [this, List.drop_succ_cons]
      · intro i hi
        cases hr : strstrPos t rest with
        | none => rw [hr] at hi; simp at hi
        | some j =>
          rw [hr] at hi
          simp only [Option.map_some', Option.some.injEq] at hi
          have := ih.2 j hr
          simp only [List.length_cons]
          omega

/-- Searching for one byte: nothing is found when the byte does not occur, and
otherwise the position found is the length of the text before its first
occurrence. -/
theorem strstrPos_byte (q : Nat) (s : Bytes) :
    (strstrPos [q] s = none ↔ q ∉ s) ∧
    ∀ j, strstrPos [q] s = some j →
      j < s.length ∧ s.take j = s.takeWhile (fun b => b != q) := by
  induction s with
  | nil => simp [strstrPos]
  | cons b rest ih =>
    rw [strstrPos]
    by_cases hb : b = q
    · subst hb
      have hp : [b].isPrefixOf (b :: rest) = true := by
        simp [List.isPrefixOf]
      rw [if_pos hp]
      refine ⟨by simp, ?_⟩
      intro j hj
      simp only [Option.some.injEq] at hj
      subst hj
      simp [List.takeWhile]
    · have hp : ¬ [q].isPrefixOf (b :: rest) = true := by
        simp [List.isPrefixOf]
        exact fun h => hb h.symm
      rw [if_neg hp]
      refine ⟨?_, ?_⟩
      · cases hr : strstrPos [q] rest with
        | none =>
          have := ih.1.mp hr
          simp [this, Ne.symm hb]
        | some j =>
          have : ¬ (q ∉ rest) := fun hn => by
            have := ih.1.mpr hn
            rw [hr] at this
            exact absurd this (by simp)
          simp only [Option.map_some', List.mem_cons, not_or, false_iff, not_and, reduceCtorEq]
          intro _
          exact this
      · intro j hj
        cases hr : strstrPos [q] rest with
        | none => rw [hr] at hj; simp at hj
        | some k =>
          rw [hr] at hj
          simp only [Option.map_some', Option.some.injEq] at hj
          subst hj
          obtain ⟨h1, h2⟩ := ih.2 k hr
          refine ⟨by simp only [List.length_cons]; omega, ?_⟩
          have hbq : (b != q) = true := by simp [hb]
          rw [List.take_succ_cons, List.takeWhile_cons, hbq, h2]
          rfl

/-- The two answers of `indexOf`. -/
theorem indexOf_eq (s t : Bytes) (fromIndex : Nat) :
    (indexOf s t fromIndex = -1 ∧
      (s.length ≤ fromIndex ∨ strstrPos t (s.drop fromIndex) = none)) ∨
    ∃ i, fromIndex < s.length ∧ strstrPos t (s.drop fromIndex) = some i ∧
      indexOf s t fromIndex = ((fromIndex + i : Nat) : Int) := by
  unfold indexOf
  by_cases h : fromIndex ≥ s.length
  · left
    rw [if_pos h]
    exact ⟨rfl, Or.inl h⟩
  · rw [if_neg h]
    cases hr : strstrPos t (s.drop fromIndex) with
    | none =>
      left
      exact ⟨rfl, Or.inr rfl⟩
    | some i =>
      right
      exact ⟨i, by omega, rfl, rfl⟩

/-- The phrase `"<key>":"` is not empty. -/
theorem searchPhrase_ne_nil (key : Bytes) : bytes "\"" ++ key ++ bytes "\":\"" ≠ [] := by
  simp [bytes]

/-- The text between two positions, the second within the text. -/
theorem substring_eq (s : Bytes) (p j : Nat) (h : p + j < s.length) :
    substring s p (p + j) = (s.drop p).take j := by
  unfold substring
  have h1 : min p (p + j) = p := by omega
  have h2 : min (max p (p + j)) s.length = p + j := by omega
  rw [h1, h2, if_neg (by omega)]
  rw [List.drop_take]
  congr 1
  omega

/-- The same text, by cutting at the second position and taking what follows
the first. -/
theorem substringFrom_remove_eq (s : Bytes) (p j : Nat) (h : p + j < s.length) :
    substringFrom (remove s (p + j)) p = (s.drop p).take j := by
  unfold substringFrom remove
  rw [if_neg (by omega)]
  have hl : (s.take (p + j)).length = p + j := by
    rw [List.length_take]; omega
  rw [hl]
  unfold substring
  have h1 : min p (p + j) = p := by omega
  have h2 : min (max p (p + j)) (s.take (p + j)).length = p + j := by
    rw [hl]; omega
  rw [h1, h2, if_neg (by rw [hl]; omega), List.take_take, Nat.min_self, List.drop_take]
  congr 1
  omega

/-- What both extractors compute, from the two searches. -/
theorem extract_steps (body key : Bytes) (f : Bytes → Nat → Nat → Bytes)
    (hf : ∀ p j, p + j < body.length → f body p (p + j) = (body.drop p).take j) :
    (if body.length = 0 then []
     else
       if indexOf body (bytes "\"" ++ key ++ bytes "\":\"") 0 = -1 then []
       else
         if indexOf body (bytes "\"")
             (indexOf body (bytes "\"" ++ key ++ bytes "\":\"") 0 +
               ((bytes "\"" ++ key ++ bytes "\":\"").length : Int)).toNat = -1 then []
         else f body
           (indexOf body (bytes "\"" ++ key ++ bytes "\":\"") 0 +
             ((bytes "\"" ++ key ++ bytes "\":\"").length : Int)).toNat
           (indexOf body (bytes "\"")
             (indexOf body (bytes "\"" ++ key ++ bytes "\":\"") 0 +
               ((bytes "\"" ++ key ++ bytes "\":\"").length : Int)).toNat).toNat)
      = extractSpec body key := by
  unfold extractSpec
  generalize hph : bytes "\"" ++ key ++ bytes "\":\"" = phrase
  have hne : phrase ≠ [] := hph ▸ searchPhrase_ne_nil key
  by_cases h0 : body.length = 0
  · rw [if_pos h0]
    have : body = [] := List.length_eq_zero.mp h0
    subst this
    simp [findAfter, hne]
  · rw [if_neg h0]
    obtain ⟨hfa, hbound⟩ := strstrPos_findAfter phrase body
    rcases indexOf_eq body phrase 0 with ⟨h1, h2⟩ | ⟨i, h1, h2, h3⟩
    · rw [if_pos h1]
      rcases h2 with h2 | h2
      · omega
      · rw [List.drop_zero] at h2
        rw [← hfa, h2]
        rfl
    · rw [List.drop_zero] at h2
      have hib := hbound i h2
      rw [h3, if_neg (by omega)]
      have hp : (((0 + i : Nat) : Int) + (phrase.length : Int)).toNat = i + phrase.length := by
        omega
      rw [hp, ← hfa, h2]
      simp only [Option.map_some']
      rcases indexOf_eq body (bytes "\"") (i + phrase.length) with
        ⟨k1, k2⟩ | ⟨j, k1, k2, k3⟩
      · rw [if_pos k1]
        have hno : 34 ∉ body.drop (i + phrase.length) := by
          rcases k2 with k2 | k2
          · rw [List.drop_eq_nil_of_le k2]
            simp
          · exact (strstrPos_byte 34 _).1.mp k2
        rw [if_neg hno]
      · rw [k3, if_neg (by omega)]
        obtain ⟨j1, j2⟩ := (strstrPos_byte 34 _).2 j k2
        have hyes : 34 ∈ body.drop (i + phrase.length) := by
          by_contra hn
          have := (strstrPos_byte 34 _).1.mpr hn
          have k2' : strstrPos [34] (body.drop (i + phrase.length)) = some j := k2
          rw [k2'] at this
          exact absurd this (by simp)
        rw [if_pos hyes, Int.toNat_ofNat, ← j2]
        rw [List.length_drop] at j1
        exact hf _ _ (by omega)

/-- The extractor `parseValues` computes what the specification words. -/
theorem parseValues_eq_extractSpec (body key : Bytes) :
    parseValues body key = extractSpec body key := by
  rw [← extract_steps body key substring (fun p j h => substring_eq body p j h)]
  rfl

/-- The extractor `getJSONValueByKey` computes what the specification words. -/
theorem getJSONValueByKey_eq_extractSpec (body key : Bytes) :
    getJSONValueByKey body key = extractSpec body key := by
  rw [← extract_steps body key (fun s p q => substringFrom (remove s q) p)
    (fun p j h => substringFrom_remove_eq body p j h)]
  rfl

/-- The extractor, from the first occurrence of the phrase. -/
theorem extractSpec_cases (body key : Bytes) :
    (¬ (bytes "\"" ++ key ++ bytes "\":\"") <:+: body → extractSpec body key = []) ∧
    ∀ pre rest, body = pre ++ (bytes "\"" ++ key ++ bytes "\":\"") ++ rest →
      (∀ pre' rest', body = pre' ++ (bytes "\"" ++ key ++ bytes "\":\"") ++ rest' →
        pre.length ≤ pre'.length) →
      (34 ∉ rest → extractSpec body key = []) ∧
      (∀ v tail, rest = v ++ 34 :: tail → 34 ∉ v → extractSpec body key = v) := by
  unfold extractSpec
  generalize bytes "\"" ++ key ++ bytes "\":\"" = phrase
  refine ⟨?_, ?_⟩
  · intro h
    rw [(findAfter_eq_none_iff phrase body).mpr h]
  · intro pre rest hb hmin
    obtain ⟨r0, hr0⟩ := findAfter_of_occurs phrase pre rest
    rw [← hb] at hr0
    obtain ⟨pre0, hb0, hmin0⟩ := findAfter_eq_some phrase body r0 hr0
    have hlen : pre.length = pre0.length :=
      Nat.le_antisymm (hmin pre0 r0 hb0) (hmin0 pre rest hb)
    have heq : pre ++ (phrase ++ rest) = pre0 ++ (phrase ++ r0) := by
      rw [← List.append_assoc, ← List.append_assoc, ← hb, ← hb0]
    have h2 := (List.append_inj heq hlen).2
    have hrest : rest = r0 := List.append_cancel_left h2
    subst hrest
    rw [hr0]
    simp only []
    refine ⟨fun hno => by rw [if_neg hno], ?_⟩
    intro v tail hv hnv
    subst hv
    rw [if_pos (by simp)]
    have : ∀ (v tail : Bytes), 34 ∉ v →
        (v ++ 34 :: tail).takeWhile (fun b => b != 34) = v := by
      intro v
      induction v with
      | nil => intro tail _; simp [List.takeWhile]
      | cons a v ih =>
        intro tail ha
        simp only [List.mem_cons, not_or] at ha
        have hane : (a != 34) = true := by
          simp only [bne_iff_ne, ne_eq]
          exact fun h => ha.1 h.symm
        rw [List.cons_append, List.takeWhile_cons, hane]
        simp only [if_true]
        rw [ih tail ha.2]
    exact this v tail hnv

/-- C23: for every body text and key, `parseValues`, and likewise
`getJSONValueByKey`, returns the empty string if the phrase `"<key>":"` does
not occur in the body; otherwise, `rest` being what follows the first
occurrence of the phrase, the empty string if no `"` occurs in `rest`, and else
the text of `rest` before its first `"`. -/
theorem extractor_spec (body key : Bytes) :
    getJSONValueByKey body key = parseValues body key ∧
    (¬ (bytes "\"" ++ key ++ bytes "\":\"") <:+: body → parseValues body key = []) ∧
    ∀ pre rest, body = pre ++ (bytes "\"" ++ key ++ bytes "\":\"") ++ rest →
      (∀ pre' rest', body = pre' ++ (bytes "\"" ++ key ++ bytes "\":\"") ++ rest' →
        pre.length ≤ pre'.length) →
      (34 ∉ rest → parseValues body key = []) ∧
      (∀ v tail, rest = v ++ 34 :: tail → 34 ∉ v → parseValues body key = v) := by
  rw [getJSONValueByKey_eq_extractSpec, parseValues_eq_extractSpec]
  exact ⟨rfl, extractSpec_cases body key⟩

/-! ### The limit on the pending texts -/

/-- The limit holds after a call that leaves the three kinds of text alone. -/
theorem pendingWithinLimit_of_eq (ts ts' : ThingSpeakClass) (h : pendingWithinLimit ts)
    (h1 : ts'.nextWriteField = ts.nextWriteField)
    (h2 : ts'.nextWriteStatus = ts.nextWriteStatus)
    (h3 : ts'.nextWriteCreatedAt = ts.nextWriteCreatedAt) : pendingWithinLimit ts' := by
  unfold pendingWithinLimit
  rw [h1, h2, h3]
  exact h

/-- The limit holds for an empty pending update. -/
theorem pendingWithinLimit_of_pendingEmpty (ts : ThingSpeakClass) (h : pendingEmpty ts) :
    pendingWithinLimit ts := by
  obtain ⟨h1, h2, h3, _⟩ := h
  refine ⟨fun i => ?_, ?_, ?_⟩
  · rw [h1 i]; simp
  · rw [h2]; simp
  · rw [h3]; simp

/-- The limit holds after a `setField`. -/
theorem pendingWithinLimit_setField (field : Nat) (value : Bytes) (ts : ThingSpeakClass)
    (h : pendingWithinLimit ts) : pendingWithinLimit (setField field value ts).2 := by
  obtain ⟨e, hi⟩ := setField_fields field value ts
  refine ⟨fun i => ?_, ?_, ?_⟩
  · rcases hi i with k | ⟨k, kl⟩
    · rw [k]; exact h.1 i
    · rw [k]; exact kl
  · rw [e]; exact h.2.1
  · rw [e]; exact h.2.2

/-- The limit holds after a `writeField`. -/
theorem pendingWithinLimit_writeField (P : Platform) (ch field : Nat) (value : Bytes)
    (key : Option Bytes) (ts : ThingSpeakClass) (h : pendingWithinLimit ts) :
    pendingWithinLimit (writeField P ch field value key ts).2 := by
  rw [writeField_frame]
  exact h

/-- What `readStringField` leaves untouched: the pending update. -/
theorem readStringField_frame (P : Platform) (ch field : Nat) (key : Option Bytes)
    (ts : ThingSpeakClass) :
    (readStringField P ch field key ts).2.nextWriteField = ts.nextWriteField ∧
    (readStringField P ch field key ts).2.nextWriteStatus = ts.nextWriteStatus ∧
    (readStringField P ch field key ts).2.nextWriteCreatedAt = ts.nextWriteCreatedAt := by
  unfold readStringField
  split_ifs
  · exact ⟨rfl, rfl, rfl⟩
  · obtain ⟨_, _, h1, h2, h3, _⟩ := readRaw_frame P ch
      (bytes "/fields/" ++ decimal field ++ bytes "/last") key ts
    exact ⟨h1, h2, h3⟩

/-- What `readMultipleFields` leaves untouched: the pending update. -/
theorem readMultipleFields_frame (P : Platform) (ch : Nat) (key : Option Bytes)
    (ts : ThingSpeakClass) :
    (readMultipleFields P ch key ts).2.nextWriteField = ts.nextWriteField ∧
    (readMultipleFields P ch key ts).2.nextWriteStatus = ts.nextWriteStatus ∧
    (readMultipleFields P ch key ts).2.nextWriteCreatedAt = ts.nextWriteCreatedAt := by
  obtain ⟨_, _, h1, h2, h3, _⟩ := readRaw_frame P ch
    (bytes "/feeds/last.txt?status=true&location=true") key ts
  unfold readMultipleFields
  simp only []
  split_ifs
  · exact ⟨h1, h2, h3⟩
  · exact ⟨h1, h2, h3⟩

/-- What `getFieldAsString` leaves untouched: all but the status register. -/
theorem getFieldAsString_frame (field : Nat) (ts : ThingSpeakClass) :
    (getFieldAsString field ts).2 =
      { ts with lastReadStatus := (getFieldAsString field ts).2.lastReadStatus } := by
  unfold getFieldAsString
  split_ifs <;> rfl

/-- The limit on the pending texts is kept by every call. -/
theorem pendingWithinLimit_run (P : Platform) (call : Call) (ts : ThingSpeakClass)
    (h : pendingWithinLimit ts) : pendingWithinLimit (call.run P ts) := by
  cases call with
  | begin c =>
    refine ⟨fun i => ?_, ?_, ?_⟩ <;> simp [Call.run, ThingSpeakClass.begin, resetWriteFields]
  | writeField ch f v k => exact pendingWithinLimit_writeField P ch f v k ts h
  | writeFieldLong ch f v k => exact pendingWithinLimit_writeField P ch f (ltoa v) k ts h
  | writeFieldFloat ch f v k =>
    simp only [Call.run, writeFieldFloat]
    split_ifs
    · exact h
    · exact pendingWithinLimit_writeField P ch f _ k ts h
  | setField f v => exact pendingWithinLimit_setField f v ts h
  | setFieldLong f v => exact pendingWithinLimit_setField f (ltoa v) ts h
  | setFieldFloat f v =>
    simp only [Call.run, setFieldFloat]
    split_ifs
    · exact h
    · exact pendingWithinLimit_setField f _ ts h
  | setLatitude v => exact h
  | setLongitude v => exact h
  | setElevation v => exact h
  | setStatus v =>
    simp only [Call.run, setStatus]
    split_ifs with hl
    · exact h
    · exact ⟨h.1, Nat.le_of_not_gt hl, h.2.2⟩
  | setCreatedAt v =>
    simp only [Call.run, setCreatedAt]
    split_ifs with hl
    · exact h
    · exact ⟨h.1, h.2.1, Nat.le_of_not_gt hl⟩
  | writeFields ch k =>
    exact pendingWithinLimit_of_pendingEmpty _ (pendingEmpty_writeFields P ch k ts)
  | writeRaw ch m k => exact h
  | readStringField ch f k =>
    obtain ⟨h1, h2, h3⟩ := readStringField_frame P ch f k ts
    exact pendingWithinLimit_of_eq ts _ h h1 h2 h3
  | readFloatField ch f k =>
    obtain ⟨h1, h2, h3⟩ := readStringField_frame P ch f k ts
    exact pendingWithinLimit_of_eq ts _ h h1 h2 h3
  | readLongField ch f k =>
    obtain ⟨h1, h2, h3⟩ := readStringField_frame P ch f k ts
    exact pendingWithinLimit_of_eq ts _ h h1 h2 h3
  | readIntField ch f k =>
    obtain ⟨h1, h2, h3⟩ := readStringField_frame P ch f k ts
    exact pendingWithinLimit_of_eq ts _ h h1 h2 h3
  | readStatus ch k =>
    obtain ⟨_, _, h1, h2, h3, _⟩ := readRaw_frame P ch (bytes "/feeds/last.txt?status=true") k ts
    have e : (readStatus P ch k ts).2 =
        (readRaw P ch (bytes "/feeds/last.txt?status=true") k ts).2 := by
      unfold readStatus
      simp only []
      split_ifs <;> rfl
    refine pendingWithinLimit_of_eq ts _ h ?_ ?_ ?_
    · exact (congrArg ThingSpeakClass.nextWriteField e).trans h1
    · exact (congrArg ThingSpeakClass.nextWriteStatus e).trans h2
    · exact (congrArg ThingSpeakClass.nextWriteCreatedAt e).trans h3
  | readCreatedAt ch k =>
    obtain ⟨_, _, h1, h2, h3, _⟩ := readRaw_frame P ch (bytes "/feeds/last.txt") k ts
    have e : (readCreatedAt P ch k ts).2 =
        (readRaw P ch (bytes "/feeds/last.txt") k ts).2 := by
      unfold readCreatedAt
      simp only []
      split_ifs <;> rfl
    refine pendingWithinLimit_of_eq ts _ h ?_ ?_ ?_
    · exact (congrArg ThingSpeakClass.nextWriteField e).trans h1
    · exact (congrArg ThingSpeakClass.nextWriteStatus e).trans h2
    · exact (congrArg ThingSpeakClass.nextWriteCreatedAt e).trans h3
  | readRaw ch s k =>
    obtain ⟨_, _, h1, h2, h3, _⟩ := readRaw_frame P ch s k ts
    exact pendingWithinLimit_of_eq ts _ h h1 h2 h3
  | readMultipleFields ch k =>
    obtain ⟨h1, h2, h3⟩ := readMultipleFields_frame P ch k ts
    exact pendingWithinLimit_of_eq ts _ h h1 h2 h3
  | getFieldAsString f =>
    simp only [Call.run]
    rw [getFieldAsString_frame]
    exact h
  | getFieldAsFloat f =>
    simp only [Call.run, getFieldAsFloat]
    rw [getFieldAsString_frame]
    exact h
  | getFieldAsLong f =>
    simp only [Call.run, getFieldAsLong]
    rw [getFieldAsString_frame]
    exact h
  | getFieldAsInt f =>
    simp only [Call.run, getFieldAsInt, getFieldAsLong]
    rw [getFieldAsString_frame]
    exact h
  | getStatus => exact h
  | getLatitude => exact h
  | getLongitude => exact h
  | getElevation => exact h
  | getCreatedAt => exact h
  | getLastReadStatus => exact h
  | transport c => exact h

/-- The limit on the pending texts is kept by every sequence of calls. -/
theorem pendingWithinLimit_runCalls (P : Platform) (calls : List Call) :
    ∀ ts, pendingWithinLimit ts → pendingWithinLimit (runCalls P calls ts) := by
  induction calls with
  | nil => intro ts h; exact h
  | cons c rest ih =>
    intro ts h
    exact ih (c.run P ts) (pendingWithinLimit_run P c ts h)

/-- C28: in every state reached from construction by any sequence of public
calls, with any behaviour of the transport in between, each of the 8 pending
field values, the pending status and the pending created-at text is at most 255
bytes long. A `writeField` with a text, for its part, makes a call on the
transport only when the text is at most 255 bytes long, and a `setField`,
`setStatus` or `setCreatedAt` with a longer text changes nothing. So every
value `writeFields` or `writeField` escapes and sends was at most 255 bytes
long. -/
theorem pending_texts_bounded (P : Platform) (c : Client) (calls : List Call) :
    (∀ i, ((runCalls P calls (ThingSpeakClass.construct c)).nextWriteField i).length ≤ 255) ∧
    (runCalls P calls (ThingSpeakClass.construct c)).nextWriteStatus.length ≤ 255 ∧
    (runCalls P calls (ThingSpeakClass.construct c)).nextWriteCreatedAt.length ≤ 255 ∧
    (∀ ch field value key (ts : ThingSpeakClass),
      (writeField P ch field value key ts).2.client.trace ≠ ts.client.trace →
        value.length ≤ 255) ∧
    (∀ field value (ts : ThingSpeakClass), 255 < value.length →
      (setField field value ts).2 = ts ∧ (setStatus value ts).2 = ts ∧
      (setCreatedAt value ts).2 = ts) := by
  have h0 : pendingWithinLimit (ThingSpeakClass.construct c) :=
    pendingWithinLimit_of_pendingEmpty _
      ⟨fun _ => rfl, rfl, rfl, NAN_isnan, NAN_isnan, NAN_isnan⟩
  obtain ⟨h1, h2, h3⟩ := pendingWithinLimit_runCalls P calls _ h0
  refine ⟨h1, h2, h3, ?_, ?_⟩
  · intro ch field value key ts ht
    by_contra hl
    apply ht
    have hlen : value.length > FIELDLENGTH_MAX := by
      simp only [FIELDLENGTH_MAX]; omega
    unfold writeField
    split_ifs
    · rfl
    · rfl
  · intro field value ts hl
    have hlen : value.length > FIELDLENGTH_MAX := hl
    refine ⟨?_, ?_, ?_⟩
    · unfold setField
      split_ifs <;> rfl
    · unfold setStatus
      rw [if_pos hlen]
    · unfold setCreatedAt
      rw [if_pos hlen]

/-! ### Decimal digits -/

/-- The digits already produced stay behind those still to come. -/
theorem toDigitsCore_append (f : Nat) :
    ∀ (n : Nat) (ds : List Char),
      Nat.toDigitsCore 10 f n ds = Nat.toDigitsCore 10 f n [] ++ ds := by
  induction f with
  | zero => intro n ds; simp [Nat.toDigitsCore]
  | succ f ih =>
    intro n ds
    simp only [Nat.toDigitsCore]
    by_cases h : n / 10 = 0
    · simp [h]
    · simp only [h, if_false]
      rw [ih (n / 10) (Nat.digitChar (n % 10) :: ds), ih (n / 10) [Nat.digitChar (n % 10)]]
      simp

/-- Any fuel above the number gives the digits of the number. -/
theorem toDigitsCore_fuel (f : Nat) :
    ∀ n, n < f → Nat.toDigitsCore 10 f n [] = Nat.toDigits 10 n := by
  induction f using Nat.strong_induction_on with
  | _ f ih =>
    intro n hn
    cases f with
    | zero => omega
    | succ f =>
      unfold Nat.toDigits
      simp only [Nat.toDigitsCore]
      by_cases h : n / 10 = 0
      · simp [h]
      · simp only [h, if_false]
        rw [toDigitsCore_append f, toDigitsCore_append n]
        have h1 : n / 10 < f := by omega
        have h2 : n / 10 < n := by omega
        rw [ih f (by omega) (n / 10) h1, ih n hn (n / 10) h2]

/-- The character of a decimal digit. -/
theorem digitChar_toNat (d : Nat) (h : d < 10) : (Nat.digitChar d).toNat = 48 + d := by
  interval_cases d <;> rfl

/-- The digit characters of a number: one below 10, and otherwise those of the
tenth followed by the last. -/
theorem toDigits_step (n : Nat) :
    Nat.toDigits 10 n =
      if n < 10 then [Nat.digitChar n]
      else Nat.toDigits 10 (n / 10) ++ [Nat.digitChar (n % 10)] := by
  have e : Nat.toDigits 10 n =
      if n / 10 = 0 then [Nat.digitChar (n % 10)]
      else Nat.toDigitsCore 10 n (n / 10) [Nat.digitChar (n % 10)] := by
    unfold Nat.toDigits
    rw [Nat.toDigitsCore]
  rw [e]
  by_cases h : n < 10
  · have h0 : n / 10 = 0 := by omega
    have hm : n % 10 = n := by omega
    rw [if_pos h0, if_pos h, hm]
  · have h0 : ¬ n / 10 = 0 := by omega
    rw [if_neg h0, if_neg h, toDigitsCore_append, toDigitsCore_fuel n (n / 10) (by omega)]

/-- The decimal digits of a number: one digit below 10, and otherwise the
digits of the tenth followed by the last digit. -/
theorem decimal_step (n : Nat) :
    decimal n = if n < 10 then [48 + n] else decimal (n / 10) ++ [48 + n % 10] := by
  unfold decimal
  rw [toDigits_step n]
  by_cases h : n < 10
  · rw [if_pos h, if_pos h]
    simp [digitChar_toNat n h]
  · rw [if_neg h, if_neg h]
    simp [digitChar_toNat (n % 10) (by omega)]

/-- Appending a digit to the digits of a number other than 0. -/
theorem decimal_snoc (m d : Nat) (hm : m ≠ 0) (hd : d < 10) :
    decimal (m * 10 + d) = decimal m ++ [48 + d] := by
  rw [decimal_step (m * 10 + d), if_neg (by omega)]
  have h1 : (m * 10 + d) / 10 = m := by omega
  have h2 : (m * 10 + d) % 10 = d := by omega
  rw [h1, h2]

/-- The digits of a number are digits, and there is one at least. -/
theorem decimal_digits (n : Nat) : (decimal n).all isdigit = true ∧ decimal n ≠ [] := by
  induction n using Nat.strong_induction_on with
  | _ n ih =>
    rw [decimal_step]
    by_cases h : n < 10
    · rw [if_pos h]
      refine ⟨?_, by simp⟩
      simp only [List.all_cons, List.all_nil, Bool.and_true, isdigit, Bool.and_eq_true,
        decide_eq_true_eq]
      omega
    · rw [if_neg h]
      refine ⟨?_, by simp⟩
      rw [List.all_append, (ih (n / 10) (by omega)).1]
      simp only [List.all_cons, List.all_nil, Bool.and_true, isdigit, Bool.true_and,
        Bool.and_eq_true, decide_eq_true_eq]
      omega

/-- A number below `10 ^ (k + 1)` has at most `k + 1` digits. -/
theorem decimal_length (k : Nat) : ∀ n, n < 10 ^ (k + 1) → (decimal n).length ≤ k + 1 := by
  induction k with
  | zero =>
    intro n hn
    rw [decimal_step, if_pos (by omega)]
    simp
  | succ k ih =>
    intro n hn
    rw [decimal_step]
    by_cases h : n < 10
    · rw [if_pos h]; simp
    · rw [if_neg h, List.length_append]
      have : n / 10 < 10 ^ (k + 1) := by
        rw [Nat.div_lt_iff_lt_mul (by decide)]
        rw [Nat.pow_succ] at hn
        exact hn
      have := ih (n / 10) this
      simp only [List.length_singleton]
      omega

/-- The value of a sequence of digits, one more digit read. -/
theorem digitsValue_snoc (ds : Bytes) (c : Nat) :
    digitsValue (ds ++ [c]) = digitsValue ds * 10 + (c - 48) := by
  simp [digitsValue, List.foldl_append]

/-- The digits of a number denote the number. -/
theorem digitsValue_decimal (n : Nat) : digitsValue (decimal n) = n := by
  induction n using Nat.strong_induction_on with
  | _ n ih =>
    rw [decimal_step]
    by_cases h : n < 10
    · rw [if_pos h]
      simp [digitsValue]
    · rw [if_neg h, digitsValue_snoc, ih (n / 10) (by omega)]
      omega

/-- On digits, `atol` reads the value of all of them. -/
theorem atolDigits_eq (ds : Bytes) :
    ∀ acc, ds.all isdigit = true →
      atolDigits acc ds = ds.foldl (fun a c => a * 10 + (c - 48)) acc := by
  induction ds with
  | nil => intro acc _; rfl
  | cons c rest ih =>
    intro acc h
    simp only [List.all_cons, Bool.and_eq_true] at h
    rw [atolDigits, if_pos h.1, ih _ h.2]
    rfl

/-- On digits, `atol` reads the value they denote. -/
theorem atolDigits_digitsValue (ds : Bytes) (h : ds.all isdigit = true) :
    atolDigits 0 ds = digitsValue ds := atolDigits_eq ds 0 h

/-- The digits of the value read after a number other than 0: the digits of
that number, then the digits read. -/
theorem decimal_atolDigits (ds : Bytes) :
    ∀ acc, acc ≠ 0 → ds.all isdigit = true →
      decimal (atolDigits acc ds) = decimal acc ++ ds := by
  induction ds with
  | nil => intro acc _ _; simp [atolDigits]
  | cons c rest ih =>
    intro acc hacc h
    simp only [List.all_cons, Bool.and_eq_true] at h
    rw [atolDigits, if_pos h.1, ih _ (by omega) h.2]
    have hc : 48 ≤ c ∧ c ≤ 57 := by
      have := h.1
      simp only [isdigit, Bool.and_eq_true, decide_eq_true_eq] at this
      exact this
    rw [decimal_snoc acc (c - 48) hacc (by omega)]
    have : 48 + (c - 48) = c := by omega
    rw [this]
    simp

/-- The digits of the value of a sequence of digits: the sequence without its
leading zeros. -/
theorem decimal_digitsValue (ds : Bytes) :
    ds.all isdigit = true → ds ≠ [] → decimal (atolDigits 0 ds) = stripZeros ds := by
  induction ds with
  | nil => intro _ h; exact absurd rfl h
  | cons c rest ih =>
    intro h _
    simp only [List.all_cons, Bool.and_eq_true] at h
    have hc : 48 ≤ c ∧ c ≤ 57 := by
      have := h.1
      simp only [isdigit, Bool.and_eq_true, decide_eq_true_eq] at this
      exact this
    cases rest with
    | nil =>
      rw [atolDigits, if_pos h.1]
      simp only [atolDigits, stripZeros]
      rw [decimal_step, if_pos (by omega)]
      congr 1
      omega
    | cons d rest =>
      rw [atolDigits, if_pos h.1, stripZeros]
      by_cases h48 : c = 48
      · subst h48
        simp only [if_true]
        exact ih h.2 (by simp)
      · rw [if_neg h48]
        rw [decimal_atolDigits (d :: rest) _ (by omega) h.2]
        have e : 0 * 10 + (c - 48) = c - 48 := by omega
        rw [e, decimal_step, if_pos (by omega)]
        have : 48 + (c - 48) = c := by omega
        rw [this]
        rfl

/-- The digits of a number have no leading zero to remove. -/
theorem stripZeros_decimal (n : Nat) : stripZeros (decimal n) = decimal n := by
  obtain ⟨h1, h2⟩ := decimal_digits n
  rw [← decimal_digitsValue (decimal n) h1 h2, atolDigits_digitsValue _ h1,
    digitsValue_decimal]

/-- A sequence of digits is a valid decimal string, denoting its value, whose
canonical form is the sequence without its leading zeros; and `atol` reads its
value, brought into the range of `long`. -/
theorem digits_valid (ds : Bytes) (h : ds.all isdigit = true) (hne : ds ≠ []) :
    validDecimal ds = true ∧ denotes ds = (digitsValue ds : Int) ∧
    canonicalized ds = stripZeros ds ∧ atol ds = clampLong (digitsValue ds : Int) := by
  cases ds with
  | nil => exact absurd rfl hne
  | cons c rest =>
    have hall := h
    simp only [List.all_cons, Bool.and_eq_true] at h
    have hc : 48 ≤ c ∧ c ≤ 57 := by
      have := h.1
      simp only [isdigit, Bool.and_eq_true, decide_eq_true_eq] at this
      exact this
    have h45 : c ≠ 45 := by omega
    have hsp : isspace c = false := by
      simp only [isspace, Bool.or_eq_false_iff, beq_eq_false_iff_ne, ne_eq,
        Bool.and_eq_false_iff, decide_eq_false_iff_not]
      omega
    refine ⟨?_, ?_, ?_, ?_⟩
    · unfold validDecimal
      split
      · rename_i ds' heq
        simp only [List.cons.injEq] at heq
        exact absurd heq.1 h45
      · simp [h.1, h.2]
    · unfold denotes
      split
      · rename_i ds' heq
        simp only [List.cons.injEq] at heq
        exact absurd heq.1 h45
      · rfl
    · unfold canonicalized
      split
      · rename_i ds' heq
        simp only [List.cons.injEq] at heq
        exact absurd heq.1 h45
      · rfl
    · have hd : (c :: rest).dropWhile isspace = c :: rest := by
        simp [List.dropWhile_cons, hsp]
      unfold atol
      simp only [hd, List.head?_cons, Option.some.injEq]
      rw [if_neg h45, if_neg (show ¬ c = 43 by omega), atolDigits_digitsValue _ hall]

/-- A minus sign before a sequence of digits: a valid decimal string, denoting
the opposite of their value; and `atol` reads that value, brought into the range
of `long`. -/
theorem minus_digits_valid (ds : Bytes) (h : ds.all isdigit = true) (hne : ds ≠ []) :
    validDecimal (45 :: ds) = true ∧ denotes (45 :: ds) = -(digitsValue ds : Int) ∧
    canonicalized (45 :: ds) =
      (if stripZeros ds = [48] then [48] else 45 :: stripZeros ds) ∧
    atol (45 :: ds) = clampLong (-(digitsValue ds : Int)) := by
  refine ⟨?_, rfl, rfl, ?_⟩
  · cases ds with
    | nil => exact absurd rfl hne
    | cons c rest => simpa [validDecimal] using h
  · have hd : (45 :: ds).dropWhile isspace = 45 :: ds := by
      have hsp : isspace 45 = false := by decide
      simp [List.dropWhile_cons, hsp]
    unfold atol
    simp only [hd, List.head?_cons, List.tail_cons, if_true]
    rw [atolDigits_digitsValue _ h]

/-- A valid decimal string is a sequence of digits, with or without a minus
sign before it. -/
theorem validDecimal_cases (s : Bytes) (h : validDecimal s = true) :
    (s.all isdigit = true ∧ s ≠ []) ∨
    ∃ ds, s = 45 :: ds ∧ ds.all isdigit = true ∧ ds ≠ [] := by
  unfold validDecimal at h
  split at h
  · rename_i ds
    right
    simp only [Bool.and_eq_true, Bool.not_eq_true', List.isEmpty_eq_false] at h
    refine ⟨ds, rfl, h.2, ?_⟩
    intro hn
    rw [hn] at h
    simp at h
  · left
    simp only [Bool.and_eq_true, Bool.not_eq_true'] at h
    refine ⟨h.2, ?_⟩
    intro hn
    rw [hn] at h
    simp at h

/-- The text `ltoa` writes for a value in the range of `long`: a valid decimal
string in canonical form that denotes the value, of at most 11 characters. -/
theorem ltoa_canonical (v : Int) (hv : -2147483648 ≤ v ∧ v ≤ 2147483647) :
    validDecimal (ltoa v) = true ∧ denotes (ltoa v) = v ∧
    canonicalized (ltoa v) = ltoa v ∧ (ltoa v).length ≤ 11 := by
  obtain ⟨d1, d2⟩ := decimal_digits v.natAbs
  have hlen : (decimal v.natAbs).length ≤ 10 :=
    decimal_length 9 v.natAbs (by norm_num; omega)
  unfold ltoa
  by_cases hneg : v < 0
  · rw [if_pos hneg]
    obtain ⟨m1, m2, m3, _⟩ := minus_digits_valid (decimal v.natAbs) d1 d2
    refine ⟨m1, ?_, ?_, ?_⟩
    · rw [m2, digitsValue_decimal]
      omega
    · rw [m3, stripZeros_decimal]
      have : decimal v.natAbs ≠ [48] := by
        intro hc
        have := digitsValue_decimal v.natAbs
        rw [hc] at this
        simp [digitsValue] at this
        omega
      rw [if_neg this]
    · simp only [List.length_cons]
      omega
  · rw [if_neg hneg]
    obtain ⟨m1, m2, m3, _⟩ := digits_valid (decimal v.natAbs) d1 d2
    refine ⟨m1, ?_, ?_, by omega⟩
    · rw [m2, digitsValue_decimal]
      omega
    · rw [m3, stripZeros_decimal]

/-- Decoding with `toInt`, then encoding with `ltoa`: the canonical form of a
valid decimal string that denotes a value in the range of `long`, and otherwise
the text of the nearest end of that range. -/
theorem ltoa_toInt (s : Bytes) (hs : validDecimal s = true) :
    toInt s = clampLong (denotes s) ∧
    (-2147483648 ≤ denotes s ∧ denotes s ≤ 2147483647 →
      toInt s = denotes s ∧ ltoa (toInt s) = canonicalized s) ∧
    (2147483647 < denotes s → ltoa (toInt s) = bytes "2147483647") ∧
    (denotes s < -2147483648 → ltoa (toInt s) = bytes "-2147483648") := by
  have hclamp : toInt s = clampLong (denotes s) := by
    unfold toInt
    rcases validDecimal_cases s hs with ⟨h1, h2⟩ | ⟨ds, rfl, h1, h2⟩
    · obtain ⟨_, m2, _, m4⟩ := digits_valid s h1 h2
      rw [m4, m2]
    · obtain ⟨_, m2, _, m4⟩ := minus_digits_valid ds h1 h2
      rw [m4, m2]
  refine ⟨hclamp, ?_, ?_, ?_⟩
  · intro hr
    have hv : toInt s = denotes s := by
      rw [hclamp]
      unfold clampLong LONG_MAX LONG_MIN
      rw [if_neg (by omega), if_neg (by omega)]
    refine ⟨hv, ?_⟩
    rw [hv]
    rcases validDecimal_cases s hs with ⟨h1, h2⟩ | ⟨ds, rfl, h1, h2⟩
    · obtain ⟨_, m2, m3, _⟩ := digits_valid s h1 h2
      rw [m3, m2, ← decimal_digitsValue s h1 h2, atolDigits_digitsValue s h1]
      unfold ltoa
      rw [if_neg (by omega)]
      simp
    · obtain ⟨_, m2, m3, _⟩ := minus_digits_valid ds h1 h2
      rw [m3, m2, ← decimal_digitsValue ds h1 h2, atolDigits_digitsValue ds h1]
      unfold ltoa
      by_cases h0 : digitsValue ds = 0
      · rw [h0]
        decide
      · have hne : decimal (digitsValue ds) ≠ [48] := by
          intro hc
          have := digitsValue_decimal (digitsValue ds)
          have e : digitsValue [48] = 0 := rfl
          rw [hc, e] at this
          exact h0 this.symm
        rw [if_pos (show -(digitsValue ds : Int) < 0 by omega), if_neg hne]
        simp
  · intro hr
    rw [hclamp]
    unfold clampLong LONG_MAX
    rw [if_pos (by omega)]
    decide
  · intro hr
    rw [hclamp]
    unfold clampLong LONG_MAX LONG_MIN
    rw [if_neg (by omega), if_pos (by omega)]
    decide

/-- A `setField` with a text of at most 255 bytes and an index in [1,8] returns
200 and stores the text in the field of that index, and in no other. -/
theorem setField_stores (field : Nat) (value : Bytes) (ts : ThingSpeakClass)
    (hf : 1 ≤ field ∧ field ≤ 8) (hl : value.length ≤ 255) :
    (setField field value ts).1 = 200 ∧
    ∀ i : Fin 8, (setField field value ts).2.nextWriteField i =
      if i.val + 1 = field then value else ts.nextWriteField i := by
  have hg : ¬ (field < FIELDNUM_MIN ∨ field > FIELDNUM_MAX) := by
    simp only [FIELDNUM_MIN, FIELDNUM_MAX]
    omega
  have hlen : ¬ value.length > FIELDLENGTH_MAX := by
    simp only [FIELDLENGTH_MAX]
    omega
  unfold setField
  rw [dif_neg hg, if_neg hlen]
  refine ⟨rfl, fun i => ?_⟩
  simp only []
  by_cases hi : i.val + 1 = field
  · rw [if_pos hi, if_pos (Fin.ext (by simp only []; omega))]
  · rw [if_neg hi, if_neg (fun h => hi (by rw [h]; simp only []; omega))]

/-- C29: for every signed 32-bit integer `v` and every field index in [1,8],
`setField(field, v)` returns 200 (so it is not rejected as OutOfRange) and
stores as the pending field the text `ltoa` writes for `v`, leaving the other
fields as they were; that text is the canonical base-10 text of `v` (a valid
decimal string that denotes `v`, without leading zeros, with a minus sign
exactly for a negative value), and it is at most 11 characters long, so that
with its terminator it fits the 15 bytes of the conversion buffer. -/
theorem setField_long_canonical (field : Nat) (v : Int) (ts : ThingSpeakClass)
    (hf : 1 ≤ field ∧ field ≤ 8) (hv : -2147483648 ≤ v ∧ v ≤ 2147483647) :
    (setFieldLong field v ts).1 = 200 ∧
    (setFieldLong field v ts).1 ≠ TS_ERR_OUT_OF_RANGE ∧
    (∀ i : Fin 8, (setFieldLong field v ts).2.nextWriteField i =
      if i.val + 1 = field then ltoa v else ts.nextWriteField i) ∧
    validDecimal (ltoa v) = true ∧ denotes (ltoa v) = v ∧
    canonicalized (ltoa v) = ltoa v ∧
    ((ltoa v).head? = some 45 ↔ v < 0) ∧
    (ltoa v).length ≤ 11 ∧ (ltoa v).length + 1 ≤ 15 := by
  obtain ⟨c1, c2, c3, c4⟩ := ltoa_canonical v hv
  obtain ⟨s1, s2⟩ := setField_stores field (ltoa v) ts hf (by omega)
  have hsign : (ltoa v).head? = some 45 ↔ v < 0 := by
    unfold ltoa
    by_cases hneg : v < 0
    · rw [if_pos hneg]
      simp [hneg]
    · rw [if_neg hneg]
      obtain ⟨d1, d2⟩ := decimal_digits v.natAbs
      cases hd : decimal v.natAbs with
      | nil => exact absurd hd d2
      | cons c rest =>
        rw [hd] at d1
        simp only [List.all_cons, Bool.and_eq_true, isdigit, decide_eq_true_eq] at d1
        simp only [List.head?_cons, Option.some.injEq, hneg, iff_false]
        omega
  refine ⟨s1, ?_, s2, c1, c2, c3, hsign, c4, by omega⟩
  have e : (setFieldLong field v ts).1 = 200 := s1
  rw [e]
  decide

/-- Witness of `setField_long_canonical`: the least 32-bit integer, in field 3. -/
theorem setField_long_canonical_witness :
    (setFieldLong 3 (-2147483648) (ThingSpeakClass.construct offline)).1 = 200 ∧
    (setFieldLong 3 (-2147483648) (ThingSpeakClass.construct offline)).2.nextWriteField 2
      = bytes "-2147483648" ∧
    (bytes "-2147483648").length = 11 := by
  have h := setField_long_canonical 3 (-2147483648) (ThingSpeakClass.construct offline)
    (by decide) (by decide)
  refine ⟨h.1, ?_, rfl⟩
  rw [h.2.2.1 2]
  decide

/-- C30 (amended): for every valid decimal string `s` (an optional minus sign,
then one digit or more) that denotes an integer in the 32-bit range of `long`,
decoding with `toInt` (as `readLongField` and `getFieldAsLong` do) gives that
integer, and encoding the result with `ltoa` (as `setField` and `writeField` do
for integers) gives the canonical form of `s`: a cached field holding `s`, read
with `getFieldAsLong` and set again with `setField`, becomes the canonical form
of `s`. When `s` denotes more than 2147483647 the result is instead the text
`2147483647`, and when it denotes less than -2147483648 the text
`-2147483648`. -/
theorem integer_round_trip (s : Bytes) (hs : validDecimal s = true) :
    (-2147483648 ≤ denotes s ∧ denotes s ≤ 2147483647 →
      toInt s = denotes s ∧ ltoa (toInt s) = canonicalized s ∧
      ∀ (i : Fin 8) (ts : ThingSpeakClass), ts.lastFeed.nextReadField i = s →
        (getFieldAsLong (i.val + 1) ts).1 = denotes s ∧
        (setFieldLong (i.val + 1) (getFieldAsLong (i.val + 1) ts).1 ts).1 = 200 ∧
        (setFieldLong (i.val + 1) (getFieldAsLong (i.val + 1) ts).1 ts).2.nextWriteField i
          = canonicalized s) ∧
    (2147483647 < denotes s → ltoa (toInt s) = bytes "2147483647") ∧
    (denotes s < -2147483648 → ltoa (toInt s) = bytes "-2147483648") := by
  obtain ⟨_, r1, r2, r3⟩ := ltoa_toInt s hs
  refine ⟨?_, r2, r3⟩
  intro hr
  obtain ⟨e1, e2⟩ := r1 hr
  refine ⟨e1, e2, ?_⟩
  intro i ts hc
  have hg : ¬ (i.val + 1 < FIELDNUM_MIN ∨ i.val + 1 > FIELDNUM_MAX) := by
    have := i.isLt
    simp only [FIELDNUM_MIN, FIELDNUM_MAX]
    omega
  have hget : (getFieldAsLong (i.val + 1) ts).1 = toInt s := by
    unfold getFieldAsLong getFieldAsString
    rw [dif_neg hg]
    simp only []
    rw [← hc]
    rfl
  have hv : -2147483648 ≤ toInt s ∧ toInt s ≤ 2147483647 := by
    rw [e1]; exact hr
  obtain ⟨_, _, _, c4⟩ := ltoa_canonical (toInt s) hv
  have hi := i.isLt
  obtain ⟨s1, s2⟩ := setField_stores (i.val + 1) (ltoa (toInt s)) ts (by omega) (by omega)
  rw [hget]
  refine ⟨e1, s1, ?_⟩
  have := s2 i
  rw [if_pos rfl] at this
  exact this.trans e2

/-- Witness of `integer_round_trip`: the string `-007`, whose canonical form is
`-7`. -/
theorem integer_round_trip_witness :
    validDecimal (bytes "-007") = true ∧ denotes (bytes "-007") = -7 ∧
    ltoa (toInt (bytes "-007")) = bytes "-7" ∧
    (setFieldLong 1 (getFieldAsLong 1 (cachedField (bytes "-007"))).1
      (cachedField (bytes "-007"))).2.nextWriteField 0 = bytes "-7" := by
  have h := (integer_round_trip (bytes "-007") (by decide)).1 (by decide)
  refine ⟨by decide, by decide, h.2.1.trans (by decide), ?_⟩
  exact ((h.2.2 0 (cachedField (bytes "-007")) rfl).2.2).trans (by decide)

/-- C30 (as stated, refuted): `2147483648` is a valid decimal string, already in
canonical form, and decoding it gives 2147483647, the largest `long`, so that
encoding the result gives `2147483647`: a cached field holding `2147483648`,
read with `getFieldAsLong` and set again with `setField`, becomes
`2147483647`. -/
theorem integer_round_trip_counterexample :
    validDecimal (bytes "2147483648") = true ∧
    canonicalized (bytes "2147483648") = bytes "2147483648" ∧
    toInt (bytes "2147483648") = 2147483647 ∧
    ltoa (toInt (bytes "2147483648")) = bytes "2147483647" ∧
    ltoa (toInt (bytes "2147483648")) ≠ canonicalized (bytes "2147483648") ∧
    (getFieldAsLong 1 (cachedField (bytes "2147483648"))).1 = 2147483647 ∧
    (setFieldLong 1 (getFieldAsLong 1 (cachedField (bytes "2147483648"))).1
      (cachedField (bytes "2147483648"))).2.nextWriteField 0 = bytes "2147483647" := by
  refine ⟨by decide, by decide, by decide, by decide, by decide, by decide, by decide⟩

/-- C40: the two extractors agree: for every text and every key,
`getJSONValueByKey` (cut the text at the closing quote, then take what follows
the phrase) returns the same string as `parseValues` (take the text between the
two positions); so do they when the value is empty, when the closing quote is
missing and when the key is absent, where both return the empty string. -/
theorem extractors_agree (text key : Bytes) :
    getJSONValueByKey text key = parseValues text key ∧
    getJSONValueByKey (bytes "\"a\":\"\",\"b\":\"x\"") (bytes "a") = [] ∧
    parseValues (bytes "\"a\":\"\",\"b\":\"x\"") (bytes "a") = [] ∧
    getJSONValueByKey (bytes "\"a\":\"xyz") (bytes "a") = [] ∧
    parseValues (bytes "\"a\":\"xyz") (bytes "a") = [] ∧
    getJSONValueByKey (bytes "\"a\":\"xyz\"") (bytes "b") = [] ∧
    parseValues (bytes "\"a\":\"xyz\"") (bytes "b") = [] ∧
    getJSONValueByKey (bytes "\"a\":\"xyz\"") (bytes "a") = bytes "xyz" ∧
    parseValues (bytes "\"a\":\"xyz\"") (bytes "a") = bytes "xyz" := by
  refine ⟨?_, by decide, by decide, by decide, by decide, by decide, by decide, by decide,
    by decide⟩
  rw [getJSONValueByKey_eq_extractSpec, parseValues_eq_extractSpec]

/-- C36: `getFieldAsString` with an index in [1,8] sets the status register to
200 whatever it held: after a failed `readMultipleFields` (it returned a code
other than 200, the register holds that code and the cache is the one from
before), `getFieldAsString` returns the cached value from before the read and
`getLastReadStatus` then returns 200, not the failure code. -/
theorem getter_resets_status (P : Platform) (ch : Nat) (key : Option Bytes) (i : Fin 8)
    (ts : ThingSpeakClass) (h : (readMultipleFields P ch key ts).1 ≠ 200) :
    getLastReadStatus (readMultipleFields P ch key ts).2 = (readMultipleFields P ch key ts).1 ∧
    (getFieldAsString (i.val + 1) (readMultipleFields P ch key ts).2).1 =
      ts.lastFeed.nextReadField i ∧
    getLastReadStatus (getFieldAsString (i.val + 1) (readMultipleFields P ch key ts).2).2
      = 200 ∧
    getLastReadStatus (getFieldAsString (i.val + 1) (readMultipleFields P ch key ts).2).2
      ≠ (readMultipleFields P ch key ts).1 ∧
    ∀ ts' : ThingSpeakClass, getLastReadStatus (getFieldAsString (i.val + 1) ts').2 = 200 := by
  have hall : ∀ ts' : ThingSpeakClass,
      (getFieldAsString (i.val + 1) ts').1 = ts'.lastFeed.nextReadField i ∧
      getLastReadStatus (getFieldAsString (i.val + 1) ts').2 = 200 := by
    intro ts'
    have hg : ¬ (i.val + 1 < FIELDNUM_MIN ∨ i.val + 1 > FIELDNUM_MAX) := by
      have := i.isLt
      simp only [FIELDNUM_MIN, FIELDNUM_MAX]
      omega
    unfold getFieldAsString
    rw [dif_neg hg]
    exact ⟨rfl, rfl⟩
  have hs : ¬ (readRaw P ch (bytes "/feeds/last.txt?status=true&location=true") key
      ts).2.lastReadStatus = 200 := by
    intro hs
    exact h ((readMultipleFields_cases P ch key ts).1 hs).1
  obtain ⟨h1, h2, h3⟩ := (readMultipleFields_cases P ch key ts).2 hs
  refine ⟨by rw [h1]; exact h2, ?_, (hall _).2, ?_, fun ts' => (hall ts').2⟩
  · rw [(hall _).1, h3]
  · rw [(hall _).2]
    exact fun e => h e.symm

set_option maxRecDepth 100000 in
/-- Witness of `getter_resets_status`: the read times out (-304) on a cache that
holds `old`, and `getFieldAsString(1)` returns `old` with the register at 200. -/
theorem getter_resets_status_witness :
    (readMultipleFields photon 12 none (staleCache
      (delayed (bytes "HTTP/1.1 200 OK\r\nA: b\r\n\r\nx") 5001 0))).1 = -304 ∧
    (getFieldAsString 1 (readMultipleFields photon 12 none (staleCache
      (delayed (bytes "HTTP/1.1 200 OK\r\nA: b\r\n\r\nx") 5001 0))).2).1 = bytes "old" ∧
    getLastReadStatus (getFieldAsString 1 (readMultipleFields photon 12 none (staleCache
      (delayed (bytes "HTTP/1.1 200 OK\r\nA: b\r\n\r\nx") 5001 0))).2).2 = 200 := by
  have h := getter_resets_status photon 12 none 0 (staleCache
      (delayed (bytes "HTTP/1.1 200 OK\r\nA: b\r\n\r\nx") 5001 0)) (by decide)
  exact ⟨by decide, h.2.1, h.2.2.1⟩

/-! ### Clearing a component, and the empty credential -/

/-- A `print` of a non-empty text on a transport that accepts every write. -/
theorem print_accepting (s : Bytes) (c : Client) (hacc : ∀ b ∈ c.writeOk, b = true) :
    (c.print s).1 = s.length ∧ (c.print s).2.trace = c.trace ++ [Op.print s s.length] ∧
    (∀ b ∈ (c.print s).2.writeOk, b = true) := by
  have hh : c.writeOk.headD true = true := by
    cases hw : c.writeOk with
    | nil => rfl
    | cons b rest =>
      rw [hw] at hacc
      simpa using hacc b (by simp)
  unfold Client.print
  simp only [hh, if_true]
  refine ⟨trivial, trivial, ?_⟩
  intro b hb
  exact hacc b (List.mem_of_mem_tail hb)

/-- A sequence of non-empty writes on a transport that accepts every write is
written in full. -/
theorem printAll_accepting (l : List Bytes) :
    ∀ c : Client, (∀ b ∈ c.writeOk, b = true) → (∀ s ∈ l, s ≠ []) →
      (printAll l c).1 = true ∧
      (printAll l c).2.trace = c.trace ++ l.map (fun s => Op.print s s.length) ∧
      (∀ b ∈ (printAll l c).2.writeOk, b = true) := by
  induction l with
  | nil =>
    intro c hacc _
    rw [printAll_nil]
    exact ⟨rfl, by simp, hacc⟩
  | cons s l ih =>
    intro c hacc hne
    obtain ⟨p1, p2, p3⟩ := print_accepting s c hacc
    have hs : s ≠ [] := hne s (by simp)
    have h0 : ¬ (c.print s).1 = 0 := by
      rw [p1]
      exact fun h => hs (List.length_eq_zero.mp h)
    rw [printAll_cons, if_neg h0]
    obtain ⟨i1, i2, i3⟩ := ih (c.print s).2 p3 (fun t ht => hne t (by simp [ht]))
    refine ⟨i1, ?_, i3⟩
    rw [i2, p2]
    simp

/-- A sequence of writes with an empty text in it, on a transport that accepts
every write: the texts before the empty one are written, the empty one writes
nothing and ends the sequence. -/
theorem printAll_empty_text (pre post : List Bytes) (c : Client)
    (hacc : ∀ b ∈ c.writeOk, b = true) (hne : ∀ s ∈ pre, s ≠ []) :
    (printAll (pre ++ [] :: post) c).1 = false ∧
    (printAll (pre ++ [] :: post) c).2.trace =
      c.trace ++ pre.map (fun s => Op.print s s.length) ++ [Op.print [] 0] := by
  obtain ⟨i1, i2, i3⟩ := printAll_accepting pre c hacc hne
  rw [printAll_append, if_pos i1, printAll_cons]
  have h0 : ((printAll pre c).2.print []).1 = 0 :=
    (print_eq_zero_iff [] _).mpr (Or.inr rfl)
  rw [if_pos h0]
  refine ⟨rfl, ?_⟩
  have ht : ∀ x : Client, (x.print []).2.trace =
      x.trace ++ [Op.print [] (if x.writeOk.headD true then ([] : Bytes).length else 0)] :=
    fun _ => rfl
  simp only []
  rw [ht, i2]
  simp

/-- The user agent text is not empty. -/
theorem TS_USER_AGENT_ne_nil (P : Platform) : TS_USER_AGENT P ≠ [] := by
  unfold TS_USER_AGENT
  simp [bytes]

/-- C37: `print` returning the number of bytes written, a credential supplied as
the empty string makes every exchange fail although the transport accepts the
connection and every write: `writeRaw` returns UnexpectedFailure (-302),
`readRaw` returns the empty string with the status register at -302, and the
calls made are `connect`, the writes up to `X-THINGSPEAKAPIKEY: `, the write
of the empty credential, which reports 0 bytes, and `stop`; neither the rest of
the header, nor the request body, nor the terminating blank line is written. -/
theorem empty_credential_fails (P : Platform) (ch : Nat) (q suffix : Bytes)
    (ts : ThingSpeakClass) (hconn : ts.client.connectOk = true)
    (hacc : ∀ b ∈ ts.client.writeOk, b = true) :
    (writeRaw P ch q (some []) ts).1 = -302 ∧
    (writeRaw P ch q (some []) ts).2.client.trace =
      ts.client.trace ++ (Op.connect (bytes "api.thingspeak.com") ts.port true ::
        ([bytes "POST /update HTTP/1.1\r\n", bytes "Host: api.thingspeak.com\r\n",
          bytes "Connection: close\r\n", bytes "User-Agent: ", TS_USER_AGENT P, bytes "\r\n",
          bytes "X-THINGSPEAKAPIKEY: "].map (fun s => Op.print s s.length) ++
        [Op.print [] 0, Op.stop])) ∧
    (readRaw P ch suffix (some []) ts).1 = [] ∧
    getLastReadStatus (readRaw P ch suffix (some []) ts).2 = -302 ∧
    (readRaw P ch suffix (some []) ts).2.client.trace =
      ts.client.trace ++ (Op.connect (bytes "api.thingspeak.com") ts.port true ::
        ([bytes "GET ", bytes "/channels/" ++ decimal ch ++ suffix, bytes " HTTP/1.1\r\n",
          bytes "Host: api.thingspeak.com\r\n", bytes "Connection: close\r\n",
          bytes "User-Agent: ", TS_USER_AGENT P, bytes "\r\n",
          bytes "X-THINGSPEAKAPIKEY: "].map (fun s => Op.print s s.length) ++
        [Op.print [] 0, Op.stop])) := by
  have hua := TS_USER_AGENT_ne_nil P
  have hst : ∀ x : Client, x.stop.trace = x.trace ++ [Op.stop] := fun _ => rfl
  have hc : (ts.client.connect (bytes "api.thingspeak.com") ts.port).2.trace =
      ts.client.trace ++ [Op.connect (bytes "api.thingspeak.com") ts.port true] := by
    unfold Client.connect
    rw [hconn]
  have hcacc : ∀ b ∈ (ts.client.connect (bytes "api.thingspeak.com") ts.port).2.writeOk,
      b = true := hacc
  have hpost : postRequest P q (some []) =
      [bytes "POST /update HTTP/1.1\r\n", bytes "Host: api.thingspeak.com\r\n",
        bytes "Connection: close\r\n", bytes "User-Agent: ", TS_USER_AGENT P, bytes "\r\n",
        bytes "X-THINGSPEAKAPIKEY: "] ++ [] ::
      [bytes "\r\n", bytes "Content-Type: application/x-www-form-urlencoded\r\n",
        bytes "Content-Length: ", decimal (q ++ bytes "&headers=false").length,
        bytes "\r\n\r\n", q ++ bytes "&headers=false"] := rfl
  have hget : getRequest P ch suffix (some []) =
      [bytes "GET ", bytes "/channels/" ++ decimal ch ++ suffix, bytes " HTTP/1.1\r\n",
        bytes "Host: api.thingspeak.com\r\n", bytes "Connection: close\r\n",
        bytes "User-Agent: ", TS_USER_AGENT P, bytes "\r\n", bytes "X-THINGSPEAKAPIKEY: "] ++
      [] :: [bytes "\r\n", bytes "\r\n"] := rfl
  have hw := printAll_empty_text
    [bytes "POST /update HTTP/1.1\r\n", bytes "Host: api.thingspeak.com\r\n",
      bytes "Connection: close\r\n", bytes "User-Agent: ", TS_USER_AGENT P, bytes "\r\n",
      bytes "X-THINGSPEAKAPIKEY: "]
    [bytes "\r\n", bytes "Content-Type: application/x-www-form-urlencoded\r\n",
      bytes "Content-Length: ", decimal (q ++ bytes "&headers=false").length,
      bytes "\r\n\r\n", q ++ bytes "&headers=false"]
    (ts.client.connect (bytes "api.thingspeak.com") ts.port).2 hcacc (by
      intro s hs
      simp only [List.mem_cons, List.mem_singleton, List.not_mem_nil, or_false] at hs
      rcases hs with h | h | h | h | h | h | h <;> subst h <;>
        first | exact hua | (simp [bytes]))
  have hr := printAll_empty_text
    [bytes "GET ", bytes "/channels/" ++ decimal ch ++ suffix, bytes " HTTP/1.1\r\n",
      bytes "Host: api.thingspeak.com\r\n", bytes "Connection: close\r\n",
      bytes "User-Agent: ", TS_USER_AGENT P, bytes "\r\n", bytes "X-THINGSPEAKAPIKEY: "]
    [bytes "\r\n", bytes "\r\n"]
    (ts.client.connect (bytes "api.thingspeak.com") ts.port).2 hcacc (by
      intro s hs
      simp only [List.mem_cons, List.mem_singleton, List.not_mem_nil, or_false] at hs
      rcases hs with h | h | h | h | h | h | h | h | h <;> subst h <;>
        first | exact hua | (simp [bytes]))
  rw [← hpost] at hw
  rw [← hget] at hr
  obtain ⟨w1, w2⟩ := (writeRaw_cases P ch q (some []) ts hconn).1 hw.1
  obtain ⟨r1, r2, r3⟩ := (readRaw_cases P ch suffix (some []) ts hconn).1 hr.1
  refine ⟨w1, ?_, r1, r2, ?_⟩
  · rw [w2, hst]
    unfold afterRequest
    rw [hw.2, hc]
    simp
  · rw [r3, hst]
    unfold afterRequest
    rw [hr.2, hc]
    simp

set_option maxRecDepth 100000 in
/-- Witness of `empty_credential_fails`: a transport that accepts everything and
has a 200 response ready. -/
theorem empty_credential_fails_witness :
    (writeRaw photon 12 (bytes "field1=7") (some []) (ThingSpeakClass.construct
      (answering (bytes "HTTP/1.1 200 OK\r\nA: b\r\n\r\n4")))).1 = -302 ∧
    (readRaw photon 12 (bytes "/feeds/last.txt") (some []) (ThingSpeakClass.construct
      (answering (bytes "HTTP/1.1 200 OK\r\nA: b\r\n\r\n4")))).2.lastReadStatus = -302 ∧
    sentBytes (writeRaw photon 12 (bytes "field1=7") (some []) (ThingSpeakClass.construct
      (answering (bytes "HTTP/1.1 200 OK\r\nA: b\r\n\r\n4")))).2.client.trace =
      bytes "POST /update HTTP/1.1\r\nHost: api.thingspeak.com\r\nConnection: close\r\nUser-Agent: tslib-arduino/1.6.0 (particle photon)\r\nX-THINGSPEAKAPIKEY: " := by
  have h := empty_credential_fails photon 12 (bytes "field1=7") (bytes "/feeds/last.txt")
    (ThingSpeakClass.construct (answering (bytes "HTTP/1.1 200 OK\r\nA: b\r\n\r\n4")))
    rfl (by decide)
  refine ⟨h.1, h.2.2.2.1, ?_⟩
  rw [h.2.1]
  decide

/-- The components of the pending update, one by one: each is a name, `=`, and
a value: the escaped text of a set field or of the status, the text of a set
coordinate, the created-at text as it is. -/
theorem mem_pendingComponents (P : Platform) (ts : ThingSpeakClass) (comp : Bytes)
    (h : comp ∈ pendingComponents P ts) :
    (∃ i : Fin 8, ts.nextWriteField i ≠ [] ∧
      comp = bytes "field" ++ decimal (i.val + 1) ++ bytes "=" ++
        escapeUrl (ts.nextWriteField i)) ∨
    (ts.nextWriteLatitude.isnan = false ∧
      comp = bytes "lat=" ++ P.floatToString ts.nextWriteLatitude) ∨
    (ts.nextWriteLongitude.isnan = false ∧
      comp = bytes "long=" ++ P.floatToString ts.nextWriteLongitude) ∨
    (ts.nextWriteElevation.isnan = false ∧
      comp = bytes "elevation=" ++ P.floatToString ts.nextWriteElevation) ∨
    (ts.nextWriteStatus ≠ [] ∧ comp = bytes "status=" ++ escapeUrl ts.nextWriteStatus) ∨
    (ts.nextWriteCreatedAt ≠ [] ∧ comp = bytes "created_at=" ++ ts.nextWriteCreatedAt) := by
  unfold pendingComponents at h
  simp only [List.mem_append, List.mem_map, List.mem_filter, decide_eq_true_eq] at h
  rcases h with ((((h | h) | h) | h) | h) | h
  · obtain ⟨i, ⟨_, hi⟩, rfl⟩ := h
    exact Or.inl ⟨i, hi, rfl⟩
  · split_ifs at h with hn
    · simp at h
    · simp only [List.mem_singleton] at h
      exact Or.inr (Or.inl ⟨by simpa using hn, h⟩)
  · split_ifs at h with hn
    · simp at h
    · simp only [List.mem_singleton] at h
      exact Or.inr (Or.inr (Or.inl ⟨by simpa using hn, h⟩))
  · split_ifs at h with hn
    · simp at h
    · simp only [List.mem_singleton] at h
      exact Or.inr (Or.inr (Or.inr (Or.inl ⟨by simpa using hn, h⟩)))
  · split_ifs at h with hn
    · simp at h
    · simp only [List.mem_singleton] at h
      exact Or.inr (Or.inr (Or.inr (Or.inr (Or.inl ⟨hn, h⟩))))
  · split_ifs at h with hn
    · simp at h
    · simp only [List.mem_singleton] at h
      exact Or.inr (Or.inr (Or.inr (Or.inr (Or.inr ⟨hn, h⟩))))

/-- The decimal text of a field number. -/
theorem decimal_digit (n : Nat) (h : n < 10) : decimal n = [48 + n] := by
  rw [decimal_step, if_pos h]

/-- C38: setting a component to the empty text clears it. For every field index
`f` in [1,8], `setField(f, "")` returns 200 and leaves field `f` empty and the
other fields as they were, so that no component of the next payload starts with
`field<f>=`, and `writeFields` returns NoFieldsSet (-210) if no other component
is set. In the same way `setStatus("")` and `setCreatedAt("")` return 200, no
component of the next payload starts with `status=`, respectively
`created_at=`, and `writeFields` returns -210 if no other component is set. -/
theorem empty_text_clears (P : Platform) (ch : Nat) (key : Option Bytes) (f : Nat)
    (ts : ThingSpeakClass) (hf : 1 ≤ f ∧ f ≤ 8) :
    ((setField f [] ts).1 = 200 ∧
      (∀ i : Fin 8, (setField f [] ts).2.nextWriteField i =
        if i.val + 1 = f then [] else ts.nextWriteField i) ∧
      (∀ comp ∈ pendingComponents P (setField f [] ts).2,
        ¬ (bytes "field" ++ decimal f ++ bytes "=") <+: comp) ∧
      ((∀ i : Fin 8, i.val + 1 ≠ f → ts.nextWriteField i = []) →
        ts.nextWriteStatus = [] → ts.nextWriteCreatedAt = [] →
        ts.nextWriteLatitude.isnan = true → ts.nextWriteLongitude.isnan = true →
        ts.nextWriteElevation.isnan = true →
        (writeFields P ch key (setField f [] ts).2).1 = -210)) ∧
    ((setStatus [] ts).1 = 200 ∧ (setStatus [] ts).2.nextWriteStatus = [] ∧
      (∀ comp ∈ pendingComponents P (setStatus [] ts).2, ¬ (bytes "status=") <+: comp) ∧
      ((∀ i : Fin 8, ts.nextWriteField i = []) → ts.nextWriteCreatedAt = [] →
        ts.nextWriteLatitude.isnan = true → ts.nextWriteLongitude.isnan = true →
        ts.nextWriteElevation.isnan = true →
        (writeFields P ch key (setStatus [] ts).2).1 = -210)) ∧
    ((setCreatedAt [] ts).1 = 200 ∧ (setCreatedAt [] ts).2.nextWriteCreatedAt = [] ∧
      (∀ comp ∈ pendingComponents P (setCreatedAt [] ts).2,
        ¬ (bytes "created_at=") <+: comp) ∧
      ((∀ i : Fin 8, ts.nextWriteField i = []) → ts.nextWriteStatus = [] →
        ts.nextWriteLatitude.isnan = true → ts.nextWriteLongitude.isnan = true →
        ts.nextWriteElevation.isnan = true →
        (writeFields P ch key (setCreatedAt [] ts).2).1 = -210)) := by
  have hpre : ∀ (a b r : Bytes) (x y : Nat), x ≠ y → ¬ (x :: a) <+: (y :: b) ++ r := by
    intro a b r x y hxy hp
    rw [List.cons_append, List.cons_prefix_cons] at hp
    exact hxy hp.1
  refine ⟨?_, ?_, ?_⟩
  · obtain ⟨s1, s2⟩ := setField_stores f [] ts hf (by simp)
    obtain ⟨e, _⟩ := setField_fields f [] ts
    refine ⟨s1, s2, ?_, ?_⟩
    · intro comp hc hp
      rcases mem_pendingComponents P _ comp hc with
        ⟨i, hi, rfl⟩ | ⟨_, rfl⟩ | ⟨_, rfl⟩ | ⟨_, rfl⟩ | ⟨_, rfl⟩ | ⟨_, rfl⟩
      · rw [s2 i] at hi
        have hne : ¬ i.val + 1 = f := by
          intro h
          rw [if_pos h] at hi
          exact hi rfl
        have hil := i.isLt
        rw [decimal_digit f (by omega), decimal_digit (i.val + 1) (by omega)] at hp
        simp only [bytes] at hp
        simp only [String.toList, List.map, List.cons_append, List.nil_append,
          List.cons_prefix_cons] at hp
        omega
      · exact hpre _ _ _ 102 108 (by decide) hp
      · exact hpre _ _ _ 102 108 (by decide) hp
      · exact hpre _ _ _ 102 101 (by decide) hp
      · exact hpre _ _ _ 102 115 (by decide) hp
      · exact hpre _ _ _ 102 99 (by decide) hp
    · intro h1 h2 h3 h4 h5 h6
      have hempty : pendingEmpty (setField f [] ts).2 := by
        refine ⟨fun i => ?_, ?_, ?_, ?_, ?_, ?_⟩
        · rw [s2 i]
          split_ifs with hi
          · rfl
          · exact h1 i hi
        · rw [e]; exact h2
        · rw [e]; exact h3
        · rw [e]; exact h4
        · rw [e]; exact h5
        · rw [e]; exact h6
      rw [writeFields_of_pendingEmpty P ch key _ hempty]
      rfl
  · have e : setStatus [] ts = (200, { ts with nextWriteStatus := [] }) := by
      unfold setStatus
      rw [if_neg (by simp [FIELDLENGTH_MAX])]
      rfl
    rw [e]
    refine ⟨rfl, rfl, ?_, ?_⟩
    · intro comp hc hp
      rcases mem_pendingComponents P _ comp hc with
        ⟨i, hi, rfl⟩ | ⟨_, rfl⟩ | ⟨_, rfl⟩ | ⟨_, rfl⟩ | ⟨hs, rfl⟩ | ⟨_, rfl⟩
      · exact hpre _ _ _ 115 102 (by decide) hp
      · exact hpre _ _ _ 115 108 (by decide) hp
      · exact hpre _ _ _ 115 108 (by decide) hp
      · exact hpre _ _ _ 115 101 (by decide) hp
      · exact hs rfl
      · exact hpre _ _ _ 115 99 (by decide) hp
    · intro h1 h3 h4 h5 h6
      have hempty : pendingEmpty { ts with nextWriteStatus := [] } :=
        ⟨h1, rfl, h3, h4, h5, h6⟩
      show (writeFields P ch key { ts with nextWriteStatus := [] }).1 = -210
      rw [writeFields_of_pendingEmpty P ch key _ hempty]
      rfl
  · have e : setCreatedAt [] ts = (200, { ts with nextWriteCreatedAt := [] }) := by
      unfold setCreatedAt
      rw [if_neg (by simp [FIELDLENGTH_MAX])]
      rfl
    rw [e]
    refine ⟨rfl, rfl, ?_, ?_⟩
    · intro comp hc hp
      rcases mem_pendingComponents P _ comp hc with
        ⟨i, hi, rfl⟩ | ⟨_, rfl⟩ | ⟨_, rfl⟩ | ⟨_, rfl⟩ | ⟨_, rfl⟩ | ⟨hs, rfl⟩
      · exact hpre _ _ _ 99 102 (by decide) hp
      · exact hpre _ _ _ 99 108 (by decide) hp
      · exact hpre _ _ _ 99 108 (by decide) hp
      · exact hpre _ _ _ 99 101 (by decide) hp
      · exact hpre _ _ _ 99 115 (by decide) hp
      · exact hs rfl
    · intro h1 h2 h4 h5 h6
      have hempty : pendingEmpty { ts with nextWriteCreatedAt := [] } :=
        ⟨h1, h2, rfl, h4, h5, h6⟩
      show (writeFields P ch key { ts with nextWriteCreatedAt := [] }).1 = -210
      rw [writeFields_of_pendingEmpty P ch key _ hempty]
      rfl

set_option maxRecDepth 100000 in
/-- Witness of `empty_text_clears`: field 2 and the status are set, then field 2
is set to the empty text; the payload is `status=ok`. After the status too is
set to the empty text, `writeFields` returns -210. -/
theorem empty_text_clears_witness :
    (setField 2 [] (setStatus (bytes "ok") (setField 2 (bytes "7")
      (ThingSpeakClass.construct offline)).2).2).1 = 200 ∧
    pendingComponents photon (setField 2 [] (setStatus (bytes "ok") (setField 2 (bytes "7")
      (ThingSpeakClass.construct offline)).2).2).2 = [bytes "status=ok"] ∧
    (writeFields photon 12 none (setStatus [] (setField 2 [] (setStatus (bytes "ok")
      (setField 2 (bytes "7") (ThingSpeakClass.construct offline)).2).2).2).2).1 = -210 := by
  have h := empty_text_clears photon 12 none 2 (setStatus (bytes "ok")
    (setField 2 (bytes "7") (ThingSpeakClass.construct offline)).2).2 (by decide)
  refine ⟨h.1.1, ?_, by decide⟩
  unfold pendingComponents
  decide

/-! ### The end of the header block -/

/-- A response that is visible within the timeout is read: the status and the
text stored are those `readResponse` gives. -/
theorem getHTTPResponse_visible (response : Bytes) (c : Client)
    (harrive : c.rxDelay ≤ TIMEOUT_MS_SERVERRESPONSE) (hne : c.rx ≠ []) :
    (getHTTPResponse response c).1 = (readResponse response c.rx).1 ∧
    (getHTTPResponse response c).2.1 = (readResponse response c.rx).2.1 := by
  obtain ⟨w1, _, _, _, w5⟩ := waitForResponse_spec waitFuel c.millis c
  have hs : c.millis < 2 ^ 32 := by simp only [Client.millis]; omega
  have hz : (waitForResponse waitFuel c.millis c).rxDelay = 0 := by
    apply w5 hs
    · left
      simp only [TIMEOUT_MS_SERVERRESPONSE] at *
      omega
    · simp only [TIMEOUT_MS_SERVERRESPONSE, waitFuel]
      omega
  have ha : (waitForResponse waitFuel c.millis c).available.1 ≠ 0 := by
    simp only [Client.available, hz, if_true, w1]
    exact fun h => hne (List.length_eq_zero.mp h)
  obtain ⟨g1, g2, _⟩ := (getHTTPResponse_eq response c).2 ha
  exact ⟨g1, g2⟩

/-- The search stops after the target when the target comes first. -/
theorem findAfter_at_start (t r : Bytes) (ht : t ≠ []) : findAfter t (t ++ r) = some r := by
  cases h : t ++ r with
  | nil =>
    have := List.append_eq_nil.mp h
    exact absurd this.1 ht
  | cons b rest =>
    rw [findAfter]
    have hp : t.isPrefixOf (b :: rest) = true := by
      rw [List.isPrefixOf_iff_prefix, ← h]
      exact List.prefix_append t r
    rw [if_pos hp, ← h, List.drop_left]

/-- The search stops after the first occurrence of the target. -/
theorem findAfter_first (t pre r : Bytes)
    (hmin : ∀ pre' r', pre ++ t ++ r = pre' ++ t ++ r' → pre.length ≤ pre'.length) :
    findAfter t (pre ++ t ++ r) = some r := by
  obtain ⟨r0, hr0⟩ := findAfter_of_occurs t pre r
  obtain ⟨pre0, hb0, hmin0⟩ := findAfter_eq_some t _ r0 hr0
  have hlen : pre.length = pre0.length :=
    Nat.le_antisymm (hmin pre0 r0 hb0) (hmin0 pre r rfl)
  have heq : pre ++ (t ++ r) = pre0 ++ (t ++ r0) := by
    rw [← List.append_assoc, ← List.append_assoc, ← hb0]
  have hrest : r = r0 := List.append_cancel_left (List.append_inj heq hlen).2
  rw [hr0, hrest]

/-- The status line `HTTP/1.1 200 OK`: the status read is 200, and the first
`find` of a CRLF stops after the CRLF that ends the line. -/
theorem status_line_200 (r : Bytes) :
    findAfter (bytes "HTTP/1.1") (bytes "HTTP/1.1 200 OK\r\n" ++ r)
      = some (bytes " 200 OK\r\n" ++ r) ∧
    streamParseInt (bytes " 200 OK\r\n" ++ r) = (200, bytes " OK\r\n" ++ r) ∧
    findAfter (bytes "\r\n") (bytes " OK\r\n" ++ r) = some r := by
  refine ⟨?_, ?_, ?_⟩
  · exact findAfter_at_start (bytes "HTTP/1.1") (bytes " 200 OK\r\n" ++ r) (by decide)
  · rfl
  · exact findAfter_first (bytes "\r\n") (bytes " OK") r (by
      intro pre' r' h
      by_contra hlt
      have h3 : pre'.length < 3 := by
        have : (bytes " OK").length = 3 := rfl
        omega
      have e : bytes " OK" ++ bytes "\r\n" ++ r = 32 :: 79 :: 75 :: 13 :: 10 :: r := rfl
      rw [e] at h
      have e2 : bytes "\r\n" = [13, 10] := rfl
      rw [e2] at h
      match pre', h3, h with
      | [], _, h => simp at h
      | [a], _, h => simp at h
      | [a, b], _, h => simp at h
      | a :: b :: c :: rest, h3, _ =>
        simp only [List.length_cons] at h3
        omega)

/-- No LF CR LF in what follows the status line when the blank line comes at
once and the body has no line feed. -/
theorem no_blank_line (body : Bytes) (h : 10 ∉ body) :
    ¬ (bytes "\n\r\n") <:+: bytes "\r\n" ++ body := by
  rintro ⟨s, t, hst⟩
  have e1 : bytes "\n\r\n" = [10, 13, 10] := rfl
  have e2 : bytes "\r\n" ++ body = 13 :: 10 :: body := rfl
  rw [e1, e2] at hst
  match s, hst with
  | [], hst => simp at hst
  | [a], hst =>
    simp only [List.cons_append, List.nil_append, List.cons.injEq] at hst
    apply h
    rw [← hst.2.2]
    simp
  | a :: b :: s', hst =>
    simp only [List.cons_append, List.cons.injEq] at hst
    apply h
    rw [← hst.2.2]
    simp

/-- The first LF CR LF after a header block without blank line ends the blank
line that follows the block. -/
theorem blank_line_first (hb body : Bytes) (h : ¬ (bytes "\n\r\n") <:+: hb ++ bytes "\r\n") :
    findAfter (bytes "\n\r\n") (hb ++ bytes "\r\n\r\n" ++ body) = some body := by
  have e : hb ++ bytes "\r\n\r\n" ++ body = (hb ++ [13]) ++ bytes "\n\r\n" ++ body := by
    have : bytes "\r\n\r\n" = [13] ++ bytes "\n\r\n" := rfl
    rw [this]
    simp
  rw [e]
  apply findAfter_first
  intro pre' r' heq
  by_contra hlt
  have hlen : pre'.length ≤ hb.length := by
    simp only [List.length_append, List.length_singleton] at hlt
    omega
  have hT : (bytes "\n\r\n").length = 3 := rfl
  have p1 : pre' ++ bytes "\n\r\n" <+: (hb ++ [13]) ++ bytes "\n\r\n" ++ body := by
    rw [heq]
    exact List.prefix_append _ _
  have e3 : (hb ++ [13]) ++ bytes "\n\r\n" ++ body = (hb ++ [13, 10, 13]) ++ (10 :: body) := by
    have : bytes "\n\r\n" = [10, 13, 10] := rfl
    rw [this]
    simp
  have p2 : hb ++ [13, 10, 13] <+: (hb ++ [13]) ++ bytes "\n\r\n" ++ body := by
    rw [e3]
    exact List.prefix_append _ _
  have e4 : (hb ++ [13]) ++ bytes "\n\r\n" ++ body
      = (hb ++ bytes "\r\n") ++ (13 :: 10 :: body) := by
    have h1 : bytes "\n\r\n" = [10, 13, 10] := rfl
    have h2 : bytes "\r\n" = [13, 10] := rfl
    rw [h1, h2]
    simp
  have p3 : hb ++ bytes "\r\n" <+: (hb ++ [13]) ++ bytes "\n\r\n" ++ body := by
    rw [e4]
    exact List.prefix_append _ _
  by_cases hc : pre'.length = hb.length
  · have hle : (pre' ++ bytes "\n\r\n").length ≤ (hb ++ [13, 10, 13]).length := by
      simp only [List.length_append, hT, List.length_cons, List.length_nil]
      omega
    have hle' : (hb ++ [13, 10, 13]).length ≤ (pre' ++ bytes "\n\r\n").length := by
      simp only [List.length_append, hT, List.length_cons, List.length_nil]
      omega
    have q1 := List.prefix_of_prefix_length_le p1 p2 hle
    have q2 := List.prefix_of_prefix_length_le p2 p1 hle'
    have heq2 : pre' ++ bytes "\n\r\n" = hb ++ [13, 10, 13] :=
      List.Sublist.antisymm q1.sublist q2.sublist
    have := (List.append_inj heq2 hc).2
    exact absurd this (by decide)
  · have hle : (pre' ++ bytes "\n\r\n").length ≤ (hb ++ bytes "\r\n").length := by
      have : (bytes "\r\n").length = 2 := rfl
      simp only [List.length_append, hT, this]
      omega
    have q := List.prefix_of_prefix_length_le p1 p3 hle
    obtain ⟨u, hu⟩ := q
    exact h ⟨pre', u, hu⟩

/-- A header line without line feed, with the CRLF that ends it, has no blank
line in it. -/
theorem header_line_no_blank (line : Bytes) (h : 10 ∉ line) :
    ¬ (bytes "\n\r\n") <:+: line ++ bytes "\r\n" := by
  rintro ⟨s, t, hst⟩
  have e1 : bytes "\n\r\n" = [10, 13, 10] := rfl
  have e2 : bytes "\r\n" = [13, 10] := rfl
  rw [e1, e2] at hst
  have hmem : (10 : Nat) ∈ line ++ [13] := by
    have h1 : s ++ [10, 13, 10] ++ t = (s ++ [10]) ++ ([13, 10] ++ t) := by simp
    have h2 : line ++ [13, 10] = (line ++ [13]) ++ [10] := by simp
    rw [h1, h2] at hst
    have hl : (s ++ [10]).length ≤ (line ++ [13]).length := by
      have := congrArg List.length hst
      simp only [List.length_append, List.length_cons, List.length_nil] at this ⊢
      omega
    have a1 : s ++ [10] <+: (line ++ [13]) ++ [10] := ⟨[13, 10] ++ t, hst⟩
    have a2 : line ++ [13] <+: (line ++ [13]) ++ [10] := List.prefix_append _ _
    have hp : s ++ [10] <+: line ++ [13] := List.prefix_of_prefix_length_le a1 a2 hl
    exact hp.subset (by simp)
  simp only [List.mem_append, List.mem_singleton] at hmem
  rcases hmem with hm | hm
  · exact h hm
  · exact absurd hm (by decide)

/-- C35: a 200 response with an empty header block is rejected. For every body
without line feed, the response `HTTP/1.1 200 OK` CRLF CRLF body, visible
within the timeout, makes `getHTTPResponse` return BadResponse (-303) and leave
`response` as it was: once the CRLF of the status line is read, no LF CR LF is
left. With a header block between the status line and the blank line (one or
more lines, each ended by CRLF, none of them blank: the block holds no
LF CR LF; in particular one line without line feed), it returns 200 and stores
exactly the body. -/
theorem empty_header_block (response : Bytes) (c : Client) (body : Bytes)
    (harrive : c.rxDelay ≤ TIMEOUT_MS_SERVERRESPONSE) :
    (c.rx = bytes "HTTP/1.1 200 OK\r\n\r\n" ++ body → 10 ∉ body →
      (getHTTPResponse response c).1 = -303 ∧ (getHTTPResponse response c).2.1 = response) ∧
    (∀ hb : Bytes, c.rx = bytes "HTTP/1.1 200 OK\r\n" ++ hb ++ bytes "\r\n\r\n" ++ body →
      ¬ (bytes "\n\r\n") <:+: hb ++ bytes "\r\n" →
      (getHTTPResponse response c).1 = 200 ∧ (getHTTPResponse response c).2.1 = body) ∧
    (∀ line : Bytes, c.rx = bytes "HTTP/1.1 200 OK\r\n" ++ line ++ bytes "\r\n\r\n" ++ body →
      10 ∉ line →
      (getHTTPResponse response c).1 = 200 ∧ (getHTTPResponse response c).2.1 = body) := by
  have hs : ¬ ((200 : Int) ≠ TS_OK_SUCCESS) := by decide
  have hgen : ∀ hb : Bytes,
      c.rx = bytes "HTTP/1.1 200 OK\r\n" ++ hb ++ bytes "\r\n\r\n" ++ body →
      ¬ (bytes "\n\r\n") <:+: hb ++ bytes "\r\n" →
      (getHTTPResponse response c).1 = 200 ∧ (getHTTPResponse response c).2.1 = body := by
    intro hb hrx hno
    have hne : c.rx ≠ [] := by
      rw [hrx]
      simp [bytes]
    obtain ⟨g1, g2⟩ := getHTTPResponse_visible response c harrive hne
    have hrx' : c.rx = bytes "HTTP/1.1 200 OK\r\n" ++ (hb ++ bytes "\r\n\r\n" ++ body) := by
      rw [hrx]
      simp
    obtain ⟨s1, s2, s3⟩ := status_line_200 (hb ++ bytes "\r\n\r\n" ++ body)
    have h4 := blank_line_first hb body hno
    have hrr : readResponse response c.rx =
        (200, body, [Op.find (bytes "HTTP/1.1") true, Op.parseInt 200,
          Op.find (bytes "\r\n") true, Op.find (bytes "\n\r\n") true, Op.readString body]) := by
      unfold readResponse
      rw [hrx', s1]
      simp only []
      rw [s2]
      simp only []
      rw [if_neg hs, s3]
      simp only []
      rw [h4]
    rw [g1, g2, hrr]
    exact ⟨rfl, rfl⟩
  refine ⟨?_, hgen, ?_⟩
  · intro hrx hno
    have hne : c.rx ≠ [] := by
      rw [hrx]
      simp [bytes]
    obtain ⟨g1, g2⟩ := getHTTPResponse_visible response c harrive hne
    have hrx' : c.rx = bytes "HTTP/1.1 200 OK\r\n" ++ (bytes "\r\n" ++ body) := by
      rw [hrx]
      rfl
    obtain ⟨s1, s2, s3⟩ := status_line_200 (bytes "\r\n" ++ body)
    have h4 : findAfter (bytes "\n\r\n") (bytes "\r\n" ++ body) = none :=
      (findAfter_eq_none_iff _ _).mpr (no_blank_line body hno)
    have hrr : readResponse response c.rx =
        (TS_ERR_BAD_RESPONSE, response, [Op.find (bytes "HTTP/1.1") true, Op.parseInt 200,
          Op.find (bytes "\r\n") true, Op.find (bytes "\n\r\n") false]) := by
      unfold readResponse
      rw [hrx', s1]
      simp only []
      rw [s2]
      simp only []
      rw [if_neg hs, s3]
      simp only []
      rw [h4]
    rw [g1, g2, hrr]
    exact ⟨rfl, rfl⟩
  · intro line hrx hno
    exact hgen line hrx (header_line_no_blank line hno)

set_option maxRecDepth 100000 in
/-- Witness of `empty_header_block`: the same body `4` after an empty header
block, and after a block of two header lines. -/
theorem empty_header_block_witness :
    (getHTTPResponse [] (answering (bytes "HTTP/1.1 200 OK\r\n\r\n4"))).1 = -303 ∧
    (getHTTPResponse [] (answering
      (bytes "HTTP/1.1 200 OK\r\nContent-Length: 1\r\nConnection: close\r\n\r\n4"))).1 = 200 ∧
    (getHTTPResponse [] (answering
      (bytes "HTTP/1.1 200 OK\r\nContent-Length: 1\r\nConnection: close\r\n\r\n4"))).2.1
        = bytes "4" := by
  have h1 := (empty_header_block [] (answering (bytes "HTTP/1.1 200 OK\r\n\r\n4"))
    (bytes "4") (by decide)).1 rfl (by decide)
  have h2 := (empty_header_block [] (answering
    (bytes "HTTP/1.1 200 OK\r\nContent-Length: 1\r\nConnection: close\r\n\r\n4"))
    (bytes "4") (by decide)).2.1 (bytes "Content-Length: 1\r\nConnection: close") rfl
    (by rw [← findAfter_eq_none_iff]; decide)
  exact ⟨h1.1, h2.1, h2.2⟩

/-! ### Properties of `escapeUrl` -/

/-- The escaped text, byte by byte. -/
theorem escapeUrl_eq_flatMap (m : Bytes) : escapeUrl m = m.flatMap escapeByteSpec := by
  have h : (fun (encoded : Bytes) (t : Nat) =>
      if isDropped t then encoded
      else if isSpecial t then encoded ++ sprintfPercentHex t
      else encoded ++ [t]) = fun encoded t => encoded ++ escapeByteSpec t := by
    funext encoded t
    exact escapeStep_eq encoded t
  unfold escapeUrl escapeUrlBuild
  rw [h, foldl_append_eq_flatMap]
  simp

/-- The escaped text of a text in two parts. -/
theorem escapeUrl_append (p q : Bytes) : escapeUrl (p ++ q) = escapeUrl p ++ escapeUrl q := by
  rw [escapeUrl_eq_flatMap, escapeUrl_eq_flatMap, escapeUrl_eq_flatMap, List.flatMap_append]

/-- What one byte contributes: nothing when dropped, three bytes when special,
itself otherwise; never a `&`. -/
theorem escapeByteSpec_cases (t : Nat) :
    (isDropped t = true ∧ escapeByteSpec t = []) ∨
    (isDropped t = false ∧ isSpecial t = true ∧ (escapeByteSpec t).length = 3 ∧
      38 ∉ escapeByteSpec t ∧ percentDecode (escapeByteSpec t) = [t] ∧
      ∃ h l, escapeByteSpec t = [37, h, l]) ∨
    (isDropped t = false ∧ isSpecial t = false ∧ escapeByteSpec t = [t] ∧ t ≠ 38 ∧ t ≠ 37) := by
  unfold escapeByteSpec
  by_cases h1 : t ≤ 0x1F ∨ 0x80 ≤ t
  · left
    rw [if_pos h1]
    refine ⟨?_, rfl⟩
    simp only [isDropped, Bool.or_eq_true, Bool.and_eq_true, decide_eq_true_eq]
    omega
  · right
    have hd : isDropped t = false := by
      simp only [isDropped, Bool.or_eq_false_iff, Bool.and_eq_false_iff,
        decide_eq_false_iff_not]
      omega
    rw [if_neg h1]
    by_cases a1 : t = 0x22
    · subst a1; left; exact ⟨hd, by decide, by decide, by decide, by decide, 50, 50, by decide⟩
    by_cases a2 : t = 0x25
    · subst a2; left; exact ⟨hd, by decide, by decide, by decide, by decide, 50, 53, by decide⟩
    by_cases a3 : t = 0x26
    · subst a3; left; exact ⟨hd, by decide, by decide, by decide, by decide, 50, 54, by decide⟩
    by_cases a4 : t = 0x2B
    · subst a4; left; exact ⟨hd, by decide, by decide, by decide, by decide, 50, 66, by decide⟩
    by_cases a5 : t = 0x3B
    · subst a5; left; exact ⟨hd, by decide, by decide, by decide, by decide, 51, 66, by decide⟩
    right
    rw [if_neg a1, if_neg a2, if_neg a3, if_neg a4, if_neg a5]
    refine ⟨hd, ?_, rfl, a3, a2⟩
    simp [isSpecial, a1, a2, a3, a4, a5]

/-- No `&` in an escaped text. -/
theorem amp_not_mem_escapeUrl (m : Bytes) : 38 ∉ escapeUrl m := by
  rw [escapeUrl_eq_flatMap]
  intro h
  rw [List.mem_flatMap] at h
  obtain ⟨t, _, ht⟩ := h
  rcases escapeByteSpec_cases t with ⟨_, e⟩ | ⟨_, _, _, e, _⟩ | ⟨_, _, e, e2, _⟩
  · rw [e] at ht; simp at ht
  · exact e ht
  · rw [e] at ht
    simp only [List.mem_singleton] at ht
    exact e2 ht.symm

/-- Decoding after a byte that is not `%`. -/
theorem percentDecode_cons (b : Nat) (rest : Bytes) (h : b ≠ 37) :
    percentDecode (b :: rest) = b :: percentDecode rest := by
  conv_lhs => unfold percentDecode
  split
  · rename_i heq
    simp at heq
  · rename_i heq
    simp only [List.cons.injEq] at heq
    exact absurd heq.1 h
  · rename_i b' rest' _ heq
    simp only [List.cons.injEq] at heq
    rw [← heq.1, ← heq.2]

/-- Decoding a `%XX` triple. -/
theorem percentDecode_triple (h l : Nat) (rest : Bytes) :
    percentDecode (37 :: h :: l :: rest) = (hexValue h * 16 + hexValue l) :: percentDecode rest := by
  rw [percentDecode]

/-- Percent-decoding recovers a text without control and non-ASCII bytes from
its escaped text. -/
theorem percentDecode_escapeUrl (a : Bytes) (ha : ∀ x ∈ a, 0x20 ≤ x ∧ x ≤ 0x7F) :
    percentDecode (escapeUrl a) = a := by
  rw [escapeUrl_eq_flatMap]
  induction a with
  | nil => simp [percentDecode]
  | cons x a ih =>
    have hx := ha x (by simp)
    have ih' := ih (fun y hy => ha y (by simp [hy]))
    rw [List.flatMap_cons]
    rcases escapeByteSpec_cases x with ⟨hd, _⟩ | ⟨_, _, _, _, hdec, h, l, e⟩ | ⟨_, _, e, _, e2⟩
    · exfalso
      simp only [isDropped, Bool.or_eq_true, Bool.and_eq_true, decide_eq_true_eq] at hd
      omega
    · rw [e] at hdec ⊢
      rw [percentDecode_triple] at hdec
      simp only [List.cons_append, List.nil_append]
      rw [percentDecode_triple, ih']
      simp only [List.cons.injEq] at hdec
      rw [hdec.1]
    · rw [e]
      simp only [List.cons_append, List.nil_append]
      rw [percentDecode_cons x _ e2, ih']

/-- C33: `escapeUrl` is injective on printable input: for all strings `a` and
`b` whose bytes all lie in 0x20-0x7F, percent-decoding the escaped text of `a`
gives back `a` (every `%` of the escaped text starts a `%XX` triple), and
`escapeUrl a = escapeUrl b` implies `a = b`. -/
theorem escapeUrl_injective (a b : Bytes) (ha : ∀ x ∈ a, 0x20 ≤ x ∧ x ≤ 0x7F)
    (hb : ∀ x ∈ b, 0x20 ≤ x ∧ x ≤ 0x7F) :
    percentDecode (escapeUrl a) = a ∧ (escapeUrl a = escapeUrl b → a = b) := by
  refine ⟨percentDecode_escapeUrl a ha, fun h => ?_⟩
  rw [← percentDecode_escapeUrl a ha, ← percentDecode_escapeUrl b hb, h]

/-- Witness of `escapeUrl_injective`: the text `a b&c"d%` and the text
`a b%26c`, which is the start of its escaped text. -/
theorem escapeUrl_injective_witness :
    percentDecode (escapeUrl (bytes "a b&c\"d%")) = bytes "a b&c\"d%" ∧
    escapeUrl (bytes "a b&c\"d%") = bytes "a b%26c%22d%25" ∧
    escapeUrl (bytes "a b%26c") = bytes "a b%2526c" ∧
    (escapeUrl (bytes "a b&c\"d%") = escapeUrl (bytes "a b%26c") →
      bytes "a b&c\"d%" = bytes "a b%26c") := by
  have h := escapeUrl_injective (bytes "a b&c\"d%") (bytes "a b%26c") (by decide) (by decide)
  exact ⟨h.1, by decide, by decide, h.2⟩

/-! ### The size of the buffer of `escapeUrl` -/

/-- The size counted over a part of the text, modulo 2^32: each byte changes it
by the length of what the byte contributes, less one. -/
theorem escapeUrlSize_fold (p : Bytes) :
    ∀ init : Nat, init < 2 ^ 32 →
      p.foldl
        (fun n t =>
          if isDropped t then (n + (2 ^ 32 - 1)) % 2 ^ 32
          else if isSpecial t then (n + 2) % 2 ^ 32
          else n) init < 2 ^ 32 ∧
      (p.foldl
        (fun n t =>
          if isDropped t then (n + (2 ^ 32 - 1)) % 2 ^ 32
          else if isSpecial t then (n + 2) % 2 ^ 32
          else n) init + p.length) % 2 ^ 32 = (init + (escapeUrl p).length) % 2 ^ 32 := by
  induction p with
  | nil =>
    intro init hi
    exact ⟨hi, by simp [escapeUrl, escapeUrlBuild]⟩
  | cons t p ih =>
    intro init hi
    have hcons : escapeUrl (t :: p) = escapeByteSpec t ++ escapeUrl p := by
      rw [escapeUrl_eq_flatMap, escapeUrl_eq_flatMap, List.flatMap_cons]
    rw [List.foldl_cons, hcons, List.length_append, List.length_cons]
    rcases escapeByteSpec_cases t with ⟨hd, e⟩ | ⟨hd, hsp, e, _⟩ | ⟨hd, hsp, e, _⟩
    · simp only [hd, if_true]
      obtain ⟨i1, i2⟩ := ih ((init + (2 ^ 32 - 1)) % 2 ^ 32) (Nat.mod_lt _ (by norm_num))
      refine ⟨i1, ?_⟩
      rw [e, List.length_nil]
      generalize List.foldl _ _ p = A at i1 i2 ⊢
      norm_num at i2 ⊢
      omega
    · simp only [hd, hsp, if_true, Bool.false_eq_true, if_false]
      obtain ⟨i1, i2⟩ := ih ((init + 2) % 2 ^ 32) (Nat.mod_lt _ (by norm_num))
      refine ⟨i1, ?_⟩
      rw [e]
      generalize List.foldl _ _ p = A at i1 i2 ⊢
      norm_num at i2 ⊢
      omega
    · simp only [hd, hsp, Bool.false_eq_true, if_false]
      obtain ⟨i1, i2⟩ := ih init hi
      refine ⟨i1, ?_⟩
      rw [e, List.length_singleton]
      generalize List.foldl _ _ p = A at i1 i2 ⊢
      norm_num at i2 ⊢
      omega

/-- The escaped text is at most three times as long as the text. -/
theorem escapeUrl_length_le (p : Bytes) : (escapeUrl p).length ≤ 3 * p.length := by
  rw [escapeUrl_eq_flatMap]
  induction p with
  | nil => simp
  | cons t p ih =>
    rw [List.flatMap_cons, List.length_append, List.length_cons]
    rcases escapeByteSpec_cases t with ⟨_, e⟩ | ⟨_, _, e, _⟩ | ⟨_, _, e, _⟩
    · rw [e, List.length_nil]; omega
    · rw [e]; omega
    · rw [e, List.length_singleton]; omega

/-- C39: in `escapeUrl` the buffer size `n` the first pass computes is, modulo
2^32 (the width of `unsigned int`), the length of the encoded output plus one,
and it is that number itself for every input whose encoded output, with its
terminator, is shorter than 2^32 bytes. For an input of less than 2^32 / 3
bytes the value of `n` after any part `p` of the input is the length of the
encoding of `p`, plus the number of bytes still to come, plus one: it never
goes below 1. In the second pass the text built from any part of the input,
with its terminator, fits the `n` bytes allocated. -/
theorem escapeUrl_buffer_size (message : Bytes) :
    escapeUrlSize message = ((escapeUrl message).length + 1) % 2 ^ 32 ∧
    ((escapeUrl message).length + 1 < 2 ^ 32 →
      escapeUrlSize message = (escapeUrl message).length + 1 ∧
      ∀ p q, message = p ++ q → (escapeUrlBuild p).length + 1 ≤ escapeUrlSize message) ∧
    (3 * message.length + 1 < 2 ^ 32 →
      ∀ p q, message = p ++ q →
        p.foldl
          (fun n t =>
            if isDropped t then (n + (2 ^ 32 - 1)) % 2 ^ 32
            else if isSpecial t then (n + 2) % 2 ^ 32
            else n) ((message.length + 1) % 2 ^ 32)
          = (escapeUrl p).length + q.length + 1) := by
  have hsize : escapeUrlSize message = ((escapeUrl message).length + 1) % 2 ^ 32 := by
    obtain ⟨i1, i2⟩ := escapeUrlSize_fold message ((message.length + 1) % 2 ^ 32)
      (Nat.mod_lt _ (by norm_num))
    unfold escapeUrlSize
    generalize List.foldl _ _ message = A at i1 i2 ⊢
    norm_num at i1 i2 ⊢
    omega
  refine ⟨hsize, ?_, ?_⟩
  · intro hlt
    have e : escapeUrlSize message = (escapeUrl message).length + 1 := by
      rw [hsize, Nat.mod_eq_of_lt hlt]
    refine ⟨e, ?_⟩
    intro p q hpq
    rw [e, hpq, escapeUrl_append, List.length_append]
    have : escapeUrlBuild p = escapeUrl p := rfl
    rw [this]
    omega
  · intro hlt p q hpq
    obtain ⟨i1, i2⟩ := escapeUrlSize_fold p ((message.length + 1) % 2 ^ 32)
      (Nat.mod_lt _ (by norm_num))
    have hl := escapeUrl_length_le p
    have hm : message.length = p.length + q.length := by
      rw [hpq, List.length_append]
    generalize List.foldl _ _ p = A at i1 i2 ⊢
    norm_num at i1 i2 hlt ⊢
    omega

/-! ### The separators of the payload -/

/-- Joining texts with a one-byte separator that occurs in none of them: the
separator occurs once between two neighbours and nowhere else. -/
theorem count_intercalate (x : Nat) (ls : List Bytes) (hx : ∀ l ∈ ls, x ∉ l) (hls : ls ≠ []) :
    ([x].intercalate ls).count x + 1 = ls.length := by
  induction ls with
  | nil => exact absurd rfl hls
  | cons a ls ih =>
    have ha : a.count x = 0 := List.count_eq_zero.mpr (hx a (by simp))
    cases ls with
    | nil => simp [List.intercalate, ha]
    | cons b ls =>
      have e : [x].intercalate (a :: b :: ls) = a ++ [x] ++ [x].intercalate (b :: ls) := by
        simp [List.intercalate, List.intersperse]
      rw [e, List.count_append, List.count_append, ha]
      have := ih (fun l hl => hx l (by simp [hl])) (by simp)
      simp only [List.count_singleton_self, List.length_cons] at this ⊢
      omega

/-- The digits of a number are none of the bytes below `0`. -/
theorem not_mem_decimal (n c : Nat) (hc : c < 48 ∨ 57 < c) : c ∉ decimal n := by
  intro h
  have := (decimal_digits n).1
  rw [List.all_eq_true] at this
  have hd := this c h
  simp only [isdigit, Bool.and_eq_true, decide_eq_true_eq] at hd
  omega

/-- C34: field and status values cannot add parameters. For every pending
update with at least one component set and created-at unset, the float
formatter emitting no `&`: the payload `writeFields` hands to `writeRaw` is the
`&`-join of the set components; splitting it at every `&` gives exactly the
set components, one piece each, in order; the number of `&` in it is the
number of set components minus one; and each component is a name (`field1` to
`field8`, `lat`, `long`, `elevation` or `status`), a `=`, and a value without
`&`. -/
theorem payload_parameters (P : Platform) (ch : Nat) (key : Option Bytes) (ts : ThingSpeakClass)
    (hset : ¬ pendingEmpty ts) (hca : ts.nextWriteCreatedAt = [])
    (hfmt : ∀ x : Float32, 38 ∉ P.floatToString x) :
    writeFields P ch key ts =
      writeRaw P ch ((bytes "&").intercalate (pendingComponents P ts)) key (consumed ts) ∧
    ((bytes "&").intercalate (pendingComponents P ts)).splitOn 38 = pendingComponents P ts ∧
    ((bytes "&").intercalate (pendingComponents P ts)).count 38 + 1
      = (pendingComponents P ts).length ∧
    (∀ comp ∈ pendingComponents P ts, ∃ name value,
      comp = name ++ bytes "=" ++ value ∧ 38 ∉ value ∧
      (name ∈ [bytes "lat", bytes "long", bytes "elevation", bytes "status"] ∨
        ∃ i : Fin 8, name = bytes "field" ++ decimal (i.val + 1))) := by
  have hne : pendingComponents P ts ≠ [] := fun hc =>
    hset ((pendingComponents_eq_nil_iff P ts).mp hc)
  have hform : ∀ comp ∈ pendingComponents P ts, ∃ name value,
      comp = name ++ bytes "=" ++ value ∧ 38 ∉ value ∧
      (name ∈ [bytes "lat", bytes "long", bytes "elevation", bytes "status"] ∨
        ∃ i : Fin 8, name = bytes "field" ++ decimal (i.val + 1)) := by
    intro comp hc
    rcases mem_pendingComponents P ts comp hc with
      ⟨i, _, rfl⟩ | ⟨_, rfl⟩ | ⟨_, rfl⟩ | ⟨_, rfl⟩ | ⟨_, rfl⟩ | ⟨hcr, _⟩
    · exact ⟨bytes "field" ++ decimal (i.val + 1), escapeUrl (ts.nextWriteField i), rfl,
        amp_not_mem_escapeUrl _, Or.inr ⟨i, rfl⟩⟩
    · exact ⟨bytes "lat", P.floatToString ts.nextWriteLatitude, rfl, hfmt _,
        Or.inl (by simp)⟩
    · exact ⟨bytes "long", P.floatToString ts.nextWriteLongitude, rfl, hfmt _,
        Or.inl (by simp)⟩
    · exact ⟨bytes "elevation", P.floatToString ts.nextWriteElevation, rfl, hfmt _,
        Or.inl (by simp)⟩
    · exact ⟨bytes "status", escapeUrl ts.nextWriteStatus, rfl, amp_not_mem_escapeUrl _,
        Or.inl (by simp)⟩
    · exact absurd hca hcr
  have hamp : ∀ comp ∈ pendingComponents P ts, 38 ∉ comp := by
    intro comp hc
    obtain ⟨name, value, rfl, hv, hn⟩ := hform comp hc
    simp only [List.mem_append, not_or]
    refine ⟨⟨?_, by decide⟩, hv⟩
    rcases hn with hn | ⟨i, rfl⟩
    · simp only [List.mem_cons, List.mem_singleton, List.not_mem_nil, or_false] at hn
      rcases hn with rfl | rfl | rfl | rfl <;> decide
    · simp only [List.mem_append, not_or]
      exact ⟨by decide, not_mem_decimal _ 38 (Or.inl (by decide))⟩
  have e : bytes "&" = [38] := rfl
  refine ⟨?_, ?_, ?_, hform⟩
  · rw [writeFields_eq, if_neg hne]
  · rw [e]
    exact List.splitOn_intercalate _ 38 hamp hne
  · rw [e]
    exact count_intercalate 38 _ hamp hne

set_option maxRecDepth 100000 in
/-- Witness of `payload_parameters`: field 1 holds `a&b=c`, the status holds
`x&field2=9`; the payload has one `&` and its two pieces are the two
components. -/
theorem payload_parameters_witness :
    (bytes "&").intercalate (pendingComponents photon (setStatus (bytes "x&field2=9")
      (setField 1 (bytes "a&b=c") (ThingSpeakClass.construct offline)).2).2)
        = bytes "field1=a%26b=c&status=x%26field2=9" ∧
    (bytes "field1=a%26b=c&status=x%26field2=9").splitOn 38
      = [bytes "field1=a%26b=c", bytes "status=x%26field2=9"] := by
  have hp : pendingComponents photon (setStatus (bytes "x&field2=9")
      (setField 1 (bytes "a&b=c") (ThingSpeakClass.construct offline)).2).2
        = [bytes "field1=a%26b=c", bytes "status=x%26field2=9"] := by
    unfold pendingComponents
    decide
  have h := payload_parameters photon 12 none (setStatus (bytes "x&field2=9")
    (setField 1 (bytes "a&b=c") (ThingSpeakClass.construct offline)).2).2
    (by
      intro hc
      have := hc.2.1
      revert this
      decide)
    rfl (by
      intro x
      show 38 ∉ bytes "1.500000"
      decide)
  have hj : (bytes "&").intercalate (pendingComponents photon (setStatus (bytes "x&field2=9")
      (setField 1 (bytes "a&b=c") (ThingSpeakClass.construct offline)).2).2)
        = bytes "field1=a%26b=c&status=x%26field2=9" := by
    rw [hp]
    decide
  refine ⟨hj, ?_⟩
  have h2 := h.2.1
  rw [hj, hp] at h2
  exact h2

/-! ### Flat objects -/

/-- The search goes on after a byte at which the target does not start. -/
theorem findAfter_cons_skip (t : Bytes) (b : Nat) (rest : Bytes)
    (h : ¬ t <+: b :: rest) : findAfter t (b :: rest) = findAfter t rest := by
  rw [findAfter, if_neg]
  rw [List.isPrefixOf_iff_prefix]
  exact h

/-- The search for a target that starts with a quote goes over bytes that are
not quotes. -/
theorem findAfter_skip (t seg rest : Bytes) (h : ∀ x ∈ seg, x ≠ 34) :
    findAfter (34 :: t) (seg ++ rest) = findAfter (34 :: t) rest := by
  induction seg with
  | nil => rfl
  | cons x seg ih =>
    rw [List.cons_append, findAfter_cons_skip, ih (fun y hy => h y (by simp [hy]))]
    intro hp
    rw [List.cons_prefix_cons] at hp
    exact h x (by simp) hp.1.symm

/-- Two texts without quote, each followed by a quote: if the first with what
follows it starts the second with what follows it, they are the same text. -/
theorem quote_free_start (a : Bytes) :
    ∀ (b x y : Bytes), 34 ∉ a → 34 ∉ b → a ++ 34 :: x <+: b ++ 34 :: y → a = b ∧ x <+: y := by
  induction a with
  | nil =>
    intro b x y _ hb hp
    cases b with
    | nil =>
      rw [List.nil_append, List.nil_append, List.cons_prefix_cons] at hp
      exact ⟨rfl, hp.2⟩
    | cons c b =>
      rw [List.nil_append, List.cons_append, List.cons_prefix_cons] at hp
      exact absurd (by rw [← hp.1]; simp) hb
  | cons c a ih =>
    intro b x y ha hb hp
    cases b with
    | nil =>
      rw [List.cons_append, List.nil_append, List.cons_prefix_cons] at hp
      exact absurd (by rw [hp.1]; simp) ha
    | cons d b =>
      rw [List.cons_append, List.cons_append, List.cons_prefix_cons] at hp
      obtain ⟨e1, e2⟩ := ih b x y (fun h => ha (by simp [h])) (fun h => hb (by simp [h])) hp.2
      exact ⟨by rw [hp.1, e1], e2⟩

/-- The keys of the cache hold no quote and start with a letter. -/
theorem cacheKeys_shape (k : Bytes) (hk : k ∈ cacheKeys) :
    34 ∉ k ∧ ∃ c rest, k = c :: rest ∧ c ≠ 58 ∧ c ≠ 44 ∧ c ≠ 125 := by
  simp only [cacheKeys, List.mem_cons, List.mem_singleton, List.not_mem_nil, or_false] at hk
  rcases hk with h | h | h | h | h | h | h | h | h | h | h | h | h <;> subst h <;>
    exact ⟨by decide, _, _, rfl, by decide, by decide, by decide⟩

/-- The phrase searched for a key. -/
theorem searchPhrase_eq (k : Bytes) :
    bytes "\"" ++ k ++ bytes "\":\"" = 34 :: (k ++ 34 :: [58, 34]) := rfl

/-- A pair of a flat object, byte by byte. -/
theorem flatPair_eq (p : Bytes × Bytes) (s : Bytes) :
    flatPair p ++ s = 34 :: (p.1 ++ 34 :: 58 :: 34 :: (p.2 ++ 34 :: s)) := by
  unfold flatPair
  have e1 : bytes "\"" = [34] := rfl
  have e2 : bytes "\":\"" = [34, 58, 34] := rfl
  rw [e1, e2]
  simp

/-- The search for the phrase of a key stops in the pair of that key, right
before the value. -/
theorem findAfter_flatPair_hit (k v s : Bytes) :
    findAfter (bytes "\"" ++ k ++ bytes "\":\"") (flatPair (k, v) ++ s) = some (v ++ 34 :: s) := by
  have e : flatPair (k, v) ++ s = (bytes "\"" ++ k ++ bytes "\":\"") ++ (v ++ 34 :: s) := by
    unfold flatPair
    have e1 : bytes "\"" = [34] := rfl
    rw [e1]
    simp
  rw [e]
  exact findAfter_at_start _ _ (searchPhrase_ne_nil k)

/-- The search for the phrase of a key goes over the pair of another key, when
what follows the pair starts with a comma or is the closing brace. -/
theorem findAfter_flatPair_skip (k k' v' s : Bytes) (hk : k ∈ cacheKeys) (hk' : 34 ∉ k')
    (hv' : 34 ∉ v') (hne : k ≠ k') (hs : s = [125] ∨ ∃ s', s = 44 :: s') :
    findAfter (bytes "\"" ++ k ++ bytes "\":\"") (flatPair (k', v') ++ s) =
      findAfter (bytes "\"" ++ k ++ bytes "\":\"") s := by
  obtain ⟨hq, c, krest, hkc, c1, c2, c3⟩ := cacheKeys_shape k hk
  rw [searchPhrase_eq, flatPair_eq]
  simp only []
  -- the quote that opens the key
  rw [findAfter_cons_skip]
  swap
  · intro hp
    rw [List.cons_prefix_cons] at hp
    exact hne (quote_free_start k k' _ _ hq hk' hp.2).1
  -- the key
  rw [findAfter_skip _ k' _ (fun x hx h => hk' (h ▸ hx))]
  -- the quote that closes the key
  rw [findAfter_cons_skip]
  swap
  · intro hp
    rw [List.cons_prefix_cons, hkc, List.cons_append, List.cons_prefix_cons] at hp
    exact c1 hp.2.1
  -- the colon
  rw [findAfter_cons_skip]
  swap
  · intro hp
    rw [List.cons_prefix_cons] at hp
    exact absurd hp.1 (by decide)
  -- the quote that opens the value
  rw [findAfter_cons_skip]
  swap
  · intro hp
    rw [List.cons_prefix_cons] at hp
    have h2 := (quote_free_start k v' _ _ hq hv' hp.2).2
    rcases hs with rfl | ⟨s', rfl⟩
    · rw [List.cons_prefix_cons] at h2
      exact absurd h2.1 (by decide)
    · rw [List.cons_prefix_cons] at h2
      exact absurd h2.1 (by decide)
  -- the value
  rw [findAfter_skip _ v' _ (fun x hx h => hv' (h ▸ hx))]
  -- the quote that closes the value
  rw [findAfter_cons_skip]
  intro hp
  rw [List.cons_prefix_cons, hkc, List.cons_append] at hp
  rcases hs with rfl | ⟨s', rfl⟩
  · rw [List.cons_prefix_cons] at hp
    exact c3 hp.2.1
  · rw [List.cons_prefix_cons] at hp
    exact c2 hp.2.1

/-- A text without quote, followed by a quote, read up to the quote. -/
theorem takeWhile_quote (v tail : Bytes) (hv : 34 ∉ v) :
    (v ++ 34 :: tail).takeWhile (fun b => b != 34) = v := by
  induction v with
  | nil => simp [List.takeWhile]
  | cons a v ih =>
    simp only [List.mem_cons, not_or] at hv
    have hane : (a != 34) = true := by
      simp only [bne_iff_ne, ne_eq]
      exact fun h => hv.1 h.symm
    rw [List.cons_append, List.takeWhile_cons, hane]
    simp only [if_true]
    rw [ih hv.2]

/-- The extractor on what follows a pair of a flat object: the pairs still to
come, each after a comma, and the closing brace. -/
theorem extractSpec_tail (k : Bytes) (hk : k ∈ cacheKeys) (pairs : List (Bytes × Bytes))
    (hp : ∀ p ∈ pairs, 34 ∉ p.1 ∧ 34 ∉ p.2) :
    extractSpec (pairs.flatMap (fun p => 44 :: flatPair p) ++ [125]) k = valueOf pairs k := by
  induction pairs with
  | nil =>
    have : findAfter (bytes "\"" ++ k ++ bytes "\":\"") [125] = none := by
      rw [findAfter_eq_none_iff, searchPhrase_eq]
      rintro ⟨s, t, hst⟩
      have := congrArg List.length hst
      simp at this
      omega
    simp only [List.flatMap_nil, List.nil_append, extractSpec, this, valueOf, List.find?_nil]
  | cons p ps ih =>
    obtain ⟨pk, pv⟩ := p
    have hpp : 34 ∉ pk ∧ 34 ∉ pv := hp (pk, pv) (by simp)
    have ih' := ih (fun q hq => hp q (by simp [hq]))
    have hshape : (ps.flatMap (fun p => 44 :: flatPair p) ++ [125] = [125]) ∨
        ∃ s', ps.flatMap (fun p => 44 :: flatPair p) ++ [125] = 44 :: s' := by
      cases ps with
      | nil => left; rfl
      | cons q qs =>
        right
        exact ⟨flatPair q ++ (qs.flatMap (fun p => 44 :: flatPair p) ++ [125]), by
          simp [List.flatMap_cons]⟩
    have hcons : ((pk, pv) :: ps).flatMap (fun p => 44 :: flatPair p) ++ [125] =
        44 :: (flatPair (pk, pv) ++ (ps.flatMap (fun p => 44 :: flatPair p) ++ [125])) := by
      simp [List.flatMap_cons]
    have hstep : findAfter (bytes "\"" ++ k ++ bytes "\":\"")
        (((pk, pv) :: ps).flatMap (fun p => 44 :: flatPair p) ++ [125]) =
        findAfter (bytes "\"" ++ k ++ bytes "\":\"")
          (flatPair (pk, pv) ++ (ps.flatMap (fun p => 44 :: flatPair p) ++ [125])) := by
      rw [hcons, findAfter_cons_skip]
      rw [searchPhrase_eq]
      intro h
      rw [List.cons_prefix_cons] at h
      exact absurd h.1 (by decide)
    by_cases hkey : pk = k
    · subst hkey
      have hv : valueOf ((pk, pv) :: ps) pk = pv := by
        simp [valueOf, List.find?_cons]
      unfold extractSpec
      rw [hstep, findAfter_flatPair_hit, hv]
      simp only []
      rw [if_pos (by simp), takeWhile_quote _ _ hpp.2]
    · have hv : valueOf ((pk, pv) :: ps) k = valueOf ps k := by
        simp [valueOf, List.find?_cons, hkey]
      unfold extractSpec at ih' ⊢
      rw [hstep, findAfter_flatPair_skip k pk pv _ hk hpp.1 hpp.2 (fun h => hkey h.symm)
        hshape, hv]
      exact ih'

/-- A flat object, byte by byte: the braces with nothing between them, or the
opening brace, the first pair, and what follows it. -/
theorem flatObject_eq (p : Bytes × Bytes) (ps : List (Bytes × Bytes)) :
    flatObject [] = [123, 125] ∧
    flatObject (p :: ps) =
      123 :: (flatPair p ++ (ps.flatMap (fun q => 44 :: flatPair q) ++ [125])) := by
  have hj : ∀ (ps : List (Bytes × Bytes)) (p : Bytes × Bytes),
      (bytes ",").intercalate ((p :: ps).map flatPair) =
        flatPair p ++ ps.flatMap (fun q => 44 :: flatPair q) := by
    intro ps
    induction ps with
    | nil => intro p; simp [List.intercalate]
    | cons q qs ih =>
      intro p
      have e : (bytes ",").intercalate ((p :: q :: qs).map flatPair) =
          flatPair p ++ bytes "," ++ (bytes ",").intercalate ((q :: qs).map flatPair) := by
        simp [List.intercalate, List.intersperse]
      rw [e, ih q]
      have : bytes "," = [44] := rfl
      rw [this]
      simp [List.flatMap_cons]
  refine ⟨rfl, ?_⟩
  unfold flatObject
  have e1 : bytes "\x7b" = [123] := rfl
  have e2 : bytes "\x7d" = [125] := rfl
  rw [e1, e2, hj]
  simp

/-- The extractor on a flat object whose keys and values hold no quote: the
value of the first pair with the key, and nothing when the key is not listed. -/
theorem extractSpec_flatObject (k : Bytes) (hk : k ∈ cacheKeys) (pairs : List (Bytes × Bytes))
    (hp : ∀ p ∈ pairs, 34 ∉ p.1 ∧ 34 ∉ p.2) :
    extractSpec (flatObject pairs) k = valueOf pairs k := by
  rw [← extractSpec_tail k hk pairs hp]
  have hnp : ∀ (b : Nat) (rest : Bytes), b ≠ 34 →
      ¬ (bytes "\"" ++ k ++ bytes "\":\"") <+: b :: rest := by
    intro b rest hb h
    rw [searchPhrase_eq, List.cons_prefix_cons] at h
    exact hb h.1.symm
  have hfind : findAfter (bytes "\"" ++ k ++ bytes "\":\"") (flatObject pairs) =
      findAfter (bytes "\"" ++ k ++ bytes "\":\"")
        (pairs.flatMap (fun p => 44 :: flatPair p) ++ [125]) := by
    cases pairs with
    | nil =>
      rw [(flatObject_eq ([], []) []).1]
      simp only [List.flatMap_nil, List.nil_append]
      rw [findAfter_cons_skip _ _ _ (hnp _ _ (by decide))]
    | cons p ps =>
      have hcons : (p :: ps).flatMap (fun p => 44 :: flatPair p) ++ [125] =
          44 :: (flatPair p ++ (ps.flatMap (fun p => 44 :: flatPair p) ++ [125])) := by
        simp [List.flatMap_cons]
      rw [hcons, (flatObject_eq p ps).2,
        findAfter_cons_skip _ _ _ (hnp _ _ (by decide)),
        findAfter_cons_skip _ _ _ (hnp _ _ (by decide))]
  unfold extractSpec
  rw [hfind]

/-- The value listed for a key, the keys being pairwise distinct. -/
theorem valueOf_mem (pairs : List (Bytes × Bytes)) (hnodup : (pairs.map Prod.fst).Nodup)
    (p : Bytes × Bytes) (hp : p ∈ pairs) : valueOf pairs p.1 = p.2 := by
  induction pairs with
  | nil => simp at hp
  | cons q qs ih =>
    rw [List.map_cons, List.nodup_cons] at hnodup
    rcases List.mem_cons.mp hp with rfl | hmem
    · simp [valueOf, List.find?_cons]
    · have hne : ¬ q.1 = p.1 := by
        intro h
        apply hnodup.1
        rw [h]
        exact List.mem_map_of_mem Prod.fst hmem
      have := ih hnodup.2 hmem
      simpa [valueOf, List.find?_cons, hne] using this

/-- No value is listed for a key that no pair has. -/
theorem valueOf_not_mem (pairs : List (Bytes × Bytes)) (k : Bytes)
    (hk : k ∉ pairs.map Prod.fst) : valueOf pairs k = [] := by
  induction pairs with
  | nil => rfl
  | cons q qs ih =>
    rw [List.map_cons, List.mem_cons, not_or] at hk
    have hne : ¬ q.1 = k := fun h => hk.1 h.symm
    have := ih hk.2
    simpa [valueOf, List.find?_cons, hne] using this

/-- The entries of a cache filled by one function of the key. -/
theorem cacheEntry_filled (g : Bytes → Bytes) (k : Bytes) (hk : k ∈ cacheKeys) :
    cacheEntry
      { nextReadField := fun i => g (bytes "field" ++ decimal (i.val + 1))
        nextReadStatus := g (bytes "status")
        nextReadLatitude := g (bytes "latitude")
        nextReadLongitude := g (bytes "longitude")
        nextReadElevation := g (bytes "elevation")
        nextReadCreatedAt := g (bytes "created_at") } k = g k := by
  simp only [cacheKeys, List.mem_cons, List.mem_singleton, List.not_mem_nil, or_false] at hk
  rcases hk with h | h | h | h | h | h | h | h | h | h | h | h | h <;> subst h <;> rfl

/-- C32: flat-object round trip. For every list of pairs with pairwise distinct
keys taken from `field1`..`field8`, `status`, `created_at`, `latitude`,
`longitude`, `elevation` and with values that hold no `"`, in any order: when
the multi-field read succeeds with the flat object of the pairs as its body,
`readMultipleFields` returns 200, the cache entry of every listed key is the
value paired with it, and the cache entry of every key that is not listed is
the empty string. -/
theorem flat_object_round_trip (P : Platform) (ch : Nat) (key : Option Bytes)
    (ts : ThingSpeakClass) (pairs : List (Bytes × Bytes))
    (hkeys : ∀ p ∈ pairs, p.1 ∈ cacheKeys ∧ 34 ∉ p.2)
    (hnodup : (pairs.map Prod.fst).Nodup)
    (hstatus : (readRaw P ch (bytes "/feeds/last.txt?status=true&location=true") key
      ts).2.lastReadStatus = 200)
    (hbody : (readRaw P ch (bytes "/feeds/last.txt?status=true&location=true") key ts).1
      = flatObject pairs) :
    (readMultipleFields P ch key ts).1 = 200 ∧
    (∀ p ∈ pairs, cacheEntry (readMultipleFields P ch key ts).2.lastFeed p.1 = p.2) ∧
    (∀ k ∈ cacheKeys, k ∉ pairs.map Prod.fst →
      cacheEntry (readMultipleFields P ch key ts).2.lastFeed k = []) := by
  obtain ⟨h1, _, h3⟩ := (readMultipleFields_cases P ch key ts).1 hstatus
  have hq : ∀ p ∈ pairs, 34 ∉ p.1 ∧ 34 ∉ p.2 := fun p hp =>
    ⟨(cacheKeys_shape p.1 (hkeys p hp).1).1, (hkeys p hp).2⟩
  have hentry : ∀ k ∈ cacheKeys,
      cacheEntry (readMultipleFields P ch key ts).2.lastFeed k = valueOf pairs k := by
    intro k hk
    rw [h3, cacheEntry_filled (fun k => parseValues (readRaw P ch
      (bytes "/feeds/last.txt?status=true&location=true") key ts).1 k) k hk]
    rw [hbody, parseValues_eq_extractSpec, extractSpec_flatObject k hk pairs hq]
  refine ⟨h1, ?_, ?_⟩
  · intro p hp
    rw [hentry p.1 (hkeys p hp).1, valueOf_mem pairs hnodup p hp]
  · intro k hk hnot
    rw [hentry k hk, valueOf_not_mem pairs k hnot]

set_option maxRecDepth 100000 in
/-- Witness of `flat_object_round_trip`: the body
`{"status":"a,b:c","field2":"12.3","elevation":""}` on a cache that holds `old`
in every entry. -/
theorem flat_object_round_trip_witness :
    flatObject [(bytes "status", bytes "a,b:c"), (bytes "field2", bytes "12.3"),
      (bytes "elevation", [])]
        = bytes "\x7b\"status\":\"a,b:c\",\"field2\":\"12.3\",\"elevation\":\"\"\x7d" ∧
    cacheEntry (readMultipleFields photon 12 none (staleCache (answering
      (bytes "HTTP/1.1 200 OK\r\nA: b\r\n\r\n\x7b\"status\":\"a,b:c\",\"field2\":\"12.3\",\"elevation\":\"\"\x7d")))).2.lastFeed
        (bytes "status") = bytes "a,b:c" ∧
    cacheEntry (readMultipleFields photon 12 none (staleCache (answering
      (bytes "HTTP/1.1 200 OK\r\nA: b\r\n\r\n\x7b\"status\":\"a,b:c\",\"field2\":\"12.3\",\"elevation\":\"\"\x7d")))).2.lastFeed
        (bytes "field2") = bytes "12.3" ∧
    cacheEntry (readMultipleFields photon 12 none (staleCache (answering
      (bytes "HTTP/1.1 200 OK\r\nA: b\r\n\r\n\x7b\"status\":\"a,b:c\",\"field2\":\"12.3\",\"elevation\":\"\"\x7d")))).2.lastFeed
        (bytes "field1") = [] := by
  have h := flat_object_round_trip photon 12 none (staleCache (answering
      (bytes "HTTP/1.1 200 OK\r\nA: b\r\n\r\n\x7b\"status\":\"a,b:c\",\"field2\":\"12.3\",\"elevation\":\"\"\x7d")))
    [(bytes "status", bytes "a,b:c"), (bytes "field2", bytes "12.3"), (bytes "elevation", [])]
    (by decide) (by decide) (by decide) (by decide)
  refine ⟨by decide, ?_, ?_, ?_⟩
  · exact h.2.1 (bytes "status", bytes "a,b:c") (by simp)
  · exact h.2.1 (bytes "field2", bytes "12.3") (by simp)
  · exact h.2.2 (bytes "field1") (by decide) (by decide)

/-! ### The range of the float conversion -/

/-- Order of the magnitudes of finite values: by exponent and mantissa read as
one number, against the range limit. -/
theorem key_scaled (e m : Nat) (he : e < 255) (hm : m < 8388608) :
    1399379094 < e * 8388608 + m ↔
      999999012864 * 2 ^ 149 < (if e = 0 then m else (8388608 + m) * 2 ^ (e - 1)) := by
  have hL : (999999012864 : Nat) * 2 ^ 149 = 15258774 * 2 ^ 165 := by norm_num
  rw [hL]
  by_cases h0 : e = 0
  · subst h0
    simp only [if_true]
    constructor
    · intro h; omega
    · intro h
      have : (15258774 : Nat) * 2 ^ 165 ≥ 8388608 := by norm_num
      omega
  · rw [if_neg h0]
    by_cases h1 : e = 166
    · subst h1
      have : (166 : Nat) - 1 = 165 := rfl
      rw [this]
      constructor
      · intro h
        exact Nat.mul_lt_mul_of_pos_right (by omega) (by positivity)
      · intro h
        have := Nat.lt_of_mul_lt_mul_right h
        omega
    · by_cases h2 : e < 166
      · have hp : 2 ^ (e - 1) ≤ 2 ^ 164 := Nat.pow_le_pow_right (by norm_num) (by omega)
        have hle : (8388608 + m) * 2 ^ (e - 1) ≤ 16777216 * 2 ^ 164 :=
          Nat.mul_le_mul (by omega) hp
        have hc : (16777216 : Nat) * 2 ^ 164 < 15258774 * 2 ^ 165 := by norm_num
        constructor
        · intro h; omega
        · intro h
          exact absurd (Nat.lt_of_lt_of_le h hle) (Nat.lt_asymm hc)
      · have hp : 2 ^ 166 ≤ 2 ^ (e - 1) := Nat.pow_le_pow_right (by norm_num) (by omega)
        have hge : 8388608 * 2 ^ 166 ≤ (8388608 + m) * 2 ^ (e - 1) :=
          Nat.mul_le_mul (by omega) hp
        have hc : (15258774 : Nat) * 2 ^ 165 < 8388608 * 2 ^ 166 := by norm_num
        constructor
        · intro _
          exact Nat.lt_of_lt_of_le hc hge
        · intro _
          omega

/-- The test of `convertFloatToChar`, on the bit fields of the value. -/
theorem outOfRange_iff (value : Float32) :
    (!value.isinf && (rangeLimit.lt value || value.lt negRangeLimit)) = true ↔
      value.isinf = false ∧ value.isnan = false ∧ 999999012864 * 2 ^ 149 < value.scaled := by
  obtain ⟨s, e, m⟩ := value
  have he := e.isLt
  have hm := m.isLt
  have hrn : rangeLimit.isnan = false := by decide
  have hnn : negRangeLimit.isnan = false := by decide
  have hrk : rangeLimit.key = 1399379094 := by decide
  have hnk : negRangeLimit.key = -1399379094 := by decide
  simp only [Float32.lt, hrn, hnn, hrk, hnk, Bool.not_false, Bool.true_and, Bool.and_true]
  by_cases h255 : e.val = 255
  · -- infinite or NaN
    have hsplit : Float32.isinf ⟨s, e, m⟩ = true ∨ Float32.isnan ⟨s, e, m⟩ = true := by
      simp only [Float32.isinf, Float32.isnan, h255, beq_self_eq_true, Bool.true_and,
        beq_iff_eq, bne_iff_ne, ne_eq]
      omega
    rcases hsplit with h | h
    · simp [h]
    · simp [h]
  · have hinf : Float32.isinf ⟨s, e, m⟩ = false := by
      simp [Float32.isinf, h255]
    have hnan : Float32.isnan ⟨s, e, m⟩ = false := by
      simp [Float32.isnan, h255]
    have hks := key_scaled e.val m.val (by omega) hm
    simp only [hinf, hnan, Bool.not_false, Bool.true_and, true_and, Float32.scaled,
      Bool.or_eq_true, decide_eq_true_eq, Float32.key]
    rw [← hks]
    cases s
    · simp only [Bool.false_eq_true, if_false]
      constructor
      · rintro (h | h)
        · omega
        · omega
      · intro h
        left
        omega
    · simp only [if_true]
      constructor
      · rintro (h | h)
        · omega
        · omega
      · intro h
        right
        omega

/-- C31 (amended): `convertFloatToChar` fails with OutOfRange (-101) exactly
when the value is neither an infinity nor NaN and its magnitude exceeds
999,999,012,864, the `float` nearest to 999,999,000,000 (to which the constant
of the comparison is converted); a value of that very magnitude is accepted. On
failure the buffer is left as it was and `setField` and `writeField` return
-101 with the object, and with it the pending update and the transport,
unchanged. Otherwise the status is 200 and the text is the one `sprintf` writes
for `%.5f`, which has exactly 5 digits after the decimal point when the value
is finite, `sprintf` being taken to print finite values so. -/
theorem float_encoding_range (P : Platform) (value : Float32) (valueString : Bytes)
    (ch field : Nat) (key : Option Bytes) (ts : ThingSpeakClass) :
    ((convertFloatToChar P value valueString).1 = -101 ↔
      value.isinf = false ∧ value.isnan = false ∧ 999999012864 * 2 ^ 149 < value.scaled) ∧
    ((convertFloatToChar P value valueString).1 = -101 →
      convertFloatToChar P value valueString = (-101, valueString) ∧
      setFieldFloat P field value ts = (-101, ts) ∧
      writeFieldFloat P ch field value key ts = (-101, ts)) ∧
    ((convertFloatToChar P value valueString).1 ≠ -101 →
      convertFloatToChar P value valueString = (200, P.sprintf5f value)) ∧
    ((∀ x : Float32, x.isinf = false → x.isnan = false →
        fiveDecimals (P.sprintf5f x) = true) →
      value.isinf = false → value.isnan = false →
      (convertFloatToChar P value valueString).1 ≠ -101 →
      fiveDecimals (convertFloatToChar P value valueString).2 = true) := by
  have hcases : ∀ b : Bytes,
      ((!value.isinf && (rangeLimit.lt value || value.lt negRangeLimit)) = true →
        convertFloatToChar P value b = (-101, b)) ∧
      (¬ (!value.isinf && (rangeLimit.lt value || value.lt negRangeLimit)) = true →
        convertFloatToChar P value b = (200, P.sprintf5f value)) := by
    intro b
    unfold convertFloatToChar
    constructor
    · intro h
      rw [if_pos h]
      rfl
    · intro h
      rw [if_neg h]
      rfl
  have hiff : ∀ b : Bytes, (convertFloatToChar P value b).1 = -101 ↔
      (!value.isinf && (rangeLimit.lt value || value.lt negRangeLimit)) = true := by
    intro b
    by_cases h : (!value.isinf && (rangeLimit.lt value || value.lt negRangeLimit)) = true
    · rw [(hcases b).1 h]
      exact ⟨fun _ => h, fun _ => rfl⟩
    · rw [(hcases b).2 h]
      exact ⟨fun h' => absurd (show (200 : Int) = -101 from h') (by decide),
        fun h' => absurd h' h⟩
  refine ⟨(hiff valueString).trans (outOfRange_iff value), ?_, ?_, ?_⟩
  · intro h
    have hc := (hiff valueString).mp h
    have h0 : convertFloatToChar P value [] = (-101, []) := (hcases []).1 hc
    refine ⟨(hcases valueString).1 hc, ?_, ?_⟩
    · unfold setFieldFloat
      rw [h0, if_pos (by decide)]
    · unfold writeFieldFloat
      rw [h0, if_pos (by decide)]
  · intro h
    exact (hcases valueString).2 (fun hc => h ((hiff valueString).mpr hc))
  · intro hfmt hi hn h
    rw [(hcases valueString).2 (fun hc => h ((hiff valueString).mpr hc))]
    exact hfmt value hi hn

/-- C31 (as stated, refuted): the `float` 999999012864 is not an infinity and
its magnitude exceeds 999,999,000,000, yet `convertFloatToChar` accepts it and
`setField` returns 200 for it; the same for -999999012864. -/
theorem float_encoding_counterexample :
    rangeLimit.isinf = false ∧ rangeLimit.isnan = false ∧
    rangeLimit.scaled = 999999012864 * 2 ^ 149 ∧
    999999000000 * 2 ^ 149 < rangeLimit.scaled ∧
    (convertFloatToChar photon rangeLimit []).1 = 200 ∧
    (setFieldFloat photon 1 rangeLimit (ThingSpeakClass.construct offline)).1 = 200 ∧
    negRangeLimit.isinf = false ∧ 999999000000 * 2 ^ 149 < negRangeLimit.scaled ∧
    (convertFloatToChar photon negRangeLimit []).1 = 200 := by
  refine ⟨by decide, by decide, by decide, by decide, by decide, by decide, by decide,
    by decide, by decide⟩

end ThingSpeak
